import Mathlib

/-!
# TCP options list of the ROHC TCP compression profile

A shallow embedding of `src/comp/c_tcp_opts_list.c` and the properties of the
options acceptor, the index allocator, the change detector and the irregular
chain encoder.

Conventions of the embedding:

* machine integers are natural numbers; a conversion that may wrap is written
  with an explicit modulus (`size_t` is 64 bits wide);
* a `const uint8_t *` argument is a reader `Nat → Nat` giving the byte found at
  each index from the pointer; a pointer into the options block is the offset
  of its first byte in the block;
* the parallel arrays `data[]`, `types[]`, `lengths[]` of the parsed options,
  of which the first `nr` entries are set, are a list of `nr` records;
* fixed-size arrays indexed by an option index or a position are functions on
  natural numbers, updated with `upd`;
* traces (`rohc_debug`, `rohc_comp_debug`, `rohc_comp_warn`) are dropped.
-/

namespace RohcTcpOpts

/-! ## Constants declared in headers that are outside the source file -/

/-- Modelled from the spec: kind code of the EOL option (§3.1), `TCP_OPT_EOL` in the headers. -/
abbrev TCP_OPT_EOL : Nat := 0
/-- Modelled from the spec: kind code of the NOP option (§3.1), `TCP_OPT_NOP` in the headers. -/
abbrev TCP_OPT_NOP : Nat := 1
/-- Modelled from the spec: kind code of the MSS option (§3.1), `TCP_OPT_MSS` in the headers. -/
abbrev TCP_OPT_MSS : Nat := 2
/-- Modelled from the spec: kind code of the WS option (§3.1), `TCP_OPT_WS` in the headers. -/
abbrev TCP_OPT_WS : Nat := 3
/-- Modelled from the spec: kind code of the SACK-Permitted option (§3.1). -/
abbrev TCP_OPT_SACK_PERM : Nat := 4
/-- Modelled from the spec: kind code of the SACK option (§3.1), `TCP_OPT_SACK` in the headers. -/
abbrev TCP_OPT_SACK : Nat := 5
/-- Modelled from the spec: kind code of the TS option (§3.1), `TCP_OPT_TS` in the headers. -/
abbrev TCP_OPT_TS : Nat := 8

/-- Modelled from the spec: reserved index of NOP (§3.1). -/
abbrev TCP_INDEX_NOP : Nat := 0
/-- Modelled from the spec: reserved index of EOL (§3.1). -/
abbrev TCP_INDEX_EOL : Nat := 1
/-- Modelled from the spec: reserved index of MSS (§3.1). -/
abbrev TCP_INDEX_MSS : Nat := 2
/-- Modelled from the spec: reserved index of WS (§3.1). -/
abbrev TCP_INDEX_WS : Nat := 3
/-- Modelled from the spec: reserved index of TS (§3.1). -/
abbrev TCP_INDEX_TS : Nat := 4
/-- Modelled from the spec: reserved index of SACK-Permitted (§3.1). -/
abbrev TCP_INDEX_SACK_PERM : Nat := 5
/-- Modelled from the spec: reserved index of SACK (§3.1). -/
abbrev TCP_INDEX_SACK : Nat := 6
/-- Modelled from the spec: first generic index (§3.1, generic slots are 7..15). -/
abbrev TCP_INDEX_GENERIC7 : Nat := 7
/-- Modelled from the spec: last option index (§3.1, the table has indices 0..15). -/
abbrev MAX_TCP_OPTION_INDEX : Nat := 15

/-- Modelled from the spec: fixed length of the MSS option (§3.1). -/
abbrev TCP_OLEN_MSS : Nat := 4
/-- Modelled from the spec: fixed length of the WS option (§3.1). -/
abbrev TCP_OLEN_WS : Nat := 3
/-- Modelled from the spec: fixed length of the SACK-Permitted option (§3.1). -/
abbrev TCP_OLEN_SACK_PERM : Nat := 2
/-- Modelled from the spec: fixed length of the TS option (§3.1). -/
abbrev TCP_OLEN_TS : Nat := 10
/-- Modelled from the spec: maximum length of one option (§6), `ROHC_TCP_OPT_MAX_LEN`. -/
abbrev ROHC_TCP_OPT_MAX_LEN : Nat := 40
/-- Modelled from the spec: maximum number of options per packet (§6), `ROHC_TCP_OPTS_MAX`. -/
abbrev ROHC_TCP_OPTS_MAX : Nat := 15
/-- Modelled from the spec: maximum number of SACK blocks (§6), `TCP_SACK_BLOCKS_MAX_NR`. -/
abbrev TCP_SACK_BLOCKS_MAX_NR : Nat := 4
/-- Modelled from the spec: size of one SACK block, two 32-bit numbers (§3.1: 2 + 8·N),
`sizeof(sack_block_t)`. -/
abbrev sizeof_sack_block_t : Nat := 8
/-- Modelled from the spec: size of the TCP base header (§4.A: L = data_offset*4 − 20),
`sizeof(struct tcphdr)`. -/
abbrev sizeof_tcphdr : Nat := 20

/-- Number of values of a `size_t`. -/
abbrev SIZE_MAX1 : Nat := 2 ^ 64

/-- The `size_t` obtained from the `int` expression `opt_len - 2` of an 8-bit `opt_len`. -/
def len_minus_2 (opt_len : Nat) : Nat := (opt_len + SIZE_MAX1 - 2) % SIZE_MAX1

/-! ## Memory -/

/-- The reader of the bytes found from offset `off` of the block `mem`
(the pointer `mem + off`). -/
def ptr (mem : List Nat) (off : Nat) : Nat → Nat := fun i => mem.getD (off + i) 0

/-- Array update `a[i] = v`. -/
def upd {α : Type} (a : Nat → α) (i : Nat) (v : α) : Nat → α :=
  fun j => if j = i then v else a j

/-- The test `memcmp(a, b, n) != 0`. -/
def memcmp_ne (a b : Nat → Nat) (n : Nat) : Bool :=
  (List.range n).any (fun i => a i != b i)

/-! ## Parsed options -/

/-- Entry `opt_pos` of the arrays `data[]`, `types[]` and `lengths[]` of
`uncomp_pkt_hdrs->tcp_opts`. -/
structure tcp_opt_descr where
  /-- offset in the options block of the first byte of the option -/
  data : Nat
  /-- the kind of the option -/
  type : Nat
  /-- the length of the option, type and length bytes included -/
  length : Nat
  deriving DecidableEq, Repr

/-- The parsed options `uncomp_pkt_hdrs->tcp_opts`, with the block they point into. -/
structure rohc_tcp_opts where
  /-- the raw options block -/
  opts : List Nat
  /-- the first `nr` entries of `data[]`, `types[]`, `lengths[]` -/
  descrs : List tcp_opt_descr
  /-- total length of the options -/
  tot_len : Nat
  deriving DecidableEq, Repr

/-- Field `nr`. -/
def rohc_tcp_opts.nr (h : rohc_tcp_opts) : Nat := h.descrs.length

/-- Array `types[]`. -/
def rohc_tcp_opts.types (h : rohc_tcp_opts) : List Nat := h.descrs.map (·.type)

/-- Array `lengths[]`. -/
def rohc_tcp_opts.lengths (h : rohc_tcp_opts) : List Nat := h.descrs.map (·.length)

/-- The bytes of the option recorded by `d`: `length` bytes from `data`. -/
def slice (opts : List Nat) (d : tcp_opt_descr) : List Nat :=
  (opts.drop d.data).take d.length

/-! ## Options acceptor -/

/-- Embedding of `c_tcp_opt_get_type_len`: type and length of the next option,
`none` when it is malformed. -/
def c_tcp_opt_get_type_len (opts_data : Nat → Nat) (opts_len : Nat) : Option (Nat × Nat) :=
  if opts_len < 1 then none
  else
    let opt_type := opts_data 0
    if opt_type = TCP_OPT_NOP then some (opt_type, 1)
    else if opt_type = TCP_OPT_EOL then some (opt_type, opts_len % 256)
    else if opts_len < 2 then none
    else
      let opt_len := opts_data 1
      if opt_len < 2 ∨ opt_len > opts_len then none
      else some (opt_type, opt_len)

/-- Embedding of `rohc_comp_tcp_are_opts_wellformed`. -/
def rohc_comp_tcp_are_opts_wellformed (opt_type opt_len : Nat) (opt : Nat → Nat) : Bool :=
  if opt_type = TCP_OPT_EOL then
    let max_eol_opt_len := (0xff + 8) / 8
    if opt_len > max_eol_opt_len then false
    else (List.range opt_len).all (fun i => opt i == TCP_OPT_EOL)
  else if opt_type = TCP_OPT_MSS then
    if opt_len ≠ TCP_OLEN_MSS then false else true
  else if opt_type = TCP_OPT_WS then
    if opt_len ≠ TCP_OLEN_WS then false else true
  else if opt_type = TCP_OPT_SACK_PERM then
    if opt_len ≠ TCP_OLEN_SACK_PERM then false else true
  else if opt_type = TCP_OPT_SACK then
    let sack_blocks_remain := len_minus_2 opt_len % sizeof_sack_block_t
    let sack_blocks_nr := len_minus_2 opt_len / sizeof_sack_block_t
    if sack_blocks_remain ≠ 0 ∨ sack_blocks_nr = 0 ∨ sack_blocks_nr > TCP_SACK_BLOCKS_MAX_NR
    then false else true
  else if opt_type = TCP_OPT_TS then
    if opt_len ≠ TCP_OLEN_TS then false else true
  else true

/-- The parsing loop of `rohc_comp_tcp_are_options_acceptable`. The first
argument is the number of iterations left, `ROHC_TCP_OPTS_MAX - opt_pos`; the
result is the final `opts_offset` with the entries recorded from `opt_pos` on,
or `none` after a jump to `bad_opts`. -/
def parse_loop (opts : List Nat) (opts_len : Nat) :
    Nat → Nat → (Nat → Nat) → Option (Nat × List tcp_opt_descr)
  | 0, opts_offset, _ => some (opts_offset, [])
  | n + 1, opts_offset, opt_types_count =>
    if opts_offset < opts_len then
      match c_tcp_opt_get_type_len (ptr opts opts_offset) (opts_len - opts_offset) with
      | none => none
      | some (opt_type, opt_len) =>
        if opt_len > ROHC_TCP_OPT_MAX_LEN then none
        else if opt_types_count opt_type ≥ 255 then none
        else
          let count := upd opt_types_count opt_type (opt_types_count opt_type + 1)
          if opt_type ≠ TCP_OPT_EOL ∧ opt_type ≠ TCP_OPT_NOP ∧ count opt_type > 1 then none
          else if ¬ rohc_comp_tcp_are_opts_wellformed opt_type opt_len (ptr opts opts_offset)
          then none
          else
            match parse_loop opts opts_len n (opts_offset + opt_len) count with
            | none => none
            | some (off, ds) => some (off, ⟨opts_offset, opt_type, opt_len⟩ :: ds)
    else some (opts_offset, [])

/-- The length of the options computed by `rohc_comp_tcp_are_options_acceptable`:
`data_offset * sizeof(uint32_t) - sizeof(struct tcphdr)` on `size_t`. -/
def opts_len_of (data_offset : Nat) : Nat :=
  (data_offset * 4 % SIZE_MAX1 + (SIZE_MAX1 - sizeof_tcphdr)) % SIZE_MAX1

/-- The end of `rohc_comp_tcp_are_options_acceptable`, after its loop stopped at
offset `opts_offset` with the entries `ds` recorded (`opt_pos` is their number):
the test that jumps to `bad_opts`, then the fields `nr` and `tot_len`. -/
def accept_end (opts : List Nat) (opts_len : Nat) (r : Nat × List tcp_opt_descr) :
    Option rohc_tcp_opts :=
  if r.2.length > ROHC_TCP_OPTS_MAX ∨ r.1 ≠ opts_len then none
  else some ⟨opts, r.2, opts_len⟩

/-- Embedding of `rohc_comp_tcp_are_options_acceptable`: the parsed options
when the function returns true, `none` when it returns false. -/
def rohc_comp_tcp_are_options_acceptable (opts : List Nat) (data_offset : Nat) :
    Option rohc_tcp_opts :=
  (parse_loop opts (opts_len_of data_offset) ROHC_TCP_OPTS_MAX 0 (fun _ => 0)).bind
    (accept_end opts (opts_len_of data_offset))

/-! ## Compression context -/

/-- The context of one option index, `struct c_tcp_opt_ctxt` (§3.2). -/
structure c_tcp_opt_ctxt where
  /-- whether the slot was ever populated -/
  used : Bool
  /-- the option kind held by the slot -/
  type : Nat
  /-- the length of the last option seen -/
  data_len : Nat
  /-- the content of the last option seen -/
  payload : List Nat
  /-- the number of transmissions of the full list item -/
  full_trans_nr : Nat
  /-- the number of transmissions of the dynamic part -/
  dyn_trans_nr : Nat
  /-- the age of the slot -/
  age : Nat

/-- The context of the options, `struct c_tcp_opts_ctxt` (§3.2). A W-LSB window
is held as what the oracle `wlsb_is_kp_possible_32bits` answers on it: the
Boolean for a value and a number `k` of bytes, that is for the parameters
`ROHC_SDVL_MAX_BITS_IN_k_BYTE(S)` and `ROHC_LSB_SHIFT_TCP_TS_kB`. -/
structure c_tcp_opts_ctxt where
  /-- the 16 slots -/
  list : Nat → c_tcp_opt_ctxt
  /-- the kinds of the options of the previous packet -/
  old_structure : Nat → Nat
  /-- the number of options of the previous packet -/
  old_structure_nr : Nat
  /-- the number of transmissions of the structure -/
  structure_nr_trans : Nat
  /-- the oracle on the window of the TS echo request -/
  ts_req_wlsb : Nat → Nat → Bool
  /-- the oracle on the window of the TS echo reply -/
  ts_reply_wlsb : Nat → Nat → Bool

/-- One entry of `changes[]` in the temporary state (§3.4). -/
structure tcp_opt_changes where
  /-- whether the index is in use -/
  used : Bool
  /-- whether the index was recycled for this packet -/
  is_index_recycled : Bool
  /-- whether the static part changed -/
  static_changed : Bool
  /-- whether the dynamic part changed -/
  dyn_changed : Bool
  deriving DecidableEq, Repr

/-- The temporary state of one packet, `struct c_tcp_opts_ctxt_tmp` (§3.4). -/
structure c_tcp_opts_ctxt_tmp where
  /-- the changes per index -/
  changes : Nat → tcp_opt_changes
  /-- whether the item of the index is needed in the CO chain -/
  list_item_needed : Nat → Bool
  /-- the index of the option at each position -/
  position2index : Nat → Nat
  /-- the largest index of the packet -/
  idx_max : Nat
  /-- whether the structure of the list changed -/
  do_list_struct_changed : Bool
  /-- whether the list shall be transmitted -/
  is_list_needed : Bool
  /-- the TS echo request -/
  ts_req : Nat
  /-- the number of bytes for the TS echo request -/
  ts_req_bytes_nr : Nat
  /-- the TS echo reply -/
  ts_reply : Nat
  /-- the number of bytes for the TS echo reply -/
  ts_reply_bytes_nr : Nat

/-- The kinds of change, `rohc_change_t`. -/
inductive rohc_change_t where
  | ROHC_CHANGE_NONE
  | ROHC_CHANGE_DYNAMIC
  | ROHC_CHANGE_STATIC
  deriving DecidableEq, Repr

/-- Modelled from the spec: the chains that carry the list of options (§4.D.1:
dynamic, replicate and CO chains), `rohc_chain_t` in the headers. -/
inductive rohc_chain_t where
  | ROHC_CHAIN_DYNAMIC
  | ROHC_CHAIN_REPLICATE
  | ROHC_CHAIN_CO
  deriving DecidableEq, Repr

open rohc_change_t rohc_chain_t

/-! ## Index allocator -/

/-- The length of the table `c_tcp_type2index`. -/
abbrev TCP_LIST_ITEM_MAP_LEN : Nat := 16

/-- The table `c_tcp_type2index`. -/
def c_tcp_type2index : Nat → Int
  | 0 => TCP_INDEX_EOL
  | 1 => TCP_INDEX_NOP
  | 2 => TCP_INDEX_MSS
  | 3 => TCP_INDEX_WS
  | 4 => TCP_INDEX_SACK_PERM
  | 5 => TCP_INDEX_SACK
  | 8 => TCP_INDEX_TS
  | _ => -1

/-- The values of `opt_idx` in a loop
`for(opt_idx = TCP_INDEX_GENERIC7; opt_idx <= MAX_TCP_OPTION_INDEX; opt_idx++)`. -/
def generic_indexes : List Nat :=
  List.range' TCP_INDEX_GENERIC7 (MAX_TCP_OPTION_INDEX + 1 - TCP_INDEX_GENERIC7)

/-- The test `(indexes_in_use & (1 << opt_idx)) == 0`. -/
def index_is_free (indexes_in_use opt_idx : Nat) : Bool :=
  (indexes_in_use &&& (1 <<< opt_idx)) == 0

/-- The third loop of `c_tcp_get_opt_index`: the pair `(oldest_idx, oldest_idx_age)`
after the loop. -/
def oldest_index (opts_ctxt : c_tcp_opts_ctxt) (indexes_in_use : Nat) : Nat × Nat :=
  generic_indexes.foldl
    (fun (acc : Nat × Nat) opt_idx =>
      if index_is_free indexes_in_use opt_idx ∧ (opts_ctxt.list opt_idx).used = true ∧
          (opts_ctxt.list opt_idx).age > acc.2
      then (opt_idx, (opts_ctxt.list opt_idx).age) else acc)
    (0, 0)

/-- Embedding of `c_tcp_get_opt_index`: the index and the value of `*recycle_index`.
A loop that runs while `opt_idx_free < 0` stops at the first index that passes
its test: it is a `find?`. -/
def c_tcp_get_opt_index (opts_ctxt : c_tcp_opts_ctxt) (opt_type indexes_in_use : Nat) :
    Nat × Bool :=
  if opt_type < TCP_LIST_ITEM_MAP_LEN ∧ c_tcp_type2index opt_type ≥ 0 then
    ((c_tcp_type2index opt_type).toNat, false)
  else
    match generic_indexes.find?
        (fun opt_idx => (opts_ctxt.list opt_idx).used && (opts_ctxt.list opt_idx).type == opt_type) with
    | some opt_idx_free => (opt_idx_free, false)
    | none =>
      match generic_indexes.find?
          (fun opt_idx => !(opts_ctxt.list opt_idx).used && index_is_free indexes_in_use opt_idx) with
      | some opt_idx_free => (opt_idx_free, false)
      | none => ((oldest_index opts_ctxt indexes_in_use).1, true)

/-! ## Change detector -/

/-- Embedding of `c_tcp_is_list_item_needed`. -/
def c_tcp_is_list_item_needed (oa_repetitions_nr : Nat) (chain_type : rohc_chain_t)
    (opt_type : Nat) (opt_static_changed : Bool) (opt_nr_trans : Nat) : Bool :=
  if chain_type = ROHC_CHAIN_CO ∧ (opt_type = TCP_OPT_NOP ∨ opt_type = TCP_OPT_SACK_PERM) then false
  else if opt_static_changed then true
  else if opt_nr_trans = 0 then true
  else if opt_nr_trans < oa_repetitions_nr then true
  else false

/-- Embedding of `c_tcp_detect_flag_opt_changes` (NOP, SACK-Permitted). -/
def c_tcp_detect_flag_opt_changes (opt_ctxt : c_tcp_opt_ctxt) : rohc_change_t :=
  if ¬ opt_ctxt.used then ROHC_CHANGE_STATIC else ROHC_CHANGE_NONE

/-- The reader of the array `payload` of a slot. -/
def payload_ptr (opt_ctxt : c_tcp_opt_ctxt) : Nat → Nat := ptr opt_ctxt.payload 0

/-- Embedding of `c_tcp_detect_static_opt_changes` (EOL, MSS, WS). -/
def c_tcp_detect_static_opt_changes (opt_ctxt : c_tcp_opt_ctxt) (opt_data : Nat → Nat)
    (opt_len : Nat) : rohc_change_t :=
  if ¬ opt_ctxt.used then ROHC_CHANGE_STATIC
  else if opt_ctxt.data_len ≠ opt_len ∨
      memcmp_ne (payload_ptr opt_ctxt) (fun i => opt_data (2 + i)) (len_minus_2 opt_len) then
    ROHC_CHANGE_STATIC
  else ROHC_CHANGE_NONE

/-- Embedding of `tcp_opt_ts_one_can_be_encoded`; `wlsb k` is
`wlsb_is_kp_possible_32bits` on the window with the parameters for `k` bytes. -/
def tcp_opt_ts_one_can_be_encoded (wlsb : Nat → Nat → Bool) (ts : Nat) : Nat :=
  if wlsb ts 1 then 1
  else if wlsb ts 2 then 2
  else if wlsb ts 3 then 3
  else if wlsb ts 4 then 4
  else 0

/-- The value `rohc_ntoh32` of the four bytes found at `p`. -/
def rohc_ntoh32_at (p : Nat → Nat) : Nat :=
  p 0 * 2 ^ 24 + p 1 * 2 ^ 16 + p 2 * 2 ^ 8 + p 3

/-- Embedding of `c_tcp_detect_ts_changes`: the change and the temporary state
with the four TS fields set. -/
def c_tcp_detect_ts_changes (opts_ctxt : c_tcp_opts_ctxt) (opt_ctxt : c_tcp_opt_ctxt)
    (tmp : c_tcp_opts_ctxt_tmp) (opt_data : Nat → Nat) : rohc_change_t × c_tcp_opts_ctxt_tmp :=
  let ts_req := rohc_ntoh32_at (fun i => opt_data (2 + i))
  let ts_req_bytes_nr := tcp_opt_ts_one_can_be_encoded opts_ctxt.ts_req_wlsb ts_req
  let ts_reply := rohc_ntoh32_at (fun i => opt_data (6 + i))
  let ts_reply_bytes_nr := tcp_opt_ts_one_can_be_encoded opts_ctxt.ts_reply_wlsb ts_reply
  let tmp1 := { tmp with ts_req := ts_req, ts_req_bytes_nr := ts_req_bytes_nr,
                         ts_reply := ts_reply, ts_reply_bytes_nr := ts_reply_bytes_nr }
  if ¬ opt_ctxt.used then (ROHC_CHANGE_STATIC, tmp1)
  else if ts_req_bytes_nr = 0 ∨ ts_reply_bytes_nr = 0 then (ROHC_CHANGE_STATIC, tmp1)
  else (ROHC_CHANGE_DYNAMIC, tmp1)

/-- Embedding of `c_tcp_detect_sack_changes`. -/
def c_tcp_detect_sack_changes (opt_ctxt : c_tcp_opt_ctxt) (tcp_ack_num_changed : Bool)
    (opt_data : Nat → Nat) (opt_len : Nat) : rohc_change_t :=
  if ¬ opt_ctxt.used then ROHC_CHANGE_STATIC
  else if tcp_ack_num_changed then ROHC_CHANGE_DYNAMIC
  else if opt_len ≠ opt_ctxt.data_len ∨
      memcmp_ne (payload_ptr opt_ctxt) (fun i => opt_data (2 + i)) (len_minus_2 opt_len) then
    ROHC_CHANGE_DYNAMIC
  else ROHC_CHANGE_NONE

/-- Embedding of `c_tcp_detect_generic_changes`. -/
def c_tcp_detect_generic_changes (opt_ctxt : c_tcp_opt_ctxt) (opt_data : Nat → Nat)
    (opt_len : Nat) : rohc_change_t :=
  if ¬ opt_ctxt.used then ROHC_CHANGE_STATIC
  else if opt_len ≠ opt_ctxt.data_len then ROHC_CHANGE_STATIC
  else if memcmp_ne (payload_ptr opt_ctxt) (fun i => opt_data (2 + i)) (len_minus_2 opt_len) then
    ROHC_CHANGE_DYNAMIC
  else ROHC_CHANGE_NONE

/-- The call `c_tcp_opts[opt_idx].detect_changes(...)`: the detector that the
table `c_tcp_opts` gives for the index. -/
def c_tcp_opts_detect_changes (opt_idx : Nat) (opts_ctxt : c_tcp_opts_ctxt)
    (opt_ctxt : c_tcp_opt_ctxt) (tmp : c_tcp_opts_ctxt_tmp) (tcp_ack_num_changed : Bool)
    (opt_data : Nat → Nat) (opt_len : Nat) : rohc_change_t × c_tcp_opts_ctxt_tmp :=
  if opt_idx = TCP_INDEX_NOP then (c_tcp_detect_flag_opt_changes opt_ctxt, tmp)
  else if opt_idx = TCP_INDEX_EOL then (c_tcp_detect_static_opt_changes opt_ctxt opt_data opt_len, tmp)
  else if opt_idx = TCP_INDEX_MSS then (c_tcp_detect_static_opt_changes opt_ctxt opt_data opt_len, tmp)
  else if opt_idx = TCP_INDEX_WS then (c_tcp_detect_static_opt_changes opt_ctxt opt_data opt_len, tmp)
  else if opt_idx = TCP_INDEX_TS then c_tcp_detect_ts_changes opts_ctxt opt_ctxt tmp opt_data
  else if opt_idx = TCP_INDEX_SACK_PERM then (c_tcp_detect_flag_opt_changes opt_ctxt, tmp)
  else if opt_idx = TCP_INDEX_SACK then
    (c_tcp_detect_sack_changes opt_ctxt tcp_ack_num_changed opt_data opt_len, tmp)
  else (c_tcp_detect_generic_changes opt_ctxt opt_data opt_len, tmp)

/-- The variables that the main loop of `tcp_detect_options_changes` updates. -/
structure detect_state where
  /-- the temporary state -/
  tmp : c_tcp_opts_ctxt_tmp
  /-- the mask of the indexes given to the options seen so far -/
  indexes_in_use : Nat
  /-- whether one item at least is needed -/
  co_chain_at_least_one_item_needed : Bool

/-- One iteration of the main loop of `tcp_detect_options_changes`, for the
option `d` at position `opt_pos`. -/
def detect_step (oa_repetitions_nr : Nat) (opts : List Nat) (opts_ctxt : c_tcp_opts_ctxt)
    (tcp_ack_num_changed : Bool) (st : detect_state) (opt_pos : Nat) (d : tcp_opt_descr) :
    detect_state :=
  let opt_data := ptr opts d.data
  let opt_type := d.type
  let opt_len := d.length
  let tmp := st.tmp
  let r := c_tcp_get_opt_index opts_ctxt opt_type st.indexes_in_use
  let opt_idx := r.1
  let recycle_index := r.2
  let tmp1 : c_tcp_opts_ctxt_tmp :=
    if recycle_index then
      { tmp with changes := upd tmp.changes opt_idx
                            { tmp.changes opt_idx with used := false, is_index_recycled := true } }
    else
      { tmp with changes := upd tmp.changes opt_idx
                            { tmp.changes opt_idx with used := (opts_ctxt.list opt_idx).used } }
  let indexes_in_use := st.indexes_in_use ||| (1 <<< opt_idx)
  let det := c_tcp_opts_detect_changes opt_idx opts_ctxt (opts_ctxt.list opt_idx) tmp1
    tcp_ack_num_changed opt_data opt_len
  let opt_changes := det.1
  let tmp2 := det.2
  let tmp3 : c_tcp_opts_ctxt_tmp :=
    if opt_changes = ROHC_CHANGE_STATIC then
      { tmp2 with changes := upd tmp2.changes opt_idx
                             { tmp2.changes opt_idx with static_changed := true, dyn_changed := true } }
    else if opt_changes = ROHC_CHANGE_DYNAMIC then
      { tmp2 with changes := upd tmp2.changes opt_idx
                             { tmp2.changes opt_idx with dyn_changed := true } }
    else tmp2
  let tmp4 : c_tcp_opts_ctxt_tmp :=
    if (tmp3.changes opt_idx).used then tmp3
    else { tmp3 with changes := upd tmp3.changes opt_idx { tmp3.changes opt_idx with used := true } }
  let tmp5 : c_tcp_opts_ctxt_tmp :=
    { tmp4 with position2index := upd tmp4.position2index opt_pos opt_idx }
  let tmp6 : c_tcp_opts_ctxt_tmp :=
    if opt_idx > tmp5.idx_max then { tmp5 with idx_max := opt_idx } else tmp5
  let item_needed := c_tcp_is_list_item_needed oa_repetitions_nr ROHC_CHAIN_CO opt_type
    (tmp6.changes opt_idx).static_changed (opts_ctxt.list opt_idx).full_trans_nr
  { tmp := { tmp6 with list_item_needed := upd tmp6.list_item_needed opt_idx item_needed },
    indexes_in_use := indexes_in_use,
    co_chain_at_least_one_item_needed := st.co_chain_at_least_one_item_needed || item_needed }

/-- The main loop of `tcp_detect_options_changes` from position `opt_pos` on,
over the options that remain. -/
def detect_loop (oa_repetitions_nr : Nat) (opts : List Nat) (opts_ctxt : c_tcp_opts_ctxt)
    (tcp_ack_num_changed : Bool) : List tcp_opt_descr → Nat → detect_state → detect_state
  | [], _, st => st
  | d :: ds, opt_pos, st =>
    detect_loop oa_repetitions_nr opts opts_ctxt tcp_ack_num_changed ds (opt_pos + 1)
      (detect_step oa_repetitions_nr opts opts_ctxt tcp_ack_num_changed st opt_pos d)

/-- The state of `tcp_detect_options_changes` when its main loop starts. -/
def detect_init (uncomp_pkt_hdrs : rohc_tcp_opts) (opts_ctxt : c_tcp_opts_ctxt)
    (tmp : c_tcp_opts_ctxt_tmp) : detect_state :=
  let opts_nr := uncomp_pkt_hdrs.nr
  let do_list_struct_changed : Bool :=
    if opts_nr ≠ opts_ctxt.old_structure_nr ∨
        memcmp_ne (fun i => uncomp_pkt_hdrs.types.getD i 0) opts_ctxt.old_structure opts_nr
    then true else false
  { tmp := { tmp with
      do_list_struct_changed := do_list_struct_changed,
      changes := fun _ => ⟨false, false, false, false⟩,
      list_item_needed := fun _ => false,
      idx_max := 0 },
    indexes_in_use := 0,
    co_chain_at_least_one_item_needed := false }

/-- Embedding of `tcp_detect_options_changes`: the temporary state when the
function returns. -/
def tcp_detect_options_changes (oa_repetitions_nr : Nat) (uncomp_pkt_hdrs : rohc_tcp_opts)
    (opts_ctxt : c_tcp_opts_ctxt) (tmp : c_tcp_opts_ctxt_tmp) (tcp_ack_num_changed : Bool) :
    c_tcp_opts_ctxt_tmp :=
  let st := detect_loop oa_repetitions_nr uncomp_pkt_hdrs.opts opts_ctxt tcp_ack_num_changed
    uncomp_pkt_hdrs.descrs 0 (detect_init uncomp_pkt_hdrs opts_ctxt tmp)
  let tmp1 := st.tmp
  if tmp1.do_list_struct_changed then { tmp1 with is_list_needed := true }
  else if opts_ctxt.structure_nr_trans < oa_repetitions_nr then { tmp1 with is_list_needed := true }
  else if st.co_chain_at_least_one_item_needed then { tmp1 with is_list_needed := true }
  else { tmp1 with is_list_needed := false }

/-! ## Irregular chain encoder -/

/-- The two coders that `c_tcp_code_tcp_opts_irreg` calls and that live outside
the source file. Each one gets its arguments and the room left, and gives the
bytes that it writes at the cursor (their number is the length that it
reports), or `none` when it fails. -/
structure ext_coders where
  /-- the coder `c_tcp_ts_lsb_code(context, ts, bytes_nr, data, max_len, &len)` -/
  c_tcp_ts_lsb_code : Nat → Nat → Nat → Option (List Nat)
  /-- the coder `c_tcp_opt_sack_code(context, ack_num, blocks, length, is_unchanged, data, max_len)` -/
  c_tcp_opt_sack_code : Nat → (Nat → Nat) → Nat → Bool → Nat → Option (List Nat)

/-- Subtraction on `size_t`. -/
def size_t_sub (a b : Nat) : Nat := (a + SIZE_MAX1 - b % SIZE_MAX1) % SIZE_MAX1

/-- The variables that the loop of `c_tcp_code_tcp_opts_irreg` updates. The
encoder writes at its cursor `rohc_remain_data` only and then moves the cursor
forward, so the output buffer is held as the bytes written so far. -/
structure irreg_state where
  /-- the bytes written from `comp_opts` up to the cursor -/
  written : List Nat
  /-- the room left -/
  rohc_remain_len : Nat
  /-- the length of the compressed options -/
  comp_opts_len : Nat
  deriving DecidableEq, Repr

/-- One iteration of the loop of `c_tcp_code_tcp_opts_irreg`, for the option `d`
at position `opt_pos`; `none` after a jump to `error`. -/
def irreg_step (oa_repetitions_nr : Nat) (ext : ext_coders) (opts : List Nat) (ack_num : Nat)
    (opts_ctxt : c_tcp_opts_ctxt) (tmp : c_tcp_opts_ctxt_tmp) (items_not_needed : Nat → Bool)
    (st : irreg_state) (opt_pos : Nat) (d : tcp_opt_descr) : Option irreg_state :=
  let opt_data := ptr opts d.data
  let opt_type := d.type
  let opt_len := d.length
  let opt_idx := tmp.position2index opt_pos
  if items_not_needed opt_idx then some st
  else if opt_type = TCP_OPT_TS then
    match ext.c_tcp_ts_lsb_code tmp.ts_req tmp.ts_req_bytes_nr st.rohc_remain_len with
    | none => none
    | some req =>
      let remain := size_t_sub st.rohc_remain_len req.length
      match ext.c_tcp_ts_lsb_code tmp.ts_reply tmp.ts_reply_bytes_nr remain with
      | none => none
      | some reply =>
        some { written := st.written ++ req ++ reply,
               rohc_remain_len := size_t_sub remain reply.length,
               comp_opts_len := st.comp_opts_len + (req.length + reply.length) }
  else if opt_type = TCP_OPT_SACK then
    let is_sack_unchanged : Bool :=
      !((tmp.changes opt_idx).dyn_changed ||
        decide ((opts_ctxt.list opt_idx).dyn_trans_nr < oa_repetitions_nr))
    match ext.c_tcp_opt_sack_code ack_num (fun i => opt_data (2 + i)) (len_minus_2 opt_len)
        is_sack_unchanged st.rohc_remain_len with
    | none => none
    | some sack =>
      some { written := st.written ++ sack,
             rohc_remain_len := size_t_sub st.rohc_remain_len sack.length,
             comp_opts_len := st.comp_opts_len + sack.length }
  else if opt_type ≠ TCP_OPT_EOL ∧ opt_type ≠ TCP_OPT_NOP ∧ opt_type ≠ TCP_OPT_MSS ∧
      opt_type ≠ TCP_OPT_WS ∧ opt_type ≠ TCP_OPT_SACK_PERM then
    let full : Bool := (tmp.changes opt_idx).dyn_changed ||
      decide ((opts_ctxt.list opt_idx).dyn_trans_nr < oa_repetitions_nr)
    let discriminator : Nat := if full then 0x00 else 0xff
    let contents_len : Nat := if full then len_minus_2 opt_len else 0
    if st.rohc_remain_len < (1 + contents_len) % SIZE_MAX1 then none
    else
      let contents : List Nat :=
        if contents_len > 0 then (List.range contents_len).map (fun i => opt_data (2 + i)) else []
      some { written := st.written ++ [discriminator] ++ contents,
             rohc_remain_len := st.rohc_remain_len - 1 - contents.length,
             comp_opts_len := st.comp_opts_len + (1 + contents.length) }
  else some st

/-- The loop of `c_tcp_code_tcp_opts_irreg` over the positions that remain, each
one with its entry of the arrays of parsed options. -/
def irreg_loop (oa_repetitions_nr : Nat) (ext : ext_coders) (opts : List Nat) (ack_num : Nat)
    (opts_ctxt : c_tcp_opts_ctxt) (tmp : c_tcp_opts_ctxt_tmp) (items_not_needed : Nat → Bool) :
    List (Nat × tcp_opt_descr) → irreg_state → Option irreg_state
  | [], st => some st
  | (opt_pos, d) :: rest, st =>
    match irreg_step oa_repetitions_nr ext opts ack_num opts_ctxt tmp items_not_needed st opt_pos d with
    | none => none
    | some st1 =>
      irreg_loop oa_repetitions_nr ext opts ack_num opts_ctxt tmp items_not_needed rest st1

/-- Embedding of `c_tcp_code_tcp_opts_irreg`: the length returned with the bytes
written in `comp_opts`, or `none` when the function returns -1. The loop runs
over the positions `0 .. nr - 1`. `ack_num` is
`rohc_ntoh32(uncomp_pkt_hdrs->tcp->ack_num)`. -/
def c_tcp_code_tcp_opts_irreg (oa_repetitions_nr : Nat) (ext : ext_coders)
    (uncomp_pkt_hdrs : rohc_tcp_opts) (ack_num : Nat) (opts_ctxt : c_tcp_opts_ctxt)
    (tmp : c_tcp_opts_ctxt_tmp) (items_not_needed : Nat → Bool) (comp_opts_max_len : Nat) :
    Option (Nat × List Nat) :=
  (irreg_loop oa_repetitions_nr ext uncomp_pkt_hdrs.opts ack_num opts_ctxt tmp
      items_not_needed uncomp_pkt_hdrs.descrs.enum ⟨[], comp_opts_max_len, 0⟩).map
    (fun st => (st.comp_opts_len, st.written))

/-! ## List item encoder -/

/-- The bytes copied by `memcpy(buf + pos, src, n)`: the buffer after the call. -/
def memcpy (buf : Nat → Nat) (pos : Nat) (src : Nat → Nat) (n : Nat) : Nat → Nat :=
  fun j => if pos ≤ j ∧ j < pos + n then src (j - pos) else buf j

/-- The buffer after the bytes `bs` were written from `pos` on. -/
def write_bytes (buf : Nat → Nat) (pos : Nat) (bs : List Nat) : Nat → Nat :=
  memcpy buf pos (fun i => bs.getD i 0) bs.length

/-- The `n` bytes of the buffer from `pos` on. -/
def bytes_at (buf : Nat → Nat) (pos n : Nat) : List Nat :=
  (List.range n).map (fun i => buf (pos + i))

/-- Embedding of `c_tcp_opt_compute_ps`. -/
def c_tcp_opt_compute_ps (idx_max : Nat) : Nat := if idx_max ≤ 7 then 0 else 1

/-- Embedding of `c_tcp_opt_compute_xi_len`. -/
def c_tcp_opt_compute_xi_len (ps m : Nat) : Nat :=
  if ps = 1 then 1 + m else 1 + (m + 1) / 2

/-- Embedding of `c_tcp_opt_write_xi`, for the pointer `comp_opts` at offset `pos`
of the buffer: the number of bytes completed and the buffer after the call. Bytes
are 8 bits wide. -/
def c_tcp_opt_write_xi (buf : Nat → Nat) (pos : Nat) (ps opt_pos opt_idx : Nat)
    (item_needed : Bool) : Nat × (Nat → Nat) :=
  if ps = 0 then
    if opt_pos &&& 1 ≠ 0 then
      let b1 := (buf pos ||| opt_idx) % 256
      let b2 := if item_needed then (b1 ||| 0x08) % 256 else b1
      (1, upd buf pos b2)
    else
      let b1 := (opt_idx <<< 4) % 256
      let b2 := if item_needed then (b1 ||| (0x08 <<< 4)) % 256 else b1
      (0, upd buf pos b2)
  else
    let b1 := opt_idx % 256
    let b2 := if item_needed then (b1 ||| 0x80) % 256 else b1
    (1, upd buf pos b2)

/-- Embedding of `c_tcp_build_nop_list_item`: the length of the item and the buffer
after the call, `none` for -1. The item is written at offset `pos` of the buffer. -/
def c_tcp_build_nop_list_item (buf : Nat → Nat) : Option (Nat × (Nat → Nat)) :=
  some (0, buf)

/-- Embedding of `c_tcp_build_eol_list_item`. -/
def c_tcp_build_eol_list_item (uncomp_opt_len : Nat) (buf : Nat → Nat) (pos : Nat)
    (comp_opt_max_len : Nat) : Option (Nat × (Nat → Nat)) :=
  let pad_len_bits := (uncomp_opt_len * 8 + (SIZE_MAX1 - 8)) % SIZE_MAX1
  let comp_opt_len := 1
  if comp_opt_max_len < comp_opt_len then none
  else if pad_len_bits > 0xff then none
  else some (comp_opt_len, upd buf pos pad_len_bits)

/-- Embedding of `c_tcp_build_mss_list_item`. -/
def c_tcp_build_mss_list_item (uncomp_opt : Nat → Nat) (buf : Nat → Nat) (pos : Nat)
    (comp_opt_max_len : Nat) : Option (Nat × (Nat → Nat)) :=
  let comp_opt_len := 2
  if comp_opt_max_len < comp_opt_len then none
  else some (comp_opt_len, memcpy buf pos (fun i => uncomp_opt (2 + i)) 2)

/-- Embedding of `c_tcp_build_ws_list_item`. -/
def c_tcp_build_ws_list_item (uncomp_opt : Nat → Nat) (buf : Nat → Nat) (pos : Nat)
    (comp_opt_max_len : Nat) : Option (Nat × (Nat → Nat)) :=
  let comp_opt_len := 1
  if comp_opt_max_len < comp_opt_len then none
  else some (comp_opt_len, upd buf pos (uncomp_opt 2))

/-- Modelled from the spec: size of the content of the TS option, two 32-bit
numbers (§4.D.1: 8 bytes), `sizeof(struct tcp_option_timestamp)`. -/
abbrev sizeof_tcp_option_timestamp : Nat := 8

/-- Embedding of `c_tcp_build_ts_list_item`. -/
def c_tcp_build_ts_list_item (uncomp_opt : Nat → Nat) (buf : Nat → Nat) (pos : Nat)
    (comp_opt_max_len : Nat) : Option (Nat × (Nat → Nat)) :=
  let comp_opt_len := sizeof_tcp_option_timestamp
  if comp_opt_max_len < comp_opt_len then none
  else some (comp_opt_len,
    memcpy buf pos (fun i => uncomp_opt (2 + i)) sizeof_tcp_option_timestamp)

/-- Embedding of `c_tcp_build_sack_perm_list_item`. -/
def c_tcp_build_sack_perm_list_item (buf : Nat → Nat) : Option (Nat × (Nat → Nat)) :=
  some (0, buf)

/-- Embedding of `c_tcp_build_sack_list_item`: the item is what the SACK coder
writes, with `is_sack_unchanged = false`. -/
def c_tcp_build_sack_list_item (ext : ext_coders) (ack_num : Nat) (uncomp_opt : Nat → Nat)
    (uncomp_opt_len : Nat) (buf : Nat → Nat) (pos : Nat) (comp_opt_max_len : Nat) :
    Option (Nat × (Nat → Nat)) :=
  (ext.c_tcp_opt_sack_code ack_num (fun i => uncomp_opt (2 + i)) (len_minus_2 uncomp_opt_len)
    false comp_opt_max_len).map (fun bs => (bs.length, write_bytes buf pos bs))

/-- Embedding of `c_tcp_build_generic_list_item`. -/
def c_tcp_build_generic_list_item (uncomp_opt : Nat → Nat) (uncomp_opt_len : Nat)
    (buf : Nat → Nat) (pos : Nat) (comp_opt_max_len : Nat) : Option (Nat × (Nat → Nat)) :=
  let max_opt_len_mask := 0x7f
  let option_static := 0
  let comp_opt_len := uncomp_opt_len
  if uncomp_opt_len &&& max_opt_len_mask ≠ uncomp_opt_len then none
  else if comp_opt_max_len < comp_opt_len then none
  else
    some (comp_opt_len,
      upd (memcpy buf pos uncomp_opt comp_opt_len) (pos + 1)
        ((option_static <<< 7) ||| (uncomp_opt_len &&& 0x7f)))

/-- The call `c_tcp_opts[opt_idx].build_list_item(...)`: the builder that the table
`c_tcp_opts` gives for the index. The table has the entries 0..15, the entries
7..15 with the generic builder; an index above 15, outside the table, is given
the generic builder too. -/
def c_tcp_opts_build_list_item (opt_idx : Nat) (ext : ext_coders) (ack_num : Nat)
    (uncomp_opt : Nat → Nat) (uncomp_opt_len : Nat) (buf : Nat → Nat) (pos : Nat)
    (comp_opt_max_len : Nat) : Option (Nat × (Nat → Nat)) :=
  if opt_idx = TCP_INDEX_NOP then c_tcp_build_nop_list_item buf
  else if opt_idx = TCP_INDEX_EOL then
    c_tcp_build_eol_list_item uncomp_opt_len buf pos comp_opt_max_len
  else if opt_idx = TCP_INDEX_MSS then
    c_tcp_build_mss_list_item uncomp_opt buf pos comp_opt_max_len
  else if opt_idx = TCP_INDEX_WS then
    c_tcp_build_ws_list_item uncomp_opt buf pos comp_opt_max_len
  else if opt_idx = TCP_INDEX_TS then
    c_tcp_build_ts_list_item uncomp_opt buf pos comp_opt_max_len
  else if opt_idx = TCP_INDEX_SACK_PERM then c_tcp_build_sack_perm_list_item buf
  else if opt_idx = TCP_INDEX_SACK then
    c_tcp_build_sack_list_item ext ack_num uncomp_opt uncomp_opt_len buf pos comp_opt_max_len
  else c_tcp_build_generic_list_item uncomp_opt uncomp_opt_len buf pos comp_opt_max_len

/-- The variables that the loop of `c_tcp_code_tcp_opts_list_item` updates; the
two cursors are offsets in the buffer `comp_opts`. The variable `xi_remain_len`,
which the function does not read after its first test, is left out. -/
structure list_item_state where
  /-- the buffer `comp_opts` -/
  buf : Nat → Nat
  /-- the cursor in the XI fields -/
  xi_remain_data : Nat
  /-- the cursor in the items -/
  items_remain_data : Nat
  /-- the room left for the items -/
  items_remain_len : Nat
  /-- the length of the compressed options -/
  comp_opts_len : Nat

/-- One iteration of the loop of `c_tcp_code_tcp_opts_list_item`, for the option `d`
at position `opt_pos`; `none` after a jump to `error`. -/
def list_item_step (ext : ext_coders) (opts : List Nat) (ack_num : Nat)
    (tmp : c_tcp_opts_ctxt_tmp) (items_needed : Nat → Bool) (ps : Nat) (st : list_item_state)
    (opt_pos : Nat) (d : tcp_opt_descr) : Option list_item_state :=
  let opt_data := ptr opts d.data
  let opt_len := d.length
  let opt_idx := tmp.position2index opt_pos
  let item_needed := items_needed opt_idx
  let xi := c_tcp_opt_write_xi st.buf st.xi_remain_data ps opt_pos opt_idx item_needed
  let xi_remain_data := st.xi_remain_data + xi.1
  if ¬ item_needed then
    some { st with buf := xi.2, xi_remain_data := xi_remain_data }
  else
    (c_tcp_opts_build_list_item opt_idx ext ack_num opt_data opt_len xi.2 st.items_remain_data
      st.items_remain_len).map
      (fun ret =>
        { buf := ret.2,
          xi_remain_data := xi_remain_data,
          items_remain_data := st.items_remain_data + ret.1,
          items_remain_len := size_t_sub st.items_remain_len ret.1,
          comp_opts_len := st.comp_opts_len + ret.1 })

/-- The loop of `c_tcp_code_tcp_opts_list_item` over the positions that remain, each
one with its entry of the arrays of parsed options. -/
def list_item_loop (ext : ext_coders) (opts : List Nat) (ack_num : Nat)
    (tmp : c_tcp_opts_ctxt_tmp) (items_needed : Nat → Bool) (ps : Nat) :
    List (Nat × tcp_opt_descr) → list_item_state → Option list_item_state
  | [], st => some st
  | (opt_pos, d) :: rest, st =>
    (list_item_step ext opts ack_num tmp items_needed ps st opt_pos d).bind
      (list_item_loop ext opts ack_num tmp items_needed ps rest)

/-- The state of `c_tcp_code_tcp_opts_list_item` when its loop starts, after the
first byte was written: the items begin after the `xis_len` bytes of the XI
fields. -/
def list_item_init (comp_opts : Nat → Nat) (comp_opts_max_len ps m : Nat) : list_item_state :=
  { buf := upd comp_opts 0 (((ps <<< 4) ||| m) % 256),
    xi_remain_data := 1,
    items_remain_data := c_tcp_opt_compute_xi_len ps m,
    items_remain_len := comp_opts_max_len - c_tcp_opt_compute_xi_len ps m,
    comp_opts_len := c_tcp_opt_compute_xi_len ps m }

/-- Embedding of `c_tcp_code_tcp_opts_list_item`: the length returned with the
buffer `comp_opts` after the call, or `none` when the function returns -1. The
loop runs over the positions `0 .. m - 1`. `ack_num` is
`rohc_ntoh32(uncomp_pkt_hdrs->tcp->ack_num)`. -/
def c_tcp_code_tcp_opts_list_item (ext : ext_coders) (uncomp_pkt_hdrs : rohc_tcp_opts)
    (ack_num : Nat) (tmp : c_tcp_opts_ctxt_tmp) (items_needed : Nat → Bool)
    (comp_opts : Nat → Nat) (comp_opts_max_len : Nat) : Option (Nat × (Nat → Nat)) :=
  if comp_opts_max_len < c_tcp_opt_compute_xi_len (c_tcp_opt_compute_ps tmp.idx_max)
      uncomp_pkt_hdrs.nr then none
  else
    (list_item_loop ext uncomp_pkt_hdrs.opts ack_num tmp items_needed
      (c_tcp_opt_compute_ps tmp.idx_max) uncomp_pkt_hdrs.descrs.enum
      (list_item_init comp_opts comp_opts_max_len (c_tcp_opt_compute_ps tmp.idx_max)
        uncomp_pkt_hdrs.nr)).map
      (fun st => (st.comp_opts_len, st.buf))

/-! ## Sample values -/

/-- A slot that was never used. -/
def unused_slot : c_tcp_opt_ctxt := ⟨false, 0, 0, [], 0, 0, 0⟩

/-- The context of a flow of which no packet was compressed yet. -/
def fresh_ctxt : c_tcp_opts_ctxt :=
  ⟨fun _ => unused_slot, fun _ => 0, 0, 0, fun _ _ => false, fun _ _ => false⟩

/-- A temporary state filled with zeroes. -/
def zero_tmp : c_tcp_opts_ctxt_tmp :=
  ⟨fun _ => ⟨false, false, false, false⟩, fun _ => false, fun _ => 0, 0, false, false, 0, 0, 0, 0⟩

/-- Coders that always fail. -/
def failing_coders : ext_coders := ⟨fun _ _ _ => none, fun _ _ _ _ _ => none⟩

/-- A context in which the nine generic slots 7..15 are used, by the kinds
100..108, each with the 4-byte option of content `aa bb` sent three times; slot 7
is the oldest one. -/
def recycle_ctxt : c_tcp_opts_ctxt :=
  { fresh_ctxt with
    list := fun i =>
      if 7 ≤ i ∧ i ≤ 15 then ⟨true, 93 + i, 4, [0xaa, 0xbb], 3, 3, if i = 7 then 5 else 1⟩
      else unused_slot }

/-- A context in which the nine generic slots 7..15 are used, by the kinds
100..108 and with age 0, the slot of NOP is used, and the previous packet had
the three options of kinds 200, NOP, NOP, a structure sent three times. -/
def aged0_ctxt : c_tcp_opts_ctxt :=
  { fresh_ctxt with
    list := fun i =>
      if 7 ≤ i ∧ i ≤ 15 then ⟨true, 93 + i, 2, [], 3, 3, 0⟩
      else if i = 0 then ⟨true, 1, 1, [], 1, 1, 0⟩
      else unused_slot
    old_structure := ptr [200, 1, 1] 0
    old_structure_nr := 3
    structure_nr_trans := 3 }

/-- A block of ten options of two bytes, of the kinds 30..39. -/
def ten_generic : List Nat :=
  [30, 2, 31, 2, 32, 2, 33, 2, 34, 2, 35, 2, 36, 2, 37, 2, 38, 2, 39, 2]

/-- A temporary state in which every position has index 7, with a dynamic change. -/
def tmp_index7 : c_tcp_opts_ctxt_tmp :=
  { zero_tmp with position2index := fun _ => 7, changes := fun _ => ⟨true, false, false, true⟩ }

/-- The parsed option of kind 30 and content `aa bb`. -/
def one_generic : rohc_tcp_opts := ⟨[30, 4, 0xaa, 0xbb], [⟨0, 30, 4⟩], 4⟩

/-- The parsed options `02 04 05 b4 01 03 03 07` of the fresh SYN scenario: MSS =
1460, NOP, WS = 7. -/
def syn_opts : rohc_tcp_opts :=
  ⟨[2, 4, 5, 0xb4, 1, 3, 3, 7], [⟨0, 2, 4⟩, ⟨4, 1, 1⟩, ⟨5, 3, 3⟩], 8⟩

/-- A temporary state with `position2index = [2, 0, 3]` and `idx_max = 3`. -/
def syn_tmp : c_tcp_opts_ctxt_tmp :=
  { zero_tmp with
    position2index := fun p => if p = 0 then 2 else if p = 1 then 0 else 3
    idx_max := 3 }

/-- The buffer that the list item encoder leaves for the fresh SYN scenario, from a
buffer of zeroes. -/
def syn_out : Nat → Nat :=
  upd (upd (upd (memcpy (upd (upd (fun _ => 0) 0 3) 1 0xa0) 3
    (fun i => ptr syn_opts.opts 0 (2 + i)) 2) 1 0xa8) 2 0xb0) 5 7

/-- A context in which slot 9 only is used, by the kind 200. -/
def slot9_ctxt : c_tcp_opts_ctxt :=
  { fresh_ctxt with
    list := fun i => if i = 9 then ⟨true, 200, 4, [0xaa, 0xbb], 3, 3, 1⟩ else unused_slot }

/-- The parsed options `05 0a 00 00 03 e8 00 00 07 d0 01 01`: a SACK option of one
block, then two NOP. -/
def sack_opts : rohc_tcp_opts :=
  ⟨[5, 10, 0, 0, 3, 0xe8, 0, 0, 7, 0xd0, 1, 1], [⟨0, 5, 10⟩, ⟨10, 1, 1⟩, ⟨11, 1, 1⟩], 12⟩

/-- A context in which the slots of NOP and of SACK are used, the latter with the
option of `sack_opts`, sent three times. -/
def sack_ctxt : c_tcp_opts_ctxt :=
  { fresh_ctxt with
    list := fun i =>
      if i = 6 then ⟨true, 5, 10, [0, 0, 3, 0xe8, 0, 0, 7, 0xd0], 3, 3, 0⟩
      else if i = 0 then ⟨true, 1, 1, [], 3, 3, 0⟩
      else unused_slot
    old_structure := ptr [5, 1, 1] 0
    old_structure_nr := 3
    structure_nr_trans := 3 }

/-- The options block `01 01 01 00`, three NOP and an EOL option of one byte,
followed in the packet by the two bytes `00 09` of the payload. -/
def eol1_block : List Nat := [1, 1, 1, 0, 0, 9]

/-- The slot of EOL after a packet with an EOL option of one byte was sent three
times. -/
def eol1_slot : c_tcp_opt_ctxt := ⟨true, 0, 1, [0], 3, 3, 0⟩

/-- The parse loop of §4.A of the specification, steps 1 to 5, without the
well-formedness checks and the cardinality rules: at `cursor`, stop when
`L − cursor = 0`; otherwise the kind is `O[cursor]`, the length is 1 for NOP,
`L − cursor` for EOL, and `O[cursor+1]` for another kind, for which
`L − cursor ≥ 2` and `2 ≤ len ≤ L − cursor` are required. The first argument
bounds the number of options; `L` is enough, since an option has one byte at
least. -/
def spec_parse_loop (O : List Nat) (L : Nat) : Nat → Nat → Option (List tcp_opt_descr)
  | 0, cursor => if L - cursor = 0 then some [] else none
  | n + 1, cursor =>
    if L - cursor = 0 then some []
    else
      let kind := O.getD cursor 0
      if kind = 1 then
        (spec_parse_loop O L n (cursor + 1)).map (fun ds => ⟨cursor, kind, 1⟩ :: ds)
      else if kind = 0 then
        (spec_parse_loop O L n (cursor + (L - cursor))).map
          (fun ds => ⟨cursor, kind, L - cursor⟩ :: ds)
      else if L - cursor ≥ 2 then
        let len := O.getD (cursor + 1) 0
        if 2 ≤ len ∧ len ≤ L - cursor then
          (spec_parse_loop O L n (cursor + len)).map (fun ds => ⟨cursor, kind, len⟩ :: ds)
        else none
      else none

/-- The options into which the block `O` of length `L` parses, by the parse loop of
the specification. -/
def spec_parse (O : List Nat) (L : Nat) : Option (List tcp_opt_descr) :=
  spec_parse_loop O L L 0

/-- Each option of the list starts where the one before it ends, the first one
at `off`. -/
def chained : Nat → List tcp_opt_descr → Prop
  | _, [] => True
  | off, d :: ds => d.data = off ∧ chained (off + d.length) ds

/-! ## Predicates on the allocation of indexes -/

/-- The option kind `t` has a reserved index: the test
`opt_type < TCP_LIST_ITEM_MAP_LEN && c_tcp_type2index[opt_type] >= 0`. -/
def has_reserved_index (t : Nat) : Prop := t < TCP_LIST_ITEM_MAP_LEN ∧ c_tcp_type2index t ≥ 0

/-- How an index that is not recycled was found for the kind `t`, under the mask
`m`: the reserved index of the kind, or a generic slot that holds the kind, or a
generic slot that was never used and is free in the mask. -/
def allocated (opts_ctxt : c_tcp_opts_ctxt) (t m x : Nat) : Prop :=
  (has_reserved_index t ∧ x = (c_tcp_type2index t).toNat) ∨
  (¬ has_reserved_index t ∧ 7 ≤ x ∧ x ≤ 15 ∧ (opts_ctxt.list x).used = true ∧
    (opts_ctxt.list x).type = t) ∨
  (¬ has_reserved_index t ∧ 7 ≤ x ∧ x ≤ 15 ∧ (opts_ctxt.list x).used = false ∧
    index_is_free m x = true)

/-- The state of the main loop after the options of kinds `kinds`, when no index was
recycled: the index of every position is set in the mask and was found for the
kind of the position, and two positions with the same index hold the same kind. -/
def alloc_inv (opts_ctxt : c_tcp_opts_ctxt) (kinds : List Nat) (st : detect_state) : Prop :=
  (∀ p, p < kinds.length →
    index_is_free st.indexes_in_use (st.tmp.position2index p) = false ∧
    ∃ m, allocated opts_ctxt (kinds.getD p 0) m (st.tmp.position2index p)) ∧
  (∀ p q, p < kinds.length → q < kinds.length →
    st.tmp.position2index p = st.tmp.position2index q → kinds.getD p 0 = kinds.getD q 0)

/-- The state of the main loop after the options of kinds `kinds`, as to the items:
an entry of `list_item_needed` is set only for the index of a position; at the
index of every position it is what `c_tcp_is_list_item_needed` gives for the kind
of the position; and the flag `co_chain_at_least_one_item_needed` is set if and
only if an entry is set. -/
def needed_inv (oa : Nat) (opts_ctxt : c_tcp_opts_ctxt) (kinds : List Nat) (st : detect_state) :
    Prop :=
  (∀ i, st.tmp.list_item_needed i = true →
    i ≤ 15 ∧ ∃ p, p < kinds.length ∧ st.tmp.position2index p = i) ∧
  (∀ p, p < kinds.length →
    st.tmp.list_item_needed (st.tmp.position2index p) =
      c_tcp_is_list_item_needed oa ROHC_CHAIN_CO (kinds.getD p 0)
        (st.tmp.changes (st.tmp.position2index p)).static_changed
        (opts_ctxt.list (st.tmp.position2index p)).full_trans_nr) ∧
  (st.co_chain_at_least_one_item_needed = true ↔ ∃ i, st.tmp.list_item_needed i = true)

/-- The largest index after `n` positions: it bounds the index of every position
and, when there is a position, it is the index of one of them; it is 0 when there
is none. -/
def idx_max_inv (n : Nat) (st : detect_state) : Prop :=
  (∀ p, p < n → st.tmp.position2index p ≤ st.tmp.idx_max) ∧
  (n = 0 → st.tmp.idx_max = 0) ∧
  (0 < n → ∃ p, p < n ∧ st.tmp.position2index p = st.tmp.idx_max)

/-! ## Predicates on the list items -/

/-- The length of the item that the builder of the index `opt_idx` writes for an
option of length `opt_len`, for the indexes other than the one of SACK. -/
def item_len_of_index (opt_idx opt_len : Nat) : Nat :=
  if opt_idx = TCP_INDEX_NOP then 0
  else if opt_idx = TCP_INDEX_EOL then 1
  else if opt_idx = TCP_INDEX_MSS then 2
  else if opt_idx = TCP_INDEX_WS then 1
  else if opt_idx = TCP_INDEX_TS then 8
  else if opt_idx = TCP_INDEX_SACK_PERM then 0
  else opt_len

/-- The length of the item body by kind, in the words of the claim: 0 for NOP and
SACK-Permitted, 1 for EOL and WS, 2 for MSS, 8 for TS, and the option length for a
generic option (the kind SACK apart, whose item is the one of the SACK coder). -/
def item_len_of_kind (opt_type opt_len : Nat) : Nat :=
  if opt_type = TCP_OPT_NOP ∨ opt_type = TCP_OPT_SACK_PERM then 0
  else if opt_type = TCP_OPT_EOL ∨ opt_type = TCP_OPT_WS then 1
  else if opt_type = TCP_OPT_MSS then 2
  else if opt_type = TCP_OPT_TS then 8
  else opt_len

/-- The index `opt_idx` is an index of the kind `opt_type` (§3.1): the reserved
index of a well-known kind, an index in 7..15 for any other kind. -/
def index_of_kind (opt_type opt_idx : Nat) : Prop :=
  (has_reserved_index opt_type ∧ opt_idx = (c_tcp_type2index opt_type).toNat) ∨
  (¬ has_reserved_index opt_type ∧ 7 ≤ opt_idx ∧ opt_idx ≤ 15)

/-- The length `b` of the item body of the option `d` at position `opt_pos`, as the
encoder builds it: nothing when the item is not needed, the item of the builder of
the index otherwise, which for the index of SACK is what the SACK coder gives for
the blocks of the option. -/
def body_of_index (ext : ext_coders) (opts : List Nat) (ack_num : Nat)
    (tmp : c_tcp_opts_ctxt_tmp) (items_needed : Nat → Bool) (opt_pos : Nat) (d : tcp_opt_descr)
    (b : Nat) : Prop :=
  (items_needed (tmp.position2index opt_pos) = false → b = 0) ∧
  (items_needed (tmp.position2index opt_pos) = true →
    tmp.position2index opt_pos ≠ TCP_INDEX_SACK →
    b = item_len_of_index (tmp.position2index opt_pos) d.length) ∧
  (items_needed (tmp.position2index opt_pos) = true →
    tmp.position2index opt_pos = TCP_INDEX_SACK →
    ∃ room bs, ext.c_tcp_opt_sack_code ack_num (fun i => ptr opts d.data (2 + i))
      (len_minus_2 d.length) false room = some bs ∧ b = bs.length)

/-- The length `b` of the item body of the option `d` at position `opt_pos`, by
kind: nothing when the item is not needed, the length of the kind otherwise, which
for SACK is the length of what the SACK coder gives for the blocks of the option. -/
def body_of_kind (ext : ext_coders) (opts : List Nat) (ack_num : Nat)
    (tmp : c_tcp_opts_ctxt_tmp) (items_needed : Nat → Bool) (opt_pos : Nat) (d : tcp_opt_descr)
    (b : Nat) : Prop :=
  (items_needed (tmp.position2index opt_pos) = false → b = 0) ∧
  (items_needed (tmp.position2index opt_pos) = true → d.type ≠ TCP_OPT_SACK →
    b = item_len_of_kind d.type d.length) ∧
  (items_needed (tmp.position2index opt_pos) = true → d.type = TCP_OPT_SACK →
    ∃ room bs, ext.c_tcp_opt_sack_code ack_num (fun i => ptr opts d.data (2 + i))
      (len_minus_2 d.length) false room = some bs ∧ b = bs.length)

/-- The sum of the item body lengths, by kind, of the options whose item is needed,
for a packet without SACK option, from position `opt_pos` on. -/
def items_len_of_kinds (tmp : c_tcp_opts_ctxt_tmp) (items_needed : Nat → Bool) :
    List tcp_opt_descr → Nat → Nat
  | [], _ => 0
  | d :: ds, opt_pos =>
    (if items_needed (tmp.position2index opt_pos) then item_len_of_kind d.type d.length else 0) +
      items_len_of_kinds tmp items_needed ds (opt_pos + 1)

/-- The 4-bit XI field in the words of the claim: `(item_needed << 3) | idx`. -/
def xi_4bit (item_needed : Bool) (opt_idx : Nat) : Nat := (item_needed.toNat <<< 3) ||| opt_idx

/-- The 8-bit XI field in the words of the claim: `(item_needed << 7) | idx`. -/
def xi_8bit (item_needed : Bool) (opt_idx : Nat) : Nat := (item_needed.toNat <<< 7) ||| opt_idx

/-- What holds of the state of the list item encoder with 4-bit XI fields before
the iteration `k` of its loop, for a packet of `m` options: the cursor of the XI
fields is at byte `1 + k / 2`, the cursor of the items is after the XI fields, the
first byte is `hdr`, the XI bytes that are complete hold two XI fields each, and
when `k` is odd the XI byte under the cursor holds the XI field of position
`k - 1` in its high nibble and zero in its low nibble. -/
def xi4_inv (tmp : c_tcp_opts_ctxt_tmp) (items_needed : Nat → Bool) (m hdr k : Nat)
    (st : list_item_state) : Prop :=
  st.xi_remain_data = 1 + k / 2 ∧
  c_tcp_opt_compute_xi_len 0 m ≤ st.items_remain_data ∧
  st.buf 0 = hdr ∧
  (∀ q, 2 * q + 1 < k → st.buf (1 + q) =
    16 * xi_4bit (items_needed (tmp.position2index (2 * q))) (tmp.position2index (2 * q)) +
      xi_4bit (items_needed (tmp.position2index (2 * q + 1))) (tmp.position2index (2 * q + 1))) ∧
  (k % 2 = 1 → st.buf (1 + k / 2) =
    16 * xi_4bit (items_needed (tmp.position2index (k - 1))) (tmp.position2index (k - 1)))

/-- What holds of the state of the list item encoder with 8-bit XI fields before
the iteration `k` of its loop, for a packet of `m` options. -/
def xi8_inv (tmp : c_tcp_opts_ctxt_tmp) (items_needed : Nat → Bool) (m hdr k : Nat)
    (st : list_item_state) : Prop :=
  st.xi_remain_data = 1 + k ∧
  c_tcp_opt_compute_xi_len 1 m ≤ st.items_remain_data ∧
  st.buf 0 = hdr ∧
  (∀ p, p < k → st.buf (1 + p) =
    xi_8bit (items_needed (tmp.position2index p)) (tmp.position2index p))

/-- The change that the detector of the index `opt_idx` finds for the option `d`,
`c_tcp_opts[opt_idx].detect_changes(...)`: it depends on the context, not on the
temporary state. -/
def opt_change (opts_ctxt : c_tcp_opts_ctxt) (tcp_ack_num_changed : Bool) (opts : List Nat)
    (opt_idx : Nat) (d : tcp_opt_descr) : rohc_change_t :=
  (c_tcp_opts_detect_changes opt_idx opts_ctxt (opts_ctxt.list opt_idx) zero_tmp
    tcp_ack_num_changed (ptr opts d.data) d.length).1

/-- The state of the main loop of the detector after the options `seen`, as to what
was recorded at each index: a static change is recorded only where the detector
found a static change for an option of this index, a dynamic change only where it
found some change, an item is needed only for an option other than NOP and
SACK-Permitted whose index has a static change or was not sent often enough, and
the index of a position is the reserved index of its kind, or, for a kind that has
none, one of 0 and 7..15. -/
def hist_inv (oa : Nat) (opts : List Nat) (opts_ctxt : c_tcp_opts_ctxt) (ack : Bool)
    (seen : List tcp_opt_descr) (st : detect_state) : Prop :=
  (∀ i, (st.tmp.changes i).static_changed = true →
    ∃ q d, seen[q]? = some d ∧ st.tmp.position2index q = i ∧
      opt_change opts_ctxt ack opts i d = ROHC_CHANGE_STATIC) ∧
  (∀ i, (st.tmp.changes i).dyn_changed = true →
    ∃ q d, seen[q]? = some d ∧ st.tmp.position2index q = i ∧
      opt_change opts_ctxt ack opts i d ≠ ROHC_CHANGE_NONE) ∧
  (∀ i, st.tmp.list_item_needed i = true →
    ∃ q d, seen[q]? = some d ∧ st.tmp.position2index q = i ∧
      d.type ≠ TCP_OPT_NOP ∧ d.type ≠ TCP_OPT_SACK_PERM ∧
      ((st.tmp.changes i).static_changed = true ∨ (opts_ctxt.list i).full_trans_nr = 0 ∨
        (opts_ctxt.list i).full_trans_nr < oa)) ∧
  (∀ q d, seen[q]? = some d →
    (has_reserved_index d.type →
      st.tmp.position2index q = (c_tcp_type2index d.type).toNat) ∧
    (¬ has_reserved_index d.type →
      st.tmp.position2index q = 0 ∨
        (7 ≤ st.tmp.position2index q ∧ st.tmp.position2index q ≤ 15)))

/-- What holds of the pair `(oldest_idx, oldest_idx_age)` of the third loop of
`c_tcp_get_opt_index` before the index `a`: the age bounds the ages of the used
slots outside the mask among 7 .. a - 1, and either the pair is still `(0, 0)`, or
the age is positive and the index is the lowest one among these slots that has
this age. -/
def oldest_inv (opts_ctxt : c_tcp_opts_ctxt) (m a : Nat) (acc : Nat × Nat) : Prop :=
  (∀ j, 7 ≤ j → j < a → index_is_free m j = true → (opts_ctxt.list j).used = true →
    (opts_ctxt.list j).age ≤ acc.2) ∧
  (acc = (0, 0) ∨
    (0 < acc.2 ∧ 7 ≤ acc.1 ∧ acc.1 < a ∧ index_is_free m acc.1 = true ∧
      (opts_ctxt.list acc.1).used = true ∧ (opts_ctxt.list acc.1).age = acc.2 ∧
      ∀ j, 7 ≤ j → j < acc.1 → index_is_free m j = true →
        (opts_ctxt.list j).used = true → (opts_ctxt.list j).age < acc.2))

/-! ## Predicates on two runs of the list item encoder -/

/-- Two states of the list item encoder before the iteration `k` of its loop, in two
runs that differ by the output buffer only: the cursors and the lengths are the
same, the XI cursor is where `k` positions put it, the length is the cursor of the
items, and the two buffers hold the same bytes where the encoder wrote so far:
before the XI cursor, under the XI cursor when a 4-bit XI field waits there for the
one of the next position, and in the items, which start at `xi_len`. -/
def same_output (ps xi_len k : Nat) (s1 s2 : list_item_state) : Prop :=
  s2.xi_remain_data = s1.xi_remain_data ∧
  s2.items_remain_data = s1.items_remain_data ∧
  s2.items_remain_len = s1.items_remain_len ∧
  s2.comp_opts_len = s1.comp_opts_len ∧
  s1.xi_remain_data = (if ps = 0 then 1 + k / 2 else 1 + k) ∧
  s1.comp_opts_len = s1.items_remain_data ∧
  (∀ j, j < s1.xi_remain_data → s1.buf j = s2.buf j) ∧
  (ps = 0 → k % 2 = 1 → s1.buf s1.xi_remain_data = s2.buf s1.xi_remain_data) ∧
  (∀ j, xi_len ≤ j → j < s1.items_remain_data → s1.buf j = s2.buf j)

/-! ## Well-formedness of one option -/

theorem all_range_eq_true (n : Nat) (f : Nat → Bool) :
    (List.range n).all f = true ↔ ∀ i, i < n → f i = true := by
  simp [List.all_eq_true]

/-- C5 (as stated, refuted): an EOL option of 33 bytes that are all zero is within
the bound of 33 bytes of the claim, yet the well-formedness check refuses it. -/
theorem eol_33_bytes_refused :
    (33 ≤ 33 ∧ ∀ i, i < 33 → (fun _ : Nat => (0 : Nat)) i = 0) ∧
      rohc_comp_tcp_are_opts_wellformed TCP_OPT_EOL 33 (fun _ => 0) = false := by
  refine ⟨⟨le_rfl, fun _ _ => rfl⟩, ?_⟩
  decide

/-- C5 (amended): the well-formedness check accepts an EOL option if and only if
its length is at most 32 bytes, the bound `(0xff + 8) / 8` of the code, and all of
its bytes are zero; an EOL option of 32 zero bytes is accepted. -/
theorem eol_wellformed_iff (opt_len : Nat) (opt : Nat → Nat) :
    (rohc_comp_tcp_are_opts_wellformed TCP_OPT_EOL opt_len opt = true ↔
      opt_len ≤ 32 ∧ ∀ i, i < opt_len → opt i = 0) ∧
    rohc_comp_tcp_are_opts_wellformed TCP_OPT_EOL 32 (fun _ => 0) = true := by
  refine ⟨?_, by decide⟩
  unfold rohc_comp_tcp_are_opts_wellformed
  simp only [if_true]
  by_cases h : opt_len > (0xff + 8) / 8
  · have h1 : ¬ opt_len ≤ 32 := by omega
    simp [h, h1]
  · have h1 : opt_len ≤ 32 := by omega
    simp only [h, if_false, all_range_eq_true, beq_iff_eq, h1, true_and]

/-- C8: for an 8-bit length, the well-formedness check accepts MSS exactly with
length 4, WS exactly with length 3, SACK-Permitted exactly with length 2, TS
exactly with length 10, SACK exactly with length 10, 18, 26 or 34 (2 + 8*N with N
in 1..4), and accepts every option of a kind other than EOL and these five
whatever its length. -/
theorem wellformed_lengths (opt_len : Nat) (opt : Nat → Nat) (hlen : opt_len < 256) :
    (rohc_comp_tcp_are_opts_wellformed TCP_OPT_MSS opt_len opt = true ↔ opt_len = 4) ∧
    (rohc_comp_tcp_are_opts_wellformed TCP_OPT_WS opt_len opt = true ↔ opt_len = 3) ∧
    (rohc_comp_tcp_are_opts_wellformed TCP_OPT_SACK_PERM opt_len opt = true ↔ opt_len = 2) ∧
    (rohc_comp_tcp_are_opts_wellformed TCP_OPT_TS opt_len opt = true ↔ opt_len = 10) ∧
    (rohc_comp_tcp_are_opts_wellformed TCP_OPT_SACK opt_len opt = true ↔
      ∃ N, 1 ≤ N ∧ N ≤ 4 ∧ opt_len = 2 + 8 * N) ∧
    (rohc_comp_tcp_are_opts_wellformed TCP_OPT_SACK opt_len opt = true ↔
      opt_len = 10 ∨ opt_len = 18 ∨ opt_len = 26 ∨ opt_len = 34) ∧
    (∀ opt_type, opt_type ≠ TCP_OPT_EOL → opt_type ≠ TCP_OPT_MSS → opt_type ≠ TCP_OPT_WS →
      opt_type ≠ TCP_OPT_SACK_PERM → opt_type ≠ TCP_OPT_SACK → opt_type ≠ TCP_OPT_TS →
      rohc_comp_tcp_are_opts_wellformed opt_type opt_len opt = true) := by
  have hsack : rohc_comp_tcp_are_opts_wellformed TCP_OPT_SACK opt_len opt = true ↔
      opt_len = 10 ∨ opt_len = 18 ∨ opt_len = 26 ∨ opt_len = 34 := by
    unfold rohc_comp_tcp_are_opts_wellformed len_minus_2
    simp only [TCP_OPT_SACK, TCP_OPT_EOL, TCP_OPT_MSS, TCP_OPT_WS, TCP_OPT_SACK_PERM,
      sizeof_sack_block_t, TCP_SACK_BLOCKS_MAX_NR, SIZE_MAX1]
    norm_num
    omega
  refine ⟨?_, ?_, ?_, ?_, ?_, hsack, ?_⟩
  · simp [rohc_comp_tcp_are_opts_wellformed]
  · simp [rohc_comp_tcp_are_opts_wellformed]
  · simp [rohc_comp_tcp_are_opts_wellformed]
  · simp [rohc_comp_tcp_are_opts_wellformed]
  · rw [hsack]
    constructor
    · intro h
      rcases h with h | h | h | h
      · exact ⟨1, by omega⟩
      · exact ⟨2, by omega⟩
      · exact ⟨3, by omega⟩
      · exact ⟨4, by omega⟩
    · rintro ⟨N, h1, h2, h3⟩
      omega
  · intro opt_type h0 h2 h3 h4 h5 h8
    simp [rohc_comp_tcp_are_opts_wellformed, h0, h2, h3, h4, h5, h8]

/-- Witness of C8: a SACK option of 34 bytes (4 blocks) is accepted. -/
theorem wellformed_lengths_witness :
    rohc_comp_tcp_are_opts_wellformed TCP_OPT_SACK 34 (fun _ => 0) = true :=
  ((wellformed_lengths 34 (fun _ => 0) (by decide)).2.2.2.2.2.1).mpr (by decide)

/-! ## Properties of the options acceptor -/

theorem get_type_len_some {p : Nat → Nat} {n t len : Nat}
    (h : c_tcp_opt_get_type_len p n = some (t, len)) :
    1 ≤ n ∧ t = p 0 ∧ (t = 1 → len = 1) ∧ (t = 0 → len = n % 256) ∧
      (t ≠ 0 → t ≠ 1 → 2 ≤ n ∧ len = p 1 ∧ 2 ≤ len ∧ len ≤ n) := by
  unfold c_tcp_opt_get_type_len at h
  simp only [TCP_OPT_NOP, TCP_OPT_EOL] at h
  split_ifs at h with h1 h2 h3 h4 h5
  all_goals simp only [Option.some.injEq, Prod.mk.injEq] at h
  · obtain ⟨rfl, rfl⟩ := h
    refine ⟨by omega, rfl, fun _ => rfl, fun h0 => by omega, fun _ h1 => absurd h2 h1⟩
  · obtain ⟨rfl, rfl⟩ := h
    refine ⟨by omega, rfl, fun h1 => absurd h1 h2, fun _ => rfl, fun h0 _ => absurd h3 h0⟩
  · obtain ⟨rfl, rfl⟩ := h
    refine ⟨by omega, rfl, fun h1 => absurd h1 h2, fun h0 => absurd h0 h3, fun _ _ => ?_⟩
    omega

theorem parse_loop_zero (opts : List Nat) (L off : Nat) (cnt : Nat → Nat) :
    parse_loop opts L 0 off cnt = some (off, []) := rfl

theorem parse_loop_succ {opts : List Nat} {L n off off' : Nat} {cnt : Nat → Nat}
    {ds : List tcp_opt_descr} (h : parse_loop opts L (n + 1) off cnt = some (off', ds)) :
    (¬ off < L ∧ off' = off ∧ ds = []) ∨
    (off < L ∧ ∃ t len ds', c_tcp_opt_get_type_len (ptr opts off) (L - off) = some (t, len) ∧
      len ≤ 40 ∧ (t = 0 ∨ t = 1 ∨ cnt t = 0) ∧
      rohc_comp_tcp_are_opts_wellformed t len (ptr opts off) = true ∧
      parse_loop opts L n (off + len) (upd cnt t (cnt t + 1)) = some (off', ds') ∧
      ds = ⟨off, t, len⟩ :: ds') := by
  unfold parse_loop at h
  by_cases hlt : off < L
  · right
    refine ⟨hlt, ?_⟩
    simp only [hlt, if_true] at h
    cases hg : c_tcp_opt_get_type_len (ptr opts off) (L - off) with
    | none => simp [hg] at h
    | some r =>
      obtain ⟨t, len⟩ := r
      simp only [hg] at h
      split_ifs at h with h1 h2 h3 h4
      cases hr : parse_loop opts L n (off + len) (upd cnt t (cnt t + 1)) with
      | none => simp [hr] at h
      | some r2 =>
        obtain ⟨o2, ds2⟩ := r2
        simp only [hr, Option.some.injEq, Prod.mk.injEq] at h
        obtain ⟨rfl, rfl⟩ := h
        refine ⟨t, len, ds2, rfl, by simpa using h1, ?_, by simpa using h4, hr, rfl⟩
        simp only [upd, if_true, TCP_OPT_EOL, TCP_OPT_NOP] at h3
        by_cases ht0 : t = 0
        · exact Or.inl ht0
        · by_cases ht1 : t = 1
          · exact Or.inr (Or.inl ht1)
          · right; right
            by_contra hc
            exact h3 ⟨ht0, ht1, by omega⟩
  · left
    simp only [hlt, if_false, Option.some.injEq, Prod.mk.injEq] at h
    exact ⟨hlt, h.1.symm, h.2.symm⟩

theorem parse_loop_done (opts : List Nat) (L n off : Nat) (cnt : Nat → Nat) (h : ¬ off < L) :
    parse_loop opts L n off cnt = some (off, []) := by
  cases n with
  | zero => rfl
  | succ n => unfold parse_loop; simp [h]

/-- The parsing loop records no more options than it has iterations, and counts
no kind other than NOP and EOL twice. -/
theorem parse_loop_counts (opts : List Nat) (L : Nat) :
    ∀ (n off : Nat) (cnt : Nat → Nat) (off' : Nat) (ds : List tcp_opt_descr),
      parse_loop opts L n off cnt = some (off', ds) →
      ds.length ≤ n ∧
      (∀ k, k ≠ 0 → k ≠ 1 → cnt k + (ds.map (·.type)).count k ≤ max (cnt k) 1) := by
  intro n
  induction n with
  | zero =>
    intro off cnt off' ds h
    rw [parse_loop_zero] at h
    simp only [Option.some.injEq, Prod.mk.injEq] at h
    obtain ⟨rfl, rfl⟩ := h
    simp
  | succ n ih =>
    intro off cnt off' ds h
    rcases parse_loop_succ h with ⟨_, rfl, rfl⟩ | ⟨hlt, t, len, ds', hg, hlen, hcnt, hwf, hrec, rfl⟩
    · simp
    · obtain ⟨i3, i5⟩ := ih _ _ _ _ hrec
      refine ⟨?_, ?_⟩
      · simp only [List.length_cons]; omega
      · intro k hk0 hk1
        have hk := i5 k hk0 hk1
        simp only [List.map_cons, List.count_cons]
        by_cases hkt : t = k
        · subst hkt
          have hc0 : cnt t = 0 := by
            rcases hcnt with h | h | h
            · exact absurd h hk0
            · exact absurd h hk1
            · exact h
          simp only [upd, if_true] at hk
          simp only [beq_self_eq_true, if_true]
          omega
        · have hkt' : ¬ k = t := fun h => hkt h.symm
          simp only [upd, hkt', if_false] at hk
          have : (t == k) = false := by simpa using hkt
          simp only [this]
          simpa using hk

/-- What the parsing loop records in a block of less than 256 bytes: the options
are chained from the first offset, the final offset is the first one plus the
lengths, each option is well formed and lies inside the block with its kind as
first byte, and there is one EOL option at most. -/
theorem parse_loop_inv (opts : List Nat) (L : Nat) (hL : L < 256) :
    ∀ (n off : Nat) (cnt : Nat → Nat) (off' : Nat) (ds : List tcp_opt_descr),
      parse_loop opts L n off cnt = some (off', ds) →
      chained off ds ∧ off' = off + (ds.map (·.length)).sum ∧
      (∀ d ∈ ds, d.type = opts.getD d.data 0 ∧ 1 ≤ d.length ∧ d.data < L ∧ d.length ≤ 40 ∧
        rohc_comp_tcp_are_opts_wellformed d.type d.length (ptr opts d.data) = true) ∧
      (ds.map (·.type)).count 0 ≤ 1 := by
  intro n
  induction n with
  | zero =>
    intro off cnt off' ds h
    rw [parse_loop_zero] at h
    simp only [Option.some.injEq, Prod.mk.injEq] at h
    obtain ⟨rfl, rfl⟩ := h
    simp [chained]
  | succ n ih =>
    intro off cnt off' ds h
    rcases parse_loop_succ h with ⟨_, rfl, rfl⟩ | ⟨hlt, t, len, ds', hg, hlen, hcnt, hwf, hrec, rfl⟩
    · simp [chained]
    · obtain ⟨hn1, ht, hnop, heol, hoth⟩ := get_type_len_some hg
      obtain ⟨i1, i2, i4, i6⟩ := ih _ _ _ _ hrec
      have hlen1 : 1 ≤ len := by
        by_cases h1 : t = 1
        · rw [hnop h1]
        · by_cases h0 : t = 0
          · rw [heol h0]; omega
          · have := hoth h0 h1; omega
      refine ⟨⟨rfl, i1⟩, ?_, ?_, ?_⟩
      · simp only [List.map_cons, List.sum_cons]; omega
      · intro d hd
        rcases List.mem_cons.mp hd with rfl | hd
        · refine ⟨?_, hlen1, hlt, hlen, hwf⟩
          simpa [ptr] using ht
        · exact i4 d hd
      · simp only [List.map_cons, List.count_cons]
        by_cases h0 : t = 0
        · have hl : len = L - off := by rw [heol h0]; omega
          have hdone : ¬ off + len < L := by omega
          rw [parse_loop_done _ _ _ _ _ hdone] at hrec
          simp only [Option.some.injEq, Prod.mk.injEq] at hrec
          obtain ⟨_, rfl⟩ := hrec
          simp [h0]
        · have : (t == 0) = false := by simpa using h0
          simp only [this]
          simpa using i6

theorem opts_len_of_eq (data_offset : Nat) (hlo : 5 ≤ data_offset) (hhi : data_offset ≤ 15) :
    opts_len_of data_offset = data_offset * 4 - 20 := by
  unfold opts_len_of
  simp only [SIZE_MAX1, sizeof_tcphdr]
  omega

theorem acceptable_some {opts : List Nat} {data_offset : Nat} {h : rohc_tcp_opts}
    (hacc : rohc_comp_tcp_are_options_acceptable opts data_offset = some h) :
    parse_loop opts (opts_len_of data_offset) ROHC_TCP_OPTS_MAX 0 (fun _ => 0) =
        some (opts_len_of data_offset, h.descrs) ∧
      h.opts = opts ∧ h.tot_len = opts_len_of data_offset := by
  unfold rohc_comp_tcp_are_options_acceptable at hacc
  obtain ⟨r, hr, he⟩ := Option.bind_eq_some.mp hacc
  unfold accept_end at he
  split_ifs at he with h1
  simp only [Option.some.injEq] at he
  subst he
  have h2 : r.1 = opts_len_of data_offset := by
    by_contra hc
    exact h1 (Or.inr hc)
  refine ⟨?_, rfl, rfl⟩
  rw [hr, ← h2]

theorem chained_next : ∀ (ds : List tcp_opt_descr) (off p : Nat) (d e : tcp_opt_descr),
    chained off ds → ds[p]? = some d → ds[p + 1]? = some e → e.data = d.data + d.length := by
  intro ds
  induction ds with
  | nil => intro off p d e _ h; simp at h
  | cons a ds ih =>
    intro off p d e hc hd he
    obtain ⟨ha, hc'⟩ := hc
    cases p with
    | zero =>
      simp only [List.getElem?_cons_zero, Option.some.injEq] at hd
      subst hd
      cases ds with
      | nil => simp at he
      | cons b ds =>
        simp only [List.getElem?_cons_succ, List.getElem?_cons_zero, Option.some.injEq] at he
        subst he
        rw [hc'.1, ha]
    | succ p =>
      simp only [List.getElem?_cons_succ] at hd he
      exact ih _ p d e hc' hd he

theorem slices_flatten (opts : List Nat) : ∀ (ds : List tcp_opt_descr) (off : Nat),
    chained off ds →
    (ds.map (slice opts)).flatten = (opts.drop off).take (ds.map (·.length)).sum := by
  intro ds
  induction ds with
  | nil => intro off _; simp
  | cons d ds ih =>
    intro off hc
    obtain ⟨hd, hc'⟩ := hc
    simp only [List.map_cons, List.flatten_cons, List.sum_cons]
    rw [ih _ hc', List.take_add, slice, hd, List.drop_drop]

theorem slice_head (opts : List Nat) (d : tcp_opt_descr) (h1 : d.type = opts.getD d.data 0)
    (h2 : 1 ≤ d.length) (h3 : d.data < opts.length) : (slice opts d).head? = some d.type := by
  unfold slice
  obtain ⟨n, hn⟩ : ∃ n, d.length = n + 1 := ⟨d.length - 1, by omega⟩
  rw [hn, h1]
  cases hdr : opts.drop d.data with
  | nil =>
    have := List.length_drop d.data opts
    rw [hdr] at this
    simp at this
    omega
  | cons a l =>
    have ha : opts[d.data]? = some a := by
      have := List.getElem?_drop opts d.data 0
      rw [hdr] at this
      simpa using this.symm
    simp [List.getD, ha]

/-- C6: for every options block `B` of length `L = data_offset*4 - 20` with
`0 ≤ L ≤ 40` that the acceptor accepts, `tot_len = L`, the first recorded
option starts at offset 0, each next option starts where the previous one ends,
the recorded lengths sum to `L`, `types[p]` is the first byte of slice `p`, and
the concatenation of the recorded slices is `B`. -/
theorem accepted_slices_rebuild_block (opts : List Nat) (data_offset : Nat) (h : rohc_tcp_opts)
    (hlo : 5 ≤ data_offset) (hhi : data_offset ≤ 15)
    (hlen : opts.length = data_offset * 4 - 20)
    (hacc : rohc_comp_tcp_are_options_acceptable opts data_offset = some h) :
    h.tot_len = data_offset * 4 - 20 ∧
    (∀ d, h.descrs.head? = some d → d.data = 0) ∧
    (∀ (p : Nat) d e, h.descrs[p]? = some d → h.descrs[p + 1]? = some e →
      e.data = d.data + d.length) ∧
    h.lengths.sum = data_offset * 4 - 20 ∧
    (∀ (p : Nat) d, h.descrs[p]? = some d →
      h.types[p]? = some d.type ∧ (slice opts d).head? = some d.type) ∧
    (h.descrs.map (slice opts)).flatten = opts := by
  obtain ⟨hp, _, htot⟩ := acceptable_some hacc
  have hL := opts_len_of_eq data_offset hlo hhi
  rw [hL] at hp htot
  obtain ⟨i1, i2, i4, _⟩ :=
    parse_loop_inv opts (data_offset * 4 - 20) (by omega) _ _ _ _ _ hp
  have hsum : (h.descrs.map (·.length)).sum = data_offset * 4 - 20 := by omega
  refine ⟨htot, ?_, ?_, hsum, ?_, ?_⟩
  · intro d hd
    cases hds : h.descrs with
    | nil => rw [hds] at hd; simp at hd
    | cons a l =>
      rw [hds] at hd i1
      simp only [List.head?_cons, Option.some.injEq] at hd
      subst hd
      exact i1.1
  · intro p d e hd he
    exact chained_next _ _ p d e i1 hd he
  · intro p d hd
    have hmem : d ∈ h.descrs := List.getElem?_mem hd
    obtain ⟨j1, j2, j3, _⟩ := i4 d hmem
    refine ⟨?_, slice_head opts d j1 j2 (by omega)⟩
    simp [rohc_tcp_opts.types, hd]
  · rw [slices_flatten opts _ 0 i1, hsum, List.drop_zero, ← hlen, List.take_length]

/-- Witness of C6: the block `02 04 05 b4 01 03 03 07` is accepted, its three
recorded lengths sum to 8 and its slices rebuild the block. -/
theorem accepted_slices_rebuild_block_witness :
    ∃ h, rohc_comp_tcp_are_options_acceptable [2, 4, 5, 0xb4, 1, 3, 3, 7] 7 = some h ∧
      h.lengths.sum = 8 ∧
      (h.descrs.map (slice [2, 4, 5, 0xb4, 1, 3, 3, 7])).flatten = [2, 4, 5, 0xb4, 1, 3, 3, 7] :=
  ⟨⟨[2, 4, 5, 0xb4, 1, 3, 3, 7], [⟨0, 2, 4⟩, ⟨4, 1, 1⟩, ⟨5, 3, 3⟩], 8⟩, by decide,
    (accepted_slices_rebuild_block [2, 4, 5, 0xb4, 1, 3, 3, 7] 7 _ (by decide) (by decide)
      (by decide) (by decide)).2.2.2.1,
    (accepted_slices_rebuild_block [2, 4, 5, 0xb4, 1, 3, 3, 7] 7 _ (by decide) (by decide)
      (by decide) (by decide)).2.2.2.2.2⟩

theorem spec_parse_loop_end (O : List Nat) (L fuel : Nat) :
    spec_parse_loop O L fuel L = some [] := by
  cases fuel <;> simp [spec_parse_loop]

/-- The options recorded by the parsing loop of the acceptor, when it consumes
the whole block, are those of the parse loop of the specification. -/
theorem parse_loop_spec (opts : List Nat) (L : Nat) (hL : L < 256) :
    ∀ (n off : Nat) (cnt : Nat → Nat) (ds : List tcp_opt_descr) (fuel : Nat),
      parse_loop opts L n off cnt = some (L, ds) → L - off ≤ fuel →
      spec_parse_loop opts L fuel off = some ds := by
  intro n
  induction n with
  | zero =>
    intro off cnt ds fuel h _
    rw [parse_loop_zero] at h
    simp only [Option.some.injEq, Prod.mk.injEq] at h
    obtain ⟨rfl, rfl⟩ := h
    exact spec_parse_loop_end _ _ _
  | succ n ih =>
    intro off cnt ds fuel h hfuel
    rcases parse_loop_succ h with ⟨_, rfl, rfl⟩ | ⟨hlt, t, len, ds', hg, _, _, _, hrec, rfl⟩
    · exact spec_parse_loop_end _ _ _
    · obtain ⟨hn1, ht, hnop, heol, hoth⟩ := get_type_len_some hg
      obtain ⟨f, rfl⟩ : ∃ f, fuel = f + 1 := ⟨fuel - 1, by omega⟩
      have hne : ¬ L - off = 0 := by omega
      have hkind : opts.getD off 0 = t := by simpa [ptr] using ht.symm
      unfold spec_parse_loop
      simp only [hne, if_false, hkind]
      by_cases h1 : t = 1
      · have hl := hnop h1
        subst hl
        rw [ih _ _ _ f hrec (by omega)]
        simp [h1]
      · by_cases h0 : t = 0
        · have hl : len = L - off := by rw [heol h0]; omega
          subst hl
          rw [ih _ _ _ f hrec (by omega)]
          simp [h0]
        · obtain ⟨g1, g2, g3, g4⟩ := hoth h0 h1
          have hlen' : opts.getD (off + 1) 0 = len := by simpa [ptr] using g2.symm
          rw [hlen', ih _ _ _ f hrec (by omega)]
          simp [h0, h1, g1, g3, g4]

/-- C7: in every options block that the acceptor accepts, the number of recorded
options is at most 15 and every kind other than NOP (1) and EOL (0) occurs at
most once among the recorded types; conversely a block of length
`L = data_offset*4 - 20 ≤ 40` that parses, by the parse loop of the
specification, into more than 15 options or into options of which two have the
same kind other than NOP and EOL is refused, and so is the block of 16 NOP
bytes. -/
theorem accepted_at_most_15_and_once (opts : List Nat) (data_offset : Nat) :
    (∀ h, rohc_comp_tcp_are_options_acceptable opts data_offset = some h →
      h.nr ≤ 15 ∧
      ∀ k, k ≠ TCP_OPT_NOP → k ≠ TCP_OPT_EOL → h.types.count k ≤ 1) ∧
    (5 ≤ data_offset → data_offset ≤ 15 →
      ∀ ds, spec_parse opts (data_offset * 4 - 20) = some ds →
      (15 < ds.length ∨
        ∃ k, k ≠ TCP_OPT_NOP ∧ k ≠ TCP_OPT_EOL ∧ 2 ≤ (ds.map (·.type)).count k) →
      rohc_comp_tcp_are_options_acceptable opts data_offset = none) ∧
    rohc_comp_tcp_are_options_acceptable (List.replicate 16 1) 9 = none := by
  have main : ∀ h, rohc_comp_tcp_are_options_acceptable opts data_offset = some h →
      h.nr ≤ 15 ∧ ∀ k, k ≠ TCP_OPT_NOP → k ≠ TCP_OPT_EOL → h.types.count k ≤ 1 := by
    intro h hacc
    obtain ⟨hp, _, _⟩ := acceptable_some hacc
    obtain ⟨i3, i5⟩ := parse_loop_counts opts _ _ _ _ _ _ hp
    refine ⟨i3, fun k hk1 hk0 => ?_⟩
    have := i5 k hk0 hk1
    simpa [rohc_tcp_opts.types] using this
  refine ⟨main, ?_, by decide⟩
  intro hlo hhi ds hds hbad
  have hL := opts_len_of_eq data_offset hlo hhi
  cases hacc : rohc_comp_tcp_are_options_acceptable opts data_offset with
  | none => rfl
  | some h =>
    exfalso
    obtain ⟨hp, _, _⟩ := acceptable_some hacc
    rw [hL] at hp
    have hspec := parse_loop_spec opts (data_offset * 4 - 20) (by omega) _ _ _ _
      (data_offset * 4 - 20) hp (by omega)
    unfold spec_parse at hds
    rw [hspec] at hds
    simp only [Option.some.injEq] at hds
    subst hds
    obtain ⟨m1, m2⟩ := main h hacc
    rcases hbad with hb | ⟨k, hk1, hk0, hk⟩
    · unfold rohc_tcp_opts.nr at m1
      omega
    · have := m2 k hk1 hk0
      unfold rohc_tcp_opts.types at this
      omega

/-- Witness of C7: the block `02 04 05 b4 01 03 03 07` is accepted with 3 options,
and the block `02 04 05 b4 02 04 05 b4`, which parses into two MSS options, is
refused. -/
theorem accepted_at_most_15_and_once_witness :
    (∃ h, rohc_comp_tcp_are_options_acceptable [2, 4, 5, 0xb4, 1, 3, 3, 7] 7 = some h ∧
      h.nr ≤ 15) ∧
    rohc_comp_tcp_are_options_acceptable [2, 4, 5, 0xb4, 2, 4, 5, 0xb4] 7 = none :=
  ⟨⟨⟨[2, 4, 5, 0xb4, 1, 3, 3, 7], [⟨0, 2, 4⟩, ⟨4, 1, 1⟩, ⟨5, 3, 3⟩], 8⟩, by decide,
      ((accepted_at_most_15_and_once [2, 4, 5, 0xb4, 1, 3, 3, 7] 7).1 _ (by decide)).1⟩,
    (accepted_at_most_15_and_once [2, 4, 5, 0xb4, 2, 4, 5, 0xb4] 7).2.1 (by decide) (by decide)
      [⟨0, 2, 4⟩, ⟨4, 2, 4⟩] (by decide) (Or.inr ⟨2, by decide, by decide, by decide⟩)⟩

/-! ## Properties of the index allocator -/

theorem index_is_free_iff (m x : Nat) : index_is_free m x = true ↔ m.testBit x = false := by
  unfold index_is_free
  rw [Nat.one_shiftLeft, beq_iff_eq]
  constructor
  · intro h
    have h1 : (m &&& 2 ^ x).testBit x = false := by rw [h]; simp
    simpa [Nat.testBit_and, Nat.testBit_two_pow_self] using h1
  · intro h
    apply Nat.eq_of_testBit_eq
    intro i
    rw [Nat.testBit_and, Nat.testBit_two_pow, Nat.zero_testBit]
    by_cases hi : x = i
    · subst hi; simp [h]
    · simp [hi]

theorem index_is_free_or_self (m i : Nat) : index_is_free (m ||| (1 <<< i)) i = false := by
  have h : ¬ index_is_free (m ||| (1 <<< i)) i = true := by
    rw [index_is_free_iff, Nat.testBit_or, Nat.one_shiftLeft, Nat.testBit_two_pow_self]
    simp
  simpa using h

theorem index_is_free_or_mono (m i x : Nat) (h : index_is_free m x = false) :
    index_is_free (m ||| (1 <<< i)) x = false := by
  have h0 : ¬ index_is_free m x = true := by simp [h]
  rw [index_is_free_iff] at h0
  have h1 : ¬ index_is_free (m ||| (1 <<< i)) x = true := by
    rw [index_is_free_iff, Nat.testBit_or]
    simp only [Bool.not_eq_false] at h0
    simp [h0]
  simpa using h1

theorem mem_generic_indexes (x : Nat) : x ∈ generic_indexes ↔ 7 ≤ x ∧ x ≤ 15 := by
  unfold generic_indexes
  simp only [List.mem_range'_1, TCP_INDEX_GENERIC7, MAX_TCP_OPTION_INDEX]
  omega

theorem reserved_index_lt (t : Nat) (h : has_reserved_index t) :
    (c_tcp_type2index t).toNat < 7 := by
  obtain ⟨h1, h2⟩ := h
  simp only [TCP_LIST_ITEM_MAP_LEN] at h1
  interval_cases t <;> simp_all [c_tcp_type2index]

theorem reserved_index_inj (t u : Nat) (ht : has_reserved_index t) (hu : has_reserved_index u)
    (h : (c_tcp_type2index t).toNat = (c_tcp_type2index u).toNat) : t = u := by
  obtain ⟨h1, h2⟩ := ht
  obtain ⟨h3, h4⟩ := hu
  simp only [TCP_LIST_ITEM_MAP_LEN] at h1 h3
  interval_cases t <;> simp [c_tcp_type2index] at h2 <;>
    interval_cases u <;> simp [c_tcp_type2index] at h4 h ⊢

theorem get_opt_index_not_recycled (opts_ctxt : c_tcp_opts_ctxt) (t m x : Nat)
    (h : c_tcp_get_opt_index opts_ctxt t m = (x, false)) : allocated opts_ctxt t m x := by
  unfold c_tcp_get_opt_index at h
  by_cases hr : t < TCP_LIST_ITEM_MAP_LEN ∧ c_tcp_type2index t ≥ 0
  · rw [if_pos hr] at h
    simp only [Prod.mk.injEq, and_true] at h
    exact Or.inl ⟨hr, h.symm⟩
  · rw [if_neg hr] at h
    right
    cases h1 : generic_indexes.find?
        (fun opt_idx => (opts_ctxt.list opt_idx).used && (opts_ctxt.list opt_idx).type == t) with
    | some i =>
      rw [h1] at h
      simp only [Prod.mk.injEq, and_true] at h
      subst h
      have hmem := (mem_generic_indexes i).mp (List.mem_of_find?_eq_some h1)
      have hp := List.find?_some h1
      simp only [Bool.and_eq_true, beq_iff_eq] at hp
      exact Or.inl ⟨hr, hmem.1, hmem.2, hp.1, hp.2⟩
    | none =>
      rw [h1] at h
      cases h2 : generic_indexes.find?
          (fun opt_idx => !(opts_ctxt.list opt_idx).used && index_is_free m opt_idx) with
      | some i =>
        rw [h2] at h
        simp only [Prod.mk.injEq, and_true] at h
        subst h
        have hmem := (mem_generic_indexes i).mp (List.mem_of_find?_eq_some h2)
        have hp := List.find?_some h2
        simp only [Bool.and_eq_true, Bool.not_eq_true'] at hp
        exact Or.inr ⟨hr, hmem.1, hmem.2, hp.1, hp.2⟩
      | none =>
        rw [h2] at h
        simp at h

theorem oldest_index_le (opts_ctxt : c_tcp_opts_ctxt) (m : Nat) :
    (oldest_index opts_ctxt m).1 ≤ 15 := by
  unfold oldest_index
  have key : ∀ (l : List Nat) (acc : Nat × Nat), (∀ i ∈ l, i ≤ 15) → acc.1 ≤ 15 →
      (l.foldl (fun (acc : Nat × Nat) opt_idx =>
        if index_is_free m opt_idx ∧ (opts_ctxt.list opt_idx).used = true ∧
            (opts_ctxt.list opt_idx).age > acc.2
        then (opt_idx, (opts_ctxt.list opt_idx).age) else acc) acc).1 ≤ 15 := by
    intro l
    induction l with
    | nil => intro acc _ h; exact h
    | cons a l ih =>
      intro acc hl hacc
      simp only [List.foldl_cons]
      apply ih
      · intro i hi; exact hl i (List.mem_cons_of_mem _ hi)
      · split_ifs
        · exact hl a (List.mem_cons_self _ _)
        · exact hacc
  exact key _ _ (fun i hi => ((mem_generic_indexes i).mp hi).2) (by decide)

theorem get_opt_index_le (opts_ctxt : c_tcp_opts_ctxt) (t m : Nat) :
    (c_tcp_get_opt_index opts_ctxt t m).1 ≤ 15 := by
  cases hr : (c_tcp_get_opt_index opts_ctxt t m).2 with
  | false =>
    have h := get_opt_index_not_recycled opts_ctxt t m (c_tcp_get_opt_index opts_ctxt t m).1
      (by rw [← hr])
    rcases h with ⟨h1, h2⟩ | ⟨_, _, h2, _⟩ | ⟨_, _, h2, _⟩
    · have := reserved_index_lt t h1
      omega
    · exact h2
    · exact h2
  | true =>
    unfold c_tcp_get_opt_index at hr ⊢
    by_cases h1 : t < TCP_LIST_ITEM_MAP_LEN ∧ c_tcp_type2index t ≥ 0
    · rw [if_pos h1] at hr
      simp at hr
    · rw [if_neg h1] at hr ⊢
      revert hr
      cases generic_indexes.find?
        (fun opt_idx => (opts_ctxt.list opt_idx).used && (opts_ctxt.list opt_idx).type == t) with
      | some i => simp
      | none =>
        cases generic_indexes.find?
          (fun opt_idx => !(opts_ctxt.list opt_idx).used && index_is_free m opt_idx) with
        | some i => simp
        | none => intro _; exact oldest_index_le opts_ctxt m

/-! ## Properties of the change detector -/

theorem detect_changes_fields (opt_idx : Nat) (opts_ctxt : c_tcp_opts_ctxt)
    (opt_ctxt : c_tcp_opt_ctxt) (tmp : c_tcp_opts_ctxt_tmp) (ack : Bool) (opt_data : Nat → Nat)
    (opt_len : Nat) :
    (c_tcp_opts_detect_changes opt_idx opts_ctxt opt_ctxt tmp ack opt_data opt_len).2.changes =
      tmp.changes ∧
    (c_tcp_opts_detect_changes opt_idx opts_ctxt opt_ctxt tmp ack opt_data opt_len).2.list_item_needed =
      tmp.list_item_needed ∧
    (c_tcp_opts_detect_changes opt_idx opts_ctxt opt_ctxt tmp ack opt_data opt_len).2.position2index =
      tmp.position2index ∧
    (c_tcp_opts_detect_changes opt_idx opts_ctxt opt_ctxt tmp ack opt_data opt_len).2.idx_max =
      tmp.idx_max ∧
    (c_tcp_opts_detect_changes opt_idx opts_ctxt opt_ctxt tmp ack opt_data opt_len).2.do_list_struct_changed =
      tmp.do_list_struct_changed := by
  have hts : ∀ oc : c_tcp_opt_ctxt,
      (c_tcp_detect_ts_changes opts_ctxt oc tmp opt_data).2.changes = tmp.changes ∧
      (c_tcp_detect_ts_changes opts_ctxt oc tmp opt_data).2.list_item_needed =
        tmp.list_item_needed ∧
      (c_tcp_detect_ts_changes opts_ctxt oc tmp opt_data).2.position2index =
        tmp.position2index ∧
      (c_tcp_detect_ts_changes opts_ctxt oc tmp opt_data).2.idx_max = tmp.idx_max ∧
      (c_tcp_detect_ts_changes opts_ctxt oc tmp opt_data).2.do_list_struct_changed =
        tmp.do_list_struct_changed := by
    intro oc
    unfold c_tcp_detect_ts_changes
    dsimp only
    split_ifs <;> exact ⟨rfl, rfl, rfl, rfl, rfl⟩
  unfold c_tcp_opts_detect_changes
  split_ifs
  all_goals first | exact hts opt_ctxt | exact ⟨rfl, rfl, rfl, rfl, rfl⟩

theorem detect_step_mask (oa : Nat) (opts : List Nat) (opts_ctxt : c_tcp_opts_ctxt) (ack : Bool)
    (st : detect_state) (opt_pos : Nat) (d : tcp_opt_descr) :
    (detect_step oa opts opts_ctxt ack st opt_pos d).indexes_in_use =
      st.indexes_in_use ||| (1 <<< (c_tcp_get_opt_index opts_ctxt d.type st.indexes_in_use).1) :=
  rfl

theorem detect_step_position2index (oa : Nat) (opts : List Nat) (opts_ctxt : c_tcp_opts_ctxt)
    (ack : Bool) (st : detect_state) (opt_pos : Nat) (d : tcp_opt_descr) :
    (detect_step oa opts opts_ctxt ack st opt_pos d).tmp.position2index =
      upd st.tmp.position2index opt_pos
        (c_tcp_get_opt_index opts_ctxt d.type st.indexes_in_use).1 := by
  unfold detect_step
  simp only []
  split_ifs <;> simp only [(detect_changes_fields _ _ _ _ _ _ _).2.2.1]

theorem detect_step_recycled (oa : Nat) (opts : List Nat) (opts_ctxt : c_tcp_opts_ctxt)
    (ack : Bool) (st : detect_state) (opt_pos : Nat) (d : tcp_opt_descr) (i : Nat) :
    ((detect_step oa opts opts_ctxt ack st opt_pos d).tmp.changes i).is_index_recycled =
      ((st.tmp.changes i).is_index_recycled ||
        ((c_tcp_get_opt_index opts_ctxt d.type st.indexes_in_use).2 &&
          decide (i = (c_tcp_get_opt_index opts_ctxt d.type st.indexes_in_use).1))) := by
  unfold detect_step
  simp only []
  by_cases hi : i = (c_tcp_get_opt_index opts_ctxt d.type st.indexes_in_use).1
  · split_ifs <;> simp [upd, hi, (detect_changes_fields _ _ _ _ _ _ _).1, *]
  · split_ifs <;> simp [upd, hi, (detect_changes_fields _ _ _ _ _ _ _).1]

theorem detect_loop_recycled_mono (oa : Nat) (opts : List Nat) (opts_ctxt : c_tcp_opts_ctxt)
    (ack : Bool) (i : Nat) : ∀ (ds : List tcp_opt_descr) (opt_pos : Nat) (st : detect_state),
    (st.tmp.changes i).is_index_recycled = true →
    ((detect_loop oa opts opts_ctxt ack ds opt_pos st).tmp.changes i).is_index_recycled = true := by
  intro ds
  induction ds with
  | nil => intro _ st h; exact h
  | cons d ds ih =>
    intro opt_pos st h
    rw [detect_loop]
    apply ih
    rw [detect_step_recycled, h]
    rfl

theorem detect_loop_position2index_before (oa : Nat) (opts : List Nat)
    (opts_ctxt : c_tcp_opts_ctxt) (ack : Bool) :
    ∀ (ds : List tcp_opt_descr) (opt_pos : Nat) (st : detect_state) (p : Nat), p < opt_pos →
    (detect_loop oa opts opts_ctxt ack ds opt_pos st).tmp.position2index p =
      st.tmp.position2index p := by
  intro ds
  induction ds with
  | nil => intro _ st p _; rfl
  | cons d ds ih =>
    intro opt_pos st p hp
    rw [detect_loop, ih _ _ p (by omega), detect_step_position2index, upd, if_neg (by omega)]

theorem detect_step_changes_other (oa : Nat) (opts : List Nat) (opts_ctxt : c_tcp_opts_ctxt)
    (ack : Bool) (st : detect_state) (opt_pos : Nat) (d : tcp_opt_descr) (i : Nat)
    (hi : i ≠ (c_tcp_get_opt_index opts_ctxt d.type st.indexes_in_use).1) :
    (detect_step oa opts opts_ctxt ack st opt_pos d).tmp.changes i = st.tmp.changes i := by
  unfold detect_step
  simp only []
  split_ifs <;> simp [upd, hi, (detect_changes_fields _ _ _ _ _ _ _).1]

theorem detect_step_static_mono (oa : Nat) (opts : List Nat) (opts_ctxt : c_tcp_opts_ctxt)
    (ack : Bool) (st : detect_state) (opt_pos : Nat) (d : tcp_opt_descr) (i : Nat)
    (h : (st.tmp.changes i).static_changed = true) :
    ((detect_step oa opts opts_ctxt ack st opt_pos d).tmp.changes i).static_changed = true := by
  by_cases hi : i = (c_tcp_get_opt_index opts_ctxt d.type st.indexes_in_use).1
  · rw [hi] at h ⊢
    unfold detect_step
    simp only []
    split_ifs <;> simp [upd, (detect_changes_fields _ _ _ _ _ _ _).1, h]
  · rw [detect_step_changes_other _ _ _ _ _ _ _ _ hi, h]

theorem detect_step_needed (oa : Nat) (opts : List Nat) (opts_ctxt : c_tcp_opts_ctxt)
    (ack : Bool) (st : detect_state) (opt_pos : Nat) (d : tcp_opt_descr) :
    (detect_step oa opts opts_ctxt ack st opt_pos d).tmp.list_item_needed =
      upd st.tmp.list_item_needed (c_tcp_get_opt_index opts_ctxt d.type st.indexes_in_use).1
        (c_tcp_is_list_item_needed oa ROHC_CHAIN_CO d.type
          ((detect_step oa opts opts_ctxt ack st opt_pos d).tmp.changes
            (c_tcp_get_opt_index opts_ctxt d.type st.indexes_in_use).1).static_changed
          (opts_ctxt.list (c_tcp_get_opt_index opts_ctxt d.type st.indexes_in_use).1).full_trans_nr) := by
  unfold detect_step
  simp only []
  split_ifs <;> simp only [(detect_changes_fields _ _ _ _ _ _ _).2.1]

theorem detect_step_co (oa : Nat) (opts : List Nat) (opts_ctxt : c_tcp_opts_ctxt)
    (ack : Bool) (st : detect_state) (opt_pos : Nat) (d : tcp_opt_descr) :
    (detect_step oa opts opts_ctxt ack st opt_pos d).co_chain_at_least_one_item_needed =
      (st.co_chain_at_least_one_item_needed ||
        (detect_step oa opts opts_ctxt ack st opt_pos d).tmp.list_item_needed
          (c_tcp_get_opt_index opts_ctxt d.type st.indexes_in_use).1) := by
  rw [detect_step_needed, upd, if_pos rfl]
  rfl

/-- Two kinds that were given the same index `x` without recycling are equal, when
the bit of `x` was already set in the mask under which the second one, `t`, was
given its index. -/
theorem allocated_same_index (opts_ctxt : c_tcp_opts_ctxt) (t u m m' x : Nat)
    (ht : allocated opts_ctxt t m x) (hx : index_is_free m x = false)
    (hu : allocated opts_ctxt u m' x) : t = u := by
  rcases ht with ⟨t1, t2⟩ | ⟨t1, t2, t3, t4, t5⟩ | ⟨t1, t2, t3, t4, t5⟩
  · have hlt := reserved_index_lt t t1
    rcases hu with ⟨u1, u2⟩ | ⟨_, u2, _⟩ | ⟨_, u2, _⟩
    · exact reserved_index_inj t u t1 u1 (by rw [← t2, ← u2])
    · omega
    · omega
  · rcases hu with ⟨u1, u2⟩ | ⟨_, _, _, _, u5⟩ | ⟨_, _, _, u4, _⟩
    · have hlt := reserved_index_lt u u1
      omega
    · rw [← t5, ← u5]
    · rw [t4] at u4
      exact absurd u4 (by simp)
  · rw [hx] at t5
    exact absurd t5 (by simp)

theorem getD_append_left (l : List Nat) (a p : Nat) (hp : p < l.length) :
    (l ++ [a]).getD p 0 = l.getD p 0 := by
  simp [List.getD, List.getElem?_append_left hp]

theorem getD_append_last (l : List Nat) (a : Nat) : (l ++ [a]).getD l.length 0 = a := by
  simp [List.getD]

theorem detect_step_inv (oa : Nat) (opts : List Nat) (opts_ctxt : c_tcp_opts_ctxt) (ack : Bool)
    (kinds : List Nat) (st : detect_state) (d : tcp_opt_descr)
    (hinv : alloc_inv opts_ctxt kinds st)
    (hrec : (c_tcp_get_opt_index opts_ctxt d.type st.indexes_in_use).2 = false) :
    alloc_inv opts_ctxt (kinds ++ [d.type])
      (detect_step oa opts opts_ctxt ack st kinds.length d) := by
  obtain ⟨h1, h2⟩ := hinv
  have hall : allocated opts_ctxt d.type st.indexes_in_use
      (c_tcp_get_opt_index opts_ctxt d.type st.indexes_in_use).1 :=
    get_opt_index_not_recycled _ _ _ _ (by rw [← hrec])
  have hold : ∀ p, p < kinds.length →
      (detect_step oa opts opts_ctxt ack st kinds.length d).tmp.position2index p =
        st.tmp.position2index p := by
    intro p hp
    rw [detect_step_position2index, upd, if_neg (by omega)]
  have hnew : (detect_step oa opts opts_ctxt ack st kinds.length d).tmp.position2index
      kinds.length = (c_tcp_get_opt_index opts_ctxt d.type st.indexes_in_use).1 := by
    rw [detect_step_position2index, upd, if_pos rfl]
  have hcases : ∀ p, p < (kinds ++ [d.type]).length → p < kinds.length ∨ p = kinds.length := by
    intro p hp
    simp only [List.length_append, List.length_singleton] at hp
    omega
  have hkey : ∀ q, q < kinds.length →
      (c_tcp_get_opt_index opts_ctxt d.type st.indexes_in_use).1 = st.tmp.position2index q →
      d.type = kinds.getD q 0 := by
    intro q hq he
    obtain ⟨f1, m, f2⟩ := h1 q hq
    rw [← he] at f1 f2
    exact allocated_same_index _ _ _ _ _ _ hall f1 f2
  constructor
  · intro p hp
    rcases hcases p hp with hp | rfl
    · obtain ⟨f1, m, f2⟩ := h1 p hp
      rw [hold p hp, getD_append_left _ _ _ hp, detect_step_mask]
      exact ⟨index_is_free_or_mono _ _ _ f1, m, f2⟩
    · rw [hnew, getD_append_last, detect_step_mask]
      exact ⟨index_is_free_or_self _ _, _, hall⟩
  · intro p q hp hq he
    rcases hcases p hp with hp | rfl
    · rcases hcases q hq with hq | rfl
      · rw [hold p hp, hold q hq] at he
        rw [getD_append_left _ _ _ hp, getD_append_left _ _ _ hq]
        exact h2 p q hp hq he
      · rw [hold p hp, hnew] at he
        rw [getD_append_left _ _ _ hp, getD_append_last]
        exact (hkey p hp he.symm).symm
    · rcases hcases q hq with hq | rfl
      · rw [hold q hq, hnew] at he
        rw [getD_append_left _ _ _ hq, getD_append_last]
        exact hkey q hq he
      · rfl

theorem is_list_item_needed_mono (oa : Nat) (c : rohc_chain_t) (t n : Nat) (b : Bool)
    (h : c_tcp_is_list_item_needed oa c t false n = true) :
    c_tcp_is_list_item_needed oa c t b n = true := by
  cases b
  · exact h
  · unfold c_tcp_is_list_item_needed at h ⊢
    split_ifs at h ⊢ <;> simp_all

theorem detect_step_needed_inv (oa : Nat) (opts : List Nat) (opts_ctxt : c_tcp_opts_ctxt)
    (ack : Bool) (kinds : List Nat) (st : detect_state) (d : tcp_opt_descr)
    (hnew : alloc_inv opts_ctxt (kinds ++ [d.type])
      (detect_step oa opts opts_ctxt ack st kinds.length d))
    (hinv : needed_inv oa opts_ctxt kinds st) :
    needed_inv oa opts_ctxt (kinds ++ [d.type])
      (detect_step oa opts opts_ctxt ack st kinds.length d) := by
  obtain ⟨n1, n2, n3⟩ := hinv
  have hlen : (kinds ++ [d.type]).length = kinds.length + 1 := by simp
  have hold : ∀ p, p < kinds.length →
      (detect_step oa opts opts_ctxt ack st kinds.length d).tmp.position2index p =
        st.tmp.position2index p := by
    intro p hp
    rw [detect_step_position2index, upd, if_neg (by omega)]
  have hlast : (detect_step oa opts opts_ctxt ack st kinds.length d).tmp.position2index
      kinds.length = (c_tcp_get_opt_index opts_ctxt d.type st.indexes_in_use).1 := by
    rw [detect_step_position2index, upd, if_pos rfl]
  have hkind : ∀ p, p < kinds.length →
      st.tmp.position2index p = (c_tcp_get_opt_index opts_ctxt d.type st.indexes_in_use).1 →
      kinds.getD p 0 = d.type := by
    intro p hp he
    have := hnew.2 p kinds.length (by omega) (by omega) (by rw [hold p hp, hlast, he])
    rwa [getD_append_left _ _ _ hp, getD_append_last] at this
  have hnx : (detect_step oa opts opts_ctxt ack st kinds.length d).tmp.list_item_needed
      (c_tcp_get_opt_index opts_ctxt d.type st.indexes_in_use).1 =
      c_tcp_is_list_item_needed oa ROHC_CHAIN_CO d.type
        ((detect_step oa opts opts_ctxt ack st kinds.length d).tmp.changes
          (c_tcp_get_opt_index opts_ctxt d.type st.indexes_in_use).1).static_changed
        (opts_ctxt.list (c_tcp_get_opt_index opts_ctxt d.type st.indexes_in_use).1).full_trans_nr := by
    rw [detect_step_needed, upd, if_pos rfl]
  have hno : ∀ i, i ≠ (c_tcp_get_opt_index opts_ctxt d.type st.indexes_in_use).1 →
      (detect_step oa opts opts_ctxt ack st kinds.length d).tmp.list_item_needed i =
        st.tmp.list_item_needed i := by
    intro i hi
    rw [detect_step_needed, upd, if_neg hi]
  refine ⟨?_, ?_, ?_⟩
  · intro i hi
    by_cases hx : i = (c_tcp_get_opt_index opts_ctxt d.type st.indexes_in_use).1
    · refine ⟨by rw [hx]; exact get_opt_index_le _ _ _, kinds.length, by omega, ?_⟩
      rw [hlast, hx]
    · rw [hno i hx] at hi
      obtain ⟨hle, p, hp, he⟩ := n1 i hi
      exact ⟨hle, p, by omega, by rw [hold p hp, he]⟩
  · intro p hp
    rw [hlen] at hp
    by_cases hpl : p < kinds.length
    · rw [hold p hpl, getD_append_left _ _ _ hpl]
      by_cases hx : st.tmp.position2index p =
          (c_tcp_get_opt_index opts_ctxt d.type st.indexes_in_use).1
      · rw [hkind p hpl hx, hx]
        exact hnx
      · rw [hno _ hx, detect_step_changes_other _ _ _ _ _ _ _ _ hx]
        exact n2 p hpl
    · have hpe : p = kinds.length := by omega
      subst hpe
      rw [hlast, getD_append_last]
      exact hnx
  · rw [detect_step_co]
    simp only [Bool.or_eq_true]
    constructor
    · rintro (hco | hit)
      · obtain ⟨i, hi⟩ := n3.mp hco
        by_cases hx : i = (c_tcp_get_opt_index opts_ctxt d.type st.indexes_in_use).1
        · refine ⟨i, ?_⟩
          obtain ⟨_, p, hp, he⟩ := n1 i hi
          have h2 := n2 p hp
          rw [he, hi] at h2
          rw [hx] at he
          rw [hkind p hp he, hx] at h2
          rw [hx, hnx]
          cases hsc : (st.tmp.changes
              (c_tcp_get_opt_index opts_ctxt d.type st.indexes_in_use).1).static_changed with
          | false =>
            rw [hsc] at h2
            exact is_list_item_needed_mono _ _ _ _ _ h2.symm
          | true =>
            rw [hsc] at h2
            rw [detect_step_static_mono _ _ _ _ _ _ _ _ hsc]
            exact h2.symm
        · exact ⟨i, by rw [hno i hx]; exact hi⟩
      · exact ⟨_, hit⟩
    · rintro ⟨i, hi⟩
      by_cases hx : i = (c_tcp_get_opt_index opts_ctxt d.type st.indexes_in_use).1
      · right
        rw [← hx]
        exact hi
      · left
        rw [hno i hx] at hi
        exact n3.mpr ⟨i, hi⟩

theorem detect_loop_inv (oa : Nat) (opts : List Nat) (opts_ctxt : c_tcp_opts_ctxt) (ack : Bool) :
    ∀ (ds : List tcp_opt_descr) (kinds : List Nat) (st : detect_state),
    alloc_inv opts_ctxt kinds st → needed_inv oa opts_ctxt kinds st →
    (∀ idx, idx ≤ 15 →
      ((detect_loop oa opts opts_ctxt ack ds kinds.length st).tmp.changes idx).is_index_recycled
        = false) →
    alloc_inv opts_ctxt (kinds ++ ds.map (·.type))
      (detect_loop oa opts opts_ctxt ack ds kinds.length st) ∧
    needed_inv oa opts_ctxt (kinds ++ ds.map (·.type))
      (detect_loop oa opts opts_ctxt ack ds kinds.length st) := by
  intro ds
  induction ds with
  | nil =>
    intro kinds st hinv hninv _
    simpa [detect_loop] using And.intro hinv hninv
  | cons d ds ih =>
    intro kinds st hinv hninv hrec
    rw [detect_loop] at hrec ⊢
    have hr : (c_tcp_get_opt_index opts_ctxt d.type st.indexes_in_use).2 = false := by
      by_contra hc
      simp only [Bool.not_eq_false] at hc
      have h1 := detect_step_recycled oa opts opts_ctxt ack st kinds.length d
        (c_tcp_get_opt_index opts_ctxt d.type st.indexes_in_use).1
      rw [hc] at h1
      simp only [decide_True, Bool.and_self, Bool.or_true] at h1
      have h2 := detect_loop_recycled_mono oa opts opts_ctxt ack _ ds (kinds.length + 1) _ h1
      rw [hrec _ (get_opt_index_le _ _ _)] at h2
      exact absurd h2 (by simp)
    have hstep := detect_step_inv oa opts opts_ctxt ack kinds st d hinv hr
    have hnstep := detect_step_needed_inv oa opts opts_ctxt ack kinds st d hstep hninv
    have hlen : (kinds ++ [d.type]).length = kinds.length + 1 := by simp
    have := ih (kinds ++ [d.type]) _ hstep hnstep (by rw [hlen]; exact hrec)
    rw [hlen] at this
    simpa using this

/-- The state of the main loop when it ends, for a packet for which no index is
recycled. -/
theorem detect_loop_final_inv (oa : Nat) (h : rohc_tcp_opts) (opts_ctxt : c_tcp_opts_ctxt)
    (tmp : c_tcp_opts_ctxt_tmp) (ack : Bool)
    (hrec : ∀ idx, idx ≤ 15 →
      ((detect_loop oa h.opts opts_ctxt ack h.descrs 0
        (detect_init h opts_ctxt tmp)).tmp.changes idx).is_index_recycled = false) :
    alloc_inv opts_ctxt h.types
      (detect_loop oa h.opts opts_ctxt ack h.descrs 0 (detect_init h opts_ctxt tmp)) ∧
    needed_inv oa opts_ctxt h.types
      (detect_loop oa h.opts opts_ctxt ack h.descrs 0 (detect_init h opts_ctxt tmp)) := by
  have hinit : alloc_inv opts_ctxt [] (detect_init h opts_ctxt tmp) :=
    ⟨fun p hp => absurd hp (by simp), fun p q hp => absurd hp (by simp)⟩
  have hninit : needed_inv oa opts_ctxt [] (detect_init h opts_ctxt tmp) := by
    refine ⟨fun i hi => ?_, fun p hp => absurd hp (by simp), ?_⟩
    · simp [detect_init] at hi
    · simp [detect_init]
  have hinv := detect_loop_inv oa h.opts opts_ctxt ack h.descrs [] _ hinit hninit hrec
  simpa [rohc_tcp_opts.types] using hinv

theorem two_le_count : ∀ (l : List Nat) (p q k : Nat), p < q → q < l.length →
    l.getD p 0 = k → l.getD q 0 = k → 2 ≤ l.count k := by
  intro l
  induction l with
  | nil => intro p q k _ hq; simp at hq
  | cons a l ih =>
    intro p q k hpq hq hp hk
    obtain ⟨q', rfl⟩ : ∃ q', q = q' + 1 := ⟨q - 1, by omega⟩
    simp only [List.length_cons] at hq
    have hq' : q' < l.length := by omega
    have hk' : l.getD q' 0 = k := by rw [← hk, List.getD_cons_succ]
    cases p with
    | zero =>
      have ha : a = k := by rw [← hp, List.getD_cons_zero]
      subst ha
      have hmem : a ∈ l := by
        rw [List.getD_eq_getElem l 0 hq'] at hk'
        rw [← hk']
        exact List.getElem_mem hq'
      have := List.count_pos_iff.mpr hmem
      simp only [List.count_cons_self]
      omega
    | succ p' =>
      have hp' : l.getD p' 0 = k := by rw [← hp, List.getD_cons_succ]
      have := ih p' q' k (by omega) hq' hp' hk'
      have hle : l.count k ≤ (a :: l).count k := by
        simp only [List.count_cons]
        omega
      omega

theorem detect_final_fields (oa : Nat) (h : rohc_tcp_opts) (opts_ctxt : c_tcp_opts_ctxt)
    (tmp : c_tcp_opts_ctxt_tmp) (ack : Bool) :
    (tcp_detect_options_changes oa h opts_ctxt tmp ack).changes =
      (detect_loop oa h.opts opts_ctxt ack h.descrs 0 (detect_init h opts_ctxt tmp)).tmp.changes ∧
    (tcp_detect_options_changes oa h opts_ctxt tmp ack).position2index =
      (detect_loop oa h.opts opts_ctxt ack h.descrs 0
        (detect_init h opts_ctxt tmp)).tmp.position2index ∧
    (tcp_detect_options_changes oa h opts_ctxt tmp ack).list_item_needed =
      (detect_loop oa h.opts opts_ctxt ack h.descrs 0
        (detect_init h opts_ctxt tmp)).tmp.list_item_needed ∧
    (tcp_detect_options_changes oa h opts_ctxt tmp ack).idx_max =
      (detect_loop oa h.opts opts_ctxt ack h.descrs 0 (detect_init h opts_ctxt tmp)).tmp.idx_max := by
  unfold tcp_detect_options_changes
  simp only []
  split_ifs <;> exact ⟨rfl, rfl, rfl, rfl⟩

/-- C1 (amended): for every accepted options block of length
`L = data_offset*4 - 20 ≤ 40` and every options context, after
`tcp_detect_options_changes`, if no index was recycled for the packet
(`changes[idx].is_index_recycled` is false for every index), then two distinct
option positions of the packet share the same index only if both hold a NOP
option. -/
theorem distinct_positions_share_index_only_if_nop (oa : Nat) (opts : List Nat)
    (data_offset : Nat) (h : rohc_tcp_opts) (opts_ctxt : c_tcp_opts_ctxt)
    (tmp : c_tcp_opts_ctxt_tmp) (ack : Bool)
    (hlo : 5 ≤ data_offset) (hhi : data_offset ≤ 15)
    (hacc : rohc_comp_tcp_are_options_acceptable opts data_offset = some h)
    (hrec : ∀ idx, idx ≤ MAX_TCP_OPTION_INDEX →
      ((tcp_detect_options_changes oa h opts_ctxt tmp ack).changes idx).is_index_recycled = false)
    (p q : Nat) (hp : p < h.nr) (hq : q < h.nr) (hpq : p ≠ q)
    (hidx : (tcp_detect_options_changes oa h opts_ctxt tmp ack).position2index p =
      (tcp_detect_options_changes oa h opts_ctxt tmp ack).position2index q) :
    h.types.getD p 0 = TCP_OPT_NOP ∧ h.types.getD q 0 = TCP_OPT_NOP := by
  obtain ⟨f1, f2, _, _⟩ := detect_final_fields oa h opts_ctxt tmp ack
  rw [f1] at hrec
  rw [f2] at hidx
  have hinv := (detect_loop_final_inv oa h opts_ctxt tmp ack hrec).1
  unfold rohc_tcp_opts.types at hinv
  have hlen : (h.descrs.map (·.type)).length = h.nr := by simp [rohc_tcp_opts.nr]
  have hsame := hinv.2 p q (by omega) (by omega) hidx
  obtain ⟨hpl, _, _⟩ := acceptable_some hacc
  rw [opts_len_of_eq data_offset hlo hhi] at hpl
  obtain ⟨_, _, _, i6⟩ :=
    parse_loop_inv opts (data_offset * 4 - 20) (by omega) _ _ _ _ _ hpl
  obtain ⟨_, i5⟩ := parse_loop_counts opts (data_offset * 4 - 20) _ _ _ _ _ hpl
  have hcount : 2 ≤ (h.descrs.map (·.type)).count ((h.descrs.map (·.type)).getD p 0) := by
    rcases Nat.lt_or_gt_of_ne hpq with hlt | hgt
    · exact two_le_count _ p q _ hlt (by omega) rfl hsame.symm
    · exact two_le_count _ q p _ hgt (by omega) hsame.symm rfl
  have hk : (h.descrs.map (·.type)).getD p 0 = 1 := by
    by_contra hne
    by_cases h0 : (h.descrs.map (·.type)).getD p 0 = 0
    · rw [h0] at hcount
      omega
    · have := i5 _ h0 hne
      simp only [zero_add] at this
      omega
  unfold rohc_tcp_opts.types
  exact ⟨hk, by rw [← hsame]; exact hk⟩

/-- Witness of C1 (amended): in the accepted block `01 01 08 0a 00 00 00 01 00 00 00 00`
(NOP, NOP, TS) on a fresh context no index is recycled, and the positions 0 and 1,
which share index 0, both hold NOP. -/
theorem distinct_positions_share_index_only_if_nop_witness :
    ∃ h, rohc_comp_tcp_are_options_acceptable [1, 1, 8, 10, 0, 0, 0, 1, 0, 0, 0, 0] 8 = some h ∧
      h.types.getD 0 0 = TCP_OPT_NOP ∧ h.types.getD 1 0 = TCP_OPT_NOP :=
  ⟨⟨[1, 1, 8, 10, 0, 0, 0, 1, 0, 0, 0, 0], [⟨0, 1, 1⟩, ⟨1, 1, 1⟩, ⟨2, 8, 10⟩], 12⟩, by decide,
    distinct_positions_share_index_only_if_nop 3 [1, 1, 8, 10, 0, 0, 0, 1, 0, 0, 0, 0] 8 _
      fresh_ctxt zero_tmp false (by decide) (by decide) (by decide) (by decide) 0 1
      (by decide) (by decide) (by decide) (by decide)⟩

theorem detect_final_list_needed (oa : Nat) (h : rohc_tcp_opts) (opts_ctxt : c_tcp_opts_ctxt)
    (tmp : c_tcp_opts_ctxt_tmp) (ack : Bool) :
    ((tcp_detect_options_changes oa h opts_ctxt tmp ack).is_list_needed = true ↔
      (detect_loop oa h.opts opts_ctxt ack h.descrs 0
        (detect_init h opts_ctxt tmp)).tmp.do_list_struct_changed = true ∨
      opts_ctxt.structure_nr_trans < oa ∨
      (detect_loop oa h.opts opts_ctxt ack h.descrs 0
        (detect_init h opts_ctxt tmp)).co_chain_at_least_one_item_needed = true) ∧
    (tcp_detect_options_changes oa h opts_ctxt tmp ack).do_list_struct_changed =
      (detect_loop oa h.opts opts_ctxt ack h.descrs 0
        (detect_init h opts_ctxt tmp)).tmp.do_list_struct_changed := by
  unfold tcp_detect_options_changes
  simp only []
  split_ifs <;> simp [*]

/-- When no index is recycled for the packet, a static change of an option that is
neither NOP nor SACK-Permitted makes its item needed (the property of C9). -/
theorem static_change_needs_item_without_recycling (oa : Nat) (h : rohc_tcp_opts)
    (opts_ctxt : c_tcp_opts_ctxt) (tmp : c_tcp_opts_ctxt_tmp) (ack : Bool)
    (hrec : ∀ idx, idx ≤ MAX_TCP_OPTION_INDEX →
      ((tcp_detect_options_changes oa h opts_ctxt tmp ack).changes idx).is_index_recycled = false)
    (p : Nat) (hp : p < h.nr) (hnop : h.types.getD p 0 ≠ TCP_OPT_NOP)
    (hsp : h.types.getD p 0 ≠ TCP_OPT_SACK_PERM)
    (hs : ((tcp_detect_options_changes oa h opts_ctxt tmp ack).changes
      ((tcp_detect_options_changes oa h opts_ctxt tmp ack).position2index p)).static_changed
        = true) :
    (tcp_detect_options_changes oa h opts_ctxt tmp ack).list_item_needed
      ((tcp_detect_options_changes oa h opts_ctxt tmp ack).position2index p) = true := by
  obtain ⟨f1, f2, f3, _⟩ := detect_final_fields oa h opts_ctxt tmp ack
  rw [f1] at hrec
  rw [f1, f2] at hs
  rw [f3, f2]
  have hinv := (detect_loop_final_inv oa h opts_ctxt tmp ack hrec).2
  have hlen : h.types.length = h.nr := by simp [rohc_tcp_opts.nr, rohc_tcp_opts.types]
  rw [hinv.2.1 p (by omega), hs]
  unfold c_tcp_is_list_item_needed
  have hno : ¬ (ROHC_CHAIN_CO = ROHC_CHAIN_CO ∧
      (h.types.getD p 0 = TCP_OPT_NOP ∨ h.types.getD p 0 = TCP_OPT_SACK_PERM)) := by
    rintro ⟨_, h1 | h1⟩
    · exact hnop h1
    · exact hsp h1
  rw [if_neg hno, if_pos rfl]

/-- When no index is recycled for the packet, `is_list_needed` is true if and only
if the structure changed, or was not sent often enough, or the item of some index is
needed (the property of C10). -/
theorem list_needed_iff_without_recycling (oa : Nat) (h : rohc_tcp_opts)
    (opts_ctxt : c_tcp_opts_ctxt) (tmp : c_tcp_opts_ctxt_tmp) (ack : Bool)
    (hrec : ∀ idx, idx ≤ MAX_TCP_OPTION_INDEX →
      ((tcp_detect_options_changes oa h opts_ctxt tmp ack).changes idx).is_index_recycled = false) :
    (tcp_detect_options_changes oa h opts_ctxt tmp ack).is_list_needed = true ↔
      (tcp_detect_options_changes oa h opts_ctxt tmp ack).do_list_struct_changed = true ∨
      opts_ctxt.structure_nr_trans < oa ∨
      ∃ idx, idx ≤ MAX_TCP_OPTION_INDEX ∧
        (tcp_detect_options_changes oa h opts_ctxt tmp ack).list_item_needed idx = true := by
  obtain ⟨f1, _, f3, _⟩ := detect_final_fields oa h opts_ctxt tmp ack
  obtain ⟨g1, g2⟩ := detect_final_list_needed oa h opts_ctxt tmp ack
  rw [f1] at hrec
  rw [g1, g2, f3]
  have hinv := (detect_loop_final_inv oa h opts_ctxt tmp ack hrec).2
  rw [hinv.2.2]
  constructor
  · rintro (h1 | h1 | ⟨i, hi⟩)
    · exact Or.inl h1
    · exact Or.inr (Or.inl h1)
    · exact Or.inr (Or.inr ⟨i, (hinv.1 i hi).1, hi⟩)
  · rintro (h1 | h1 | ⟨i, _, hi⟩)
    · exact Or.inl h1
    · exact Or.inr (Or.inl h1)
    · exact Or.inr (Or.inr ⟨i, hi⟩)

/-! ## Properties of the irregular chain encoder -/

theorem irreg_step_flagged (oa_repetitions_nr : Nat) (ext : ext_coders) (opts : List Nat)
    (ack_num : Nat) (opts_ctxt : c_tcp_opts_ctxt) (tmp : c_tcp_opts_ctxt_tmp)
    (items_not_needed : Nat → Bool) (st : irreg_state) (opt_pos : Nat) (d : tcp_opt_descr)
    (hflag : items_not_needed (tmp.position2index opt_pos) = true) :
    irreg_step oa_repetitions_nr ext opts ack_num opts_ctxt tmp items_not_needed st opt_pos d =
      some st := by
  unfold irreg_step
  simp [hflag]

theorem irreg_step_unflagged (oa_repetitions_nr : Nat) (ext : ext_coders) (opts : List Nat)
    (ack_num : Nat) (opts_ctxt : c_tcp_opts_ctxt) (tmp : c_tcp_opts_ctxt_tmp)
    (items_not_needed : Nat → Bool) (st : irreg_state) (opt_pos : Nat) (d : tcp_opt_descr)
    (hflag : items_not_needed (tmp.position2index opt_pos) = false) :
    irreg_step oa_repetitions_nr ext opts ack_num opts_ctxt tmp items_not_needed st opt_pos d =
      irreg_step oa_repetitions_nr ext opts ack_num opts_ctxt tmp (fun _ => false) st opt_pos d := by
  unfold irreg_step
  simp [hflag]

theorem irreg_loop_filter (oa_repetitions_nr : Nat) (ext : ext_coders) (opts : List Nat)
    (ack_num : Nat) (opts_ctxt : c_tcp_opts_ctxt) (tmp : c_tcp_opts_ctxt_tmp)
    (items_not_needed : Nat → Bool) :
    ∀ (l : List (Nat × tcp_opt_descr)) (st : irreg_state),
      irreg_loop oa_repetitions_nr ext opts ack_num opts_ctxt tmp items_not_needed l st =
      irreg_loop oa_repetitions_nr ext opts ack_num opts_ctxt tmp (fun _ => false)
        (l.filter (fun pd => !items_not_needed (tmp.position2index pd.1))) st := by
  intro l
  induction l with
  | nil => intro st; rfl
  | cons pd l ih =>
    intro st
    obtain ⟨opt_pos, d⟩ := pd
    cases hflag : items_not_needed (tmp.position2index opt_pos) with
    | true =>
      simp only [List.filter_cons, hflag, Bool.not_true, Bool.false_eq_true, if_false]
      rw [irreg_loop, irreg_step_flagged _ _ _ _ _ _ _ _ _ _ hflag]
      exact ih st
    | false =>
      simp only [List.filter_cons, hflag, Bool.not_false, if_true]
      rw [irreg_loop, irreg_loop, irreg_step_unflagged _ _ _ _ _ _ _ _ _ _ hflag]
      cases irreg_step oa_repetitions_nr ext opts ack_num opts_ctxt tmp (fun _ => false) st
          opt_pos d with
      | none => rfl
      | some st1 => exact ih st1

/-- C3 (amended): `c_tcp_code_tcp_opts_irreg` emits nothing for an option whose
`items_not_needed[idx]` flag is true (the iteration leaves the output, the room and
the length as they are), encodes an option whose flag is false as if no flag were
set, and as a whole gives the result of encoding, in order and with no flag set,
exactly the options whose flag is false. -/
theorem irreg_emits_options_with_flag_false (oa_repetitions_nr : Nat) (ext : ext_coders)
    (uncomp_pkt_hdrs : rohc_tcp_opts) (ack_num : Nat) (opts_ctxt : c_tcp_opts_ctxt)
    (tmp : c_tcp_opts_ctxt_tmp) (items_not_needed : Nat → Bool) :
    (∀ st opt_pos d, items_not_needed (tmp.position2index opt_pos) = true →
      irreg_step oa_repetitions_nr ext uncomp_pkt_hdrs.opts ack_num opts_ctxt tmp
        items_not_needed st opt_pos d = some st) ∧
    (∀ st opt_pos d, items_not_needed (tmp.position2index opt_pos) = false →
      irreg_step oa_repetitions_nr ext uncomp_pkt_hdrs.opts ack_num opts_ctxt tmp
        items_not_needed st opt_pos d =
      irreg_step oa_repetitions_nr ext uncomp_pkt_hdrs.opts ack_num opts_ctxt tmp
        (fun _ => false) st opt_pos d) ∧
    (∀ comp_opts_max_len,
      c_tcp_code_tcp_opts_irreg oa_repetitions_nr ext uncomp_pkt_hdrs ack_num opts_ctxt tmp
        items_not_needed comp_opts_max_len =
      (irreg_loop oa_repetitions_nr ext uncomp_pkt_hdrs.opts ack_num opts_ctxt tmp
        (fun _ => false)
        (uncomp_pkt_hdrs.descrs.enum.filter
          (fun pd => !items_not_needed (tmp.position2index pd.1)))
        ⟨[], comp_opts_max_len, 0⟩).map (fun st => (st.comp_opts_len, st.written))) := by
  refine ⟨fun st opt_pos d h => irreg_step_flagged _ _ _ _ _ _ _ _ _ _ h,
    fun st opt_pos d h => irreg_step_unflagged _ _ _ _ _ _ _ _ _ _ h, fun m => ?_⟩
  unfold c_tcp_code_tcp_opts_irreg
  rw [irreg_loop_filter]

/-- Witness of C3 (amended): the generic option of kind 30 at index 7 with its flag
set leaves the state of the encoder as it is. -/
theorem irreg_emits_options_with_flag_false_witness :
    irreg_step 3 failing_coders one_generic.opts 0 fresh_ctxt tmp_index7 (fun _ => true)
      ⟨[], 10, 0⟩ 0 ⟨0, 30, 4⟩ = some ⟨[], 10, 0⟩ :=
  (irreg_emits_options_with_flag_false 3 failing_coders one_generic 0 fresh_ctxt tmp_index7
    (fun _ => true)).1 ⟨[], 10, 0⟩ 0 ⟨0, 30, 4⟩ rfl

/-! ## Evaluations -/

/-- C1 (as stated, refuted): the accepted block `01 01 01 01` of four NOP options,
on a fresh context: the positions 0 and 1 both get index 0. -/
theorem two_nop_share_index_0 :
    (rohc_comp_tcp_are_options_acceptable [1, 1, 1, 1] 6).map
      (fun h => (h.nr,
        (tcp_detect_options_changes 3 h fresh_ctxt zero_tmp false).position2index 0,
        (tcp_detect_options_changes 3 h fresh_ctxt zero_tmp false).position2index 1)) =
    some (4, 0, 0) := by
  decide

/-- C2 (code evaluated at the failing input): the accepted block of ten 2-byte
options of the kinds 30..39, none of them well-known, on a fresh context: the
allocator finds no slot to recycle for the tenth option and gives it index 0,
the index reserved to NOP. -/
theorem tenth_generic_option_gets_index_0 :
    (rohc_comp_tcp_are_options_acceptable ten_generic 10).map
      (fun h => (h.types,
        (List.range 10).map
          (tcp_detect_options_changes 3 h fresh_ctxt zero_tmp false).position2index)) =
      some ([30, 31, 32, 33, 34, 35, 36, 37, 38, 39], [7, 8, 9, 10, 11, 12, 13, 14, 15, 0]) ∧
    c_tcp_get_opt_index fresh_ctxt 39 0xff80 = (0, true) := by
  decide

/-- C4 (code evaluated at the failing input): the accepted block `c8 04 aa bb`, an
option of kind 200, on a context whose generic slots are all used by other kinds:
slot 7, the oldest, is recycled and `is_index_recycled` is set, but the detector
compares the option with the length and content held by the recycled slot, finds
them equal and reports no change: `static_changed` stays false and the item is
not needed. -/
theorem recycled_slot_not_static :
    c_tcp_get_opt_index recycle_ctxt 200 0 = (7, true) ∧
    (rohc_comp_tcp_are_options_acceptable [200, 4, 0xaa, 0xbb] 6).map
      (fun h =>
        let t := tcp_detect_options_changes 3 h recycle_ctxt zero_tmp false
        (t.position2index 0, t.changes 7, t.list_item_needed 7)) =
      some (7, ⟨true, true, false, false⟩, false) := by
  decide

/-- C9 (code evaluated at the failing input): the accepted block of the ten generic
options of kinds 30..39 followed by four NOP, on a fresh context: the option of
kind 39 at position 9 has index 0, `changes[0].static_changed` is true, and
`list_item_needed[0]` is false, since the NOP options that follow share index 0. -/
theorem static_change_without_item :
    (rohc_comp_tcp_are_options_acceptable (ten_generic ++ [1, 1, 1, 1]) 11).map
      (fun h =>
        let t := tcp_detect_options_changes 3 h fresh_ctxt zero_tmp false
        (h.types.getD 9 0, t.position2index 9, (t.changes 0).static_changed,
          t.list_item_needed 0)) =
      some (39, 0, true, false) := by
  decide

/-- C10 (code evaluated at the failing input): the accepted block `c8 02 01 01` on a
context whose generic slots are all used with age 0 and whose previous packet had
the same structure, sent 3 times, with `oa_repetitions_nr = 3`: `is_list_needed`
is true although the structure did not change, `structure_nr_trans` is not below
`oa_repetitions_nr` and `list_item_needed` is false for every index. -/
theorem list_needed_without_item :
    (rohc_comp_tcp_are_options_acceptable [200, 2, 1, 1] 6).map
      (fun h =>
        let t := tcp_detect_options_changes 3 h aged0_ctxt zero_tmp false
        (t.is_list_needed, t.do_list_struct_changed,
          decide (aged0_ctxt.structure_nr_trans < 3),
          (List.range 16).map t.list_item_needed)) =
      some (true, false, false, List.replicate 16 false) := by
  decide

/-- C3 (as stated, refuted): one generic option of kind 30 and content `aa bb`, at
index 7, with a dynamic change and 10 bytes of room: when `items_not_needed[7]` is
true the encoder writes nothing and returns 0; when it is false the encoder writes
the irregular form `00 aa bb` and returns 3. -/
theorem irreg_flag_true_writes_nothing :
    c_tcp_code_tcp_opts_irreg 3 failing_coders one_generic 0 fresh_ctxt tmp_index7
      (fun _ => true) 10 = some (0, []) ∧
    c_tcp_code_tcp_opts_irreg 3 failing_coders one_generic 0 fresh_ctxt tmp_index7
      (fun _ => false) 10 = some (3, [0x00, 0xaa, 0xbb]) := by
  decide

/-! ## Properties of the list item builders -/

theorem and_0x7f (len : Nat) : len &&& 0x7f = len % 128 :=
  Nat.and_pow_two_sub_one_eq_mod len 7

theorem memcpy_inside (buf : Nat → Nat) (pos : Nat) (src : Nat → Nat) (n i : Nat) (hi : i < n) :
    memcpy buf pos src n (pos + i) = src i := by
  unfold memcpy
  rw [if_pos ⟨by omega, by omega⟩]
  congr 1
  omega

theorem memcpy_outside (buf : Nat → Nat) (pos : Nat) (src : Nat → Nat) (n j : Nat)
    (hj : j < pos ∨ pos + n ≤ j) : memcpy buf pos src n j = buf j := by
  unfold memcpy
  rw [if_neg (by omega)]

theorem bytes_at_memcpy (buf : Nat → Nat) (pos : Nat) (src : Nat → Nat) (n : Nat) :
    bytes_at (memcpy buf pos src n) pos n = (List.range n).map src := by
  unfold bytes_at
  apply List.map_congr_left
  intro i hi
  exact memcpy_inside buf pos src n i (List.mem_range.mp hi)

/-- C18: for every EOL option of 8-bit length `len ≥ 1`: with one byte of room at
least, `c_tcp_build_eol_list_item` writes the single byte `(len - 1) * 8` and
returns 1 when `(len - 1) * 8 ≤ 255`, and returns -1 when `(len - 1) * 8 > 255`;
it returns -1 when there is no room. -/
theorem eol_item_is_pad_bits (uncomp_opt_len : Nat) (buf : Nat → Nat) (pos comp_opt_max_len : Nat)
    (hlen : 1 ≤ uncomp_opt_len) (h8 : uncomp_opt_len < 256) :
    (1 ≤ comp_opt_max_len → (uncomp_opt_len - 1) * 8 ≤ 255 →
      c_tcp_build_eol_list_item uncomp_opt_len buf pos comp_opt_max_len =
        some (1, upd buf pos ((uncomp_opt_len - 1) * 8))) ∧
    (1 ≤ comp_opt_max_len → (uncomp_opt_len - 1) * 8 > 255 →
      c_tcp_build_eol_list_item uncomp_opt_len buf pos comp_opt_max_len = none) ∧
    (comp_opt_max_len = 0 →
      c_tcp_build_eol_list_item uncomp_opt_len buf pos comp_opt_max_len = none) := by
  have hpad : (uncomp_opt_len * 8 + (SIZE_MAX1 - 8)) % SIZE_MAX1 = (uncomp_opt_len - 1) * 8 := by
    simp only [SIZE_MAX1]
    omega
  unfold c_tcp_build_eol_list_item
  simp only [hpad]
  refine ⟨fun h1 h2 => ?_, fun h1 h2 => ?_, fun h0 => ?_⟩
  · rw [if_neg (by omega), if_neg (by omega)]
  · rw [if_neg (by omega), if_pos (by omega)]
  · rw [if_pos (by omega)]

/-- Witness of C18: an EOL option of 4 bytes gives the item `18` (24 bits of
padding), and one of 33 bytes cannot be encoded. -/
theorem eol_item_is_pad_bits_witness :
    c_tcp_build_eol_list_item 4 (fun _ => 0) 0 1 = some (1, upd (fun _ => 0) 0 24) ∧
    c_tcp_build_eol_list_item 33 (fun _ => 0) 0 1 = none :=
  ⟨(eol_item_is_pad_bits 4 (fun _ => 0) 0 1 (by decide) (by decide)).1 (by decide) (by decide),
   (eol_item_is_pad_bits 33 (fun _ => 0) 0 1 (by decide) (by decide)).2.1 (by decide) (by decide)⟩

/-- C19: with enough room, the list item of an MSS, WS or TS option is the content
of the option after its 2-byte prefix, copied verbatim: `opt[2..4]` (2 bytes) for
MSS, `opt[2]` (1 byte) for WS, `opt[2..10]` (8 bytes) for TS, and the bytes of the
buffer outside the item are left as they are; so the kind and the fixed length
followed by the item are the bytes of the option. The TS option
`08 0a 00 00 00 01 00 00 00 00` gives `00 00 00 01 00 00 00 00` and MSS = 1400
gives `05 78`. -/
theorem mss_ws_ts_list_item_verbatim (uncomp_opt : Nat → Nat) (buf : Nat → Nat)
    (pos comp_opt_max_len : Nat) :
    (2 ≤ comp_opt_max_len →
      ∃ buf', c_tcp_build_mss_list_item uncomp_opt buf pos comp_opt_max_len = some (2, buf') ∧
        bytes_at buf' pos 2 = [uncomp_opt 2, uncomp_opt 3] ∧
        (∀ j, j < pos ∨ pos + 2 ≤ j → buf' j = buf j) ∧
        (uncomp_opt 0 = TCP_OPT_MSS → uncomp_opt 1 = TCP_OLEN_MSS →
          [TCP_OPT_MSS, TCP_OLEN_MSS] ++ bytes_at buf' pos 2 =
            (List.range TCP_OLEN_MSS).map uncomp_opt)) ∧
    (1 ≤ comp_opt_max_len →
      ∃ buf', c_tcp_build_ws_list_item uncomp_opt buf pos comp_opt_max_len = some (1, buf') ∧
        bytes_at buf' pos 1 = [uncomp_opt 2] ∧
        (∀ j, j < pos ∨ pos + 1 ≤ j → buf' j = buf j) ∧
        (uncomp_opt 0 = TCP_OPT_WS → uncomp_opt 1 = TCP_OLEN_WS →
          [TCP_OPT_WS, TCP_OLEN_WS] ++ bytes_at buf' pos 1 =
            (List.range TCP_OLEN_WS).map uncomp_opt)) ∧
    (8 ≤ comp_opt_max_len →
      ∃ buf', c_tcp_build_ts_list_item uncomp_opt buf pos comp_opt_max_len = some (8, buf') ∧
        bytes_at buf' pos 8 = (List.range 8).map (fun i => uncomp_opt (2 + i)) ∧
        (∀ j, j < pos ∨ pos + 8 ≤ j → buf' j = buf j) ∧
        (uncomp_opt 0 = TCP_OPT_TS → uncomp_opt 1 = TCP_OLEN_TS →
          [TCP_OPT_TS, TCP_OLEN_TS] ++ bytes_at buf' pos 8 =
            (List.range TCP_OLEN_TS).map uncomp_opt)) ∧
    (c_tcp_build_ts_list_item (ptr [8, 10, 0, 0, 0, 1, 0, 0, 0, 0] 0) (fun _ => 0xee) 0 8).map
        (fun r => (r.1, bytes_at r.2 0 8)) = some (8, [0, 0, 0, 1, 0, 0, 0, 0]) ∧
    (c_tcp_build_mss_list_item (ptr [2, 4, 5, 0x78] 0) (fun _ => 0xee) 0 2).map
        (fun r => (r.1, bytes_at r.2 0 2)) = some (2, [5, 0x78]) := by
  refine ⟨fun hroom => ?_, fun hroom => ?_, fun hroom => ?_, by decide, by decide⟩
  · refine ⟨memcpy buf pos (fun i => uncomp_opt (2 + i)) 2, ?_, ?_, ?_, ?_⟩
    · unfold c_tcp_build_mss_list_item
      rw [if_neg (by omega)]
    · rw [bytes_at_memcpy]; rfl
    · intro j hj; exact memcpy_outside _ _ _ _ _ hj
    · intro h0 h1
      rw [bytes_at_memcpy]
      simp [List.range_succ, h0, h1]
  · refine ⟨upd buf pos (uncomp_opt 2), ?_, ?_, ?_, ?_⟩
    · unfold c_tcp_build_ws_list_item
      rw [if_neg (by omega)]
    · simp [bytes_at, upd, List.range_succ]
    · intro j hj
      unfold upd
      rw [if_neg (by omega)]
    · intro h0 h1
      simp [bytes_at, upd, List.range_succ, h0, h1]
  · refine ⟨memcpy buf pos (fun i => uncomp_opt (2 + i)) 8, ?_, ?_, ?_, ?_⟩
    · unfold c_tcp_build_ts_list_item
      rw [if_neg (by simp only [sizeof_tcp_option_timestamp]; omega)]
    · rw [bytes_at_memcpy]
    · intro j hj; exact memcpy_outside _ _ _ _ _ hj
    · intro h0 h1
      rw [bytes_at_memcpy]
      simp [List.range_succ, h0, h1]

/-- Witness of C19: the WS option `03 03 07` gives the item `07`, and the prefix
`03 03` followed by it is the option. -/
theorem mss_ws_ts_list_item_verbatim_witness :
    ∃ buf', c_tcp_build_ws_list_item (ptr [3, 3, 7] 0) (fun _ => 0) 0 1 = some (1, buf') ∧
      bytes_at buf' 0 1 = [7] ∧ [3, 3] ++ bytes_at buf' 0 1 = [3, 3, 7] := by
  obtain ⟨buf', h1, h2, _, h4⟩ :=
    (mss_ws_ts_list_item_verbatim (ptr [3, 3, 7] 0) (fun _ => 0) 0 1).2.1 (by decide)
  exact ⟨buf', h1, h2, h4 rfl rfl⟩

/-- C20: for every generic option of length `len` with `2 ≤ len ≤ 255`,
`c_tcp_build_generic_list_item` returns -1 if `len > 127` or if the room is smaller
than `len`; otherwise it returns `len` and writes `opt[0]` (the type), then the byte
`(0 << 7) | (len & 0x7f)`, then the `len - 2` content bytes `opt[2..len)`
unchanged, and leaves the bytes outside the item as they are. -/
theorem generic_item_layout (uncomp_opt : Nat → Nat) (uncomp_opt_len : Nat) (buf : Nat → Nat)
    (pos comp_opt_max_len : Nat) (h2 : 2 ≤ uncomp_opt_len) (h255 : uncomp_opt_len ≤ 255) :
    (uncomp_opt_len > 127 ∨ comp_opt_max_len < uncomp_opt_len →
      c_tcp_build_generic_list_item uncomp_opt uncomp_opt_len buf pos comp_opt_max_len = none) ∧
    (uncomp_opt_len ≤ 127 → uncomp_opt_len ≤ comp_opt_max_len →
      ∃ buf', c_tcp_build_generic_list_item uncomp_opt uncomp_opt_len buf pos comp_opt_max_len =
          some (uncomp_opt_len, buf') ∧
        buf' pos = uncomp_opt 0 ∧
        buf' (pos + 1) = (0 <<< 7) ||| (uncomp_opt_len &&& 0x7f) ∧
        (∀ i, 2 ≤ i → i < uncomp_opt_len → buf' (pos + i) = uncomp_opt i) ∧
        (∀ j, j < pos ∨ pos + uncomp_opt_len ≤ j → buf' j = buf j)) := by
  unfold c_tcp_build_generic_list_item
  simp only [and_0x7f]
  constructor
  · rintro (h | h)
    · rw [if_pos (by omega)]
    · by_cases hm : uncomp_opt_len % 128 ≠ uncomp_opt_len
      · rw [if_pos hm]
      · rw [if_neg hm, if_pos h]
  · intro h127 hroom
    rw [if_neg (by omega), if_neg (by omega)]
    refine ⟨_, rfl, ?_, ?_, ?_, ?_⟩
    · rw [upd, if_neg (by omega)]
      exact memcpy_inside buf pos uncomp_opt uncomp_opt_len 0 (by omega)
    · rw [upd, if_pos rfl]
    · intro i hi1 hi2
      rw [upd, if_neg (by omega)]
      exact memcpy_inside buf pos uncomp_opt uncomp_opt_len i hi2
    · intro j hj
      rw [upd, if_neg (by omega)]
      exact memcpy_outside _ _ _ _ _ hj

/-- Witness of C20: the option `c8 04 aa bb` of kind 200 gives the item
`c8 04 aa bb`. -/
theorem generic_item_layout_witness :
    ∃ buf', c_tcp_build_generic_list_item (ptr [200, 4, 0xaa, 0xbb] 0) 4 (fun _ => 0) 0 4 =
        some (4, buf') ∧ buf' 0 = 200 ∧ buf' 1 = (0 <<< 7) ||| (4 &&& 0x7f) ∧ buf' 1 = 4 := by
  obtain ⟨buf', h1, h2, h3, _, _⟩ :=
    (generic_item_layout (ptr [200, 4, 0xaa, 0xbb] 0) 4 (fun _ => 0) 0 4 (by decide)
      (by decide)).2 (by decide) (by decide)
  exact ⟨buf', h1, h2, h3, by rw [h3]; decide⟩

/-! ## Structure of the list and largest index -/

theorem detect_step_struct_changed (oa : Nat) (opts : List Nat) (opts_ctxt : c_tcp_opts_ctxt)
    (ack : Bool) (st : detect_state) (opt_pos : Nat) (d : tcp_opt_descr) :
    (detect_step oa opts opts_ctxt ack st opt_pos d).tmp.do_list_struct_changed =
      st.tmp.do_list_struct_changed := by
  unfold detect_step
  simp only []
  split_ifs <;> simp only [(detect_changes_fields _ _ _ _ _ _ _).2.2.2.2]

theorem detect_loop_struct_changed (oa : Nat) (opts : List Nat) (opts_ctxt : c_tcp_opts_ctxt)
    (ack : Bool) : ∀ (ds : List tcp_opt_descr) (opt_pos : Nat) (st : detect_state),
    (detect_loop oa opts opts_ctxt ack ds opt_pos st).tmp.do_list_struct_changed =
      st.tmp.do_list_struct_changed := by
  intro ds
  induction ds with
  | nil => intro _ _; rfl
  | cons d ds ih =>
    intro opt_pos st
    rw [detect_loop, ih, detect_step_struct_changed]

theorem memcmp_ne_iff (a b : Nat → Nat) (n : Nat) :
    memcmp_ne a b n = true ↔ ∃ i, i < n ∧ a i ≠ b i := by
  unfold memcmp_ne
  simp [List.any_eq_true]

/-- C11: `tcp_detect_options_changes` sets `do_list_struct_changed` to true if and
only if the number of options differs from `old_structure_nr` or the kind of some
option of the packet differs from the entry of `old_structure` at its position,
among the first `opts_nr` entries. -/
theorem struct_changed_iff (oa : Nat) (h : rohc_tcp_opts) (opts_ctxt : c_tcp_opts_ctxt)
    (tmp : c_tcp_opts_ctxt_tmp) (ack : Bool) :
    (tcp_detect_options_changes oa h opts_ctxt tmp ack).do_list_struct_changed = true ↔
      h.nr ≠ opts_ctxt.old_structure_nr ∨
      ∃ i, i < h.nr ∧ h.types.getD i 0 ≠ opts_ctxt.old_structure i := by
  rw [(detect_final_list_needed oa h opts_ctxt tmp ack).2, detect_loop_struct_changed]
  unfold detect_init
  simp only []
  rw [← memcmp_ne_iff]
  split_ifs with hc
  · simp only [true_iff]
    exact hc
  · simp only [Bool.false_eq_true, false_iff]
    exact hc

theorem detect_step_idx_max (oa : Nat) (opts : List Nat) (opts_ctxt : c_tcp_opts_ctxt)
    (ack : Bool) (st : detect_state) (opt_pos : Nat) (d : tcp_opt_descr) :
    (detect_step oa opts opts_ctxt ack st opt_pos d).tmp.idx_max =
      max st.tmp.idx_max (c_tcp_get_opt_index opts_ctxt d.type st.indexes_in_use).1 := by
  unfold detect_step
  simp only []
  split_ifs <;> simp only [(detect_changes_fields _ _ _ _ _ _ _).2.2.2.1] at * <;> omega

theorem detect_loop_idx_max (oa : Nat) (opts : List Nat) (opts_ctxt : c_tcp_opts_ctxt)
    (ack : Bool) : ∀ (ds : List tcp_opt_descr) (n : Nat) (st : detect_state),
    idx_max_inv n st →
    idx_max_inv (n + ds.length) (detect_loop oa opts opts_ctxt ack ds n st) := by
  intro ds
  induction ds with
  | nil => intro n st h; simpa [detect_loop] using h
  | cons d ds ih =>
    intro n st hinv
    rw [detect_loop]
    have hstep : idx_max_inv (n + 1) (detect_step oa opts opts_ctxt ack st n d) := by
      obtain ⟨h1, h2, h3⟩ := hinv
      have hp2i := detect_step_position2index oa opts opts_ctxt ack st n d
      have hmax := detect_step_idx_max oa opts opts_ctxt ack st n d
      refine ⟨?_, fun h => absurd h (by omega), fun _ => ?_⟩
      · intro p hp
        rw [hp2i, hmax, upd]
        by_cases hpn : p = n
        · rw [if_pos hpn]; exact le_max_right _ _
        · rw [if_neg hpn]
          exact le_trans (h1 p (by omega)) (le_max_left _ _)
      · rw [hp2i, hmax]
        by_cases hgt : st.tmp.idx_max <
            (c_tcp_get_opt_index opts_ctxt d.type st.indexes_in_use).1
        · exact ⟨n, by omega, by rw [upd, if_pos rfl, max_eq_right (le_of_lt hgt)]⟩
        · rw [max_eq_left (by omega)]
          by_cases hn : n = 0
          · refine ⟨n, by omega, ?_⟩
            rw [upd, if_pos rfl, h2 hn]
            have := h2 hn
            omega
          · obtain ⟨p, hp, he⟩ := h3 (by omega)
            exact ⟨p, by omega, by rw [upd, if_neg (by omega), he]⟩
    have := ih (n + 1) _ hstep
    rwa [List.length_cons, show n + (ds.length + 1) = n + 1 + ds.length by omega]

theorem foldl_max_eq (l : List Nat) : ∀ (init M : Nat), init ≤ M → (∀ x ∈ l, x ≤ M) →
    (M = init ∨ M ∈ l) → l.foldl max init = M := by
  induction l with
  | nil =>
    intro init M _ _ h
    rcases h with h | h
    · simp [h]
    · simp at h
  | cons a l ih =>
    intro init M h1 h2 h3
    simp only [List.foldl_cons]
    have ha : a ≤ M := h2 a (List.mem_cons_self _ _)
    apply ih
    · exact max_le h1 ha
    · intro x hx; exact h2 x (List.mem_cons_of_mem _ hx)
    · rcases h3 with h | h
      · subst h
        by_cases hai : a ≤ M
        · by_cases hlt : a = M
          · left; rw [hlt]; simp
          · left; rw [max_eq_left hai]
        · omega
      · rcases List.mem_cons.mp h with h | h
        · left; rw [h]; exact (max_eq_right (by omega)).symm
        · right; exact h

/-- C12: after `tcp_detect_options_changes` on a packet of `m` options, `idx_max` is
the maximum of `position2index[0..m)`, 0 when `m = 0`: it bounds every entry and is
one of them; hence whenever `c_tcp_opt_compute_ps(idx_max) = 0`, every
`position2index[i]` with `i < m` is at most 7, and the PS is 1 exactly when some
option of the packet has an index of 8 or more. -/
theorem idx_max_is_largest_index (oa : Nat) (h : rohc_tcp_opts) (opts_ctxt : c_tcp_opts_ctxt)
    (tmp : c_tcp_opts_ctxt_tmp) (ack : Bool) :
    (tcp_detect_options_changes oa h opts_ctxt tmp ack).idx_max =
      ((List.range h.nr).map
        (tcp_detect_options_changes oa h opts_ctxt tmp ack).position2index).foldl max 0 ∧
    (∀ p, p < h.nr → (tcp_detect_options_changes oa h opts_ctxt tmp ack).position2index p ≤
      (tcp_detect_options_changes oa h opts_ctxt tmp ack).idx_max) ∧
    (h.nr = 0 → (tcp_detect_options_changes oa h opts_ctxt tmp ack).idx_max = 0) ∧
    (0 < h.nr → ∃ p, p < h.nr ∧
      (tcp_detect_options_changes oa h opts_ctxt tmp ack).position2index p =
        (tcp_detect_options_changes oa h opts_ctxt tmp ack).idx_max) ∧
    (c_tcp_opt_compute_ps (tcp_detect_options_changes oa h opts_ctxt tmp ack).idx_max = 0 →
      ∀ p, p < h.nr →
        (tcp_detect_options_changes oa h opts_ctxt tmp ack).position2index p ≤ 7) ∧
    (c_tcp_opt_compute_ps (tcp_detect_options_changes oa h opts_ctxt tmp ack).idx_max = 1 ↔
      ∃ p, p < h.nr ∧
        8 ≤ (tcp_detect_options_changes oa h opts_ctxt tmp ack).position2index p) := by
  obtain ⟨_, f2, _, f4⟩ := detect_final_fields oa h opts_ctxt tmp ack
  have hinit : idx_max_inv 0 (detect_init h opts_ctxt tmp) :=
    ⟨fun p hp => absurd hp (by omega), fun _ => rfl, fun h0 => absurd h0 (by omega)⟩
  have hinv := detect_loop_idx_max oa h.opts opts_ctxt ack h.descrs 0 _ hinit
  unfold idx_max_inv at hinv
  rw [Nat.zero_add, ← f2, ← f4, show h.descrs.length = h.nr from rfl] at hinv
  obtain ⟨h1, h2, h3⟩ := hinv
  refine ⟨?_, h1, h2, h3, ?_, ?_⟩
  · symm
    apply foldl_max_eq
    · exact Nat.zero_le _
    · intro x hx
      obtain ⟨p, hp, rfl⟩ := List.mem_map.mp hx
      exact h1 p (List.mem_range.mp hp)
    · by_cases hn : h.nr = 0
      · left; exact h2 hn
      · right
        obtain ⟨p, hp, he⟩ := h3 (by omega)
        exact List.mem_map.mpr ⟨p, List.mem_range.mpr hp, he⟩
  · intro hps p hp
    unfold c_tcp_opt_compute_ps at hps
    split_ifs at hps with h7
    exact le_trans (h1 p hp) h7
  · unfold c_tcp_opt_compute_ps
    constructor
    · intro hps
      split_ifs at hps with h7
      have hn : 0 < h.nr := by
        by_contra hc
        have := h2 (by omega)
        omega
      obtain ⟨p, hp, he⟩ := h3 hn
      exact ⟨p, hp, by omega⟩
    · rintro ⟨p, hp, h8⟩
      have := h1 p hp
      rw [if_neg (by omega)]

/-! ## Properties of the list item encoder: lengths -/

theorem size_t_sub_eq (a b : Nat) (hb : b ≤ a) (ha : a < SIZE_MAX1) : size_t_sub a b = a - b := by
  unfold size_t_sub
  simp only [SIZE_MAX1] at *
  omega

theorem write_bytes_before (buf : Nat → Nat) (pos : Nat) (bs : List Nat) (j : Nat) (hj : j < pos) :
    write_bytes buf pos bs j = buf j :=
  memcpy_outside _ _ _ _ _ (Or.inl hj)

/-- What a builder of list item gives when it succeeds: it leaves the buffer before
its cursor as it is; for an index other than the one of SACK the item has the
length of the index and fits the room; for the index of SACK the item is what the
SACK coder gives. -/
theorem build_list_item_some {opt_idx : Nat} {ext : ext_coders} {ack_num : Nat}
    {uncomp_opt : Nat → Nat} {uncomp_opt_len : Nat} {buf : Nat → Nat} {pos room ret : Nat}
    {buf' : Nat → Nat}
    (h : c_tcp_opts_build_list_item opt_idx ext ack_num uncomp_opt uncomp_opt_len buf pos room =
      some (ret, buf')) :
    (∀ j, j < pos → buf' j = buf j) ∧
    (opt_idx ≠ TCP_INDEX_SACK → ret = item_len_of_index opt_idx uncomp_opt_len ∧ ret ≤ room) ∧
    (opt_idx = TCP_INDEX_SACK →
      ∃ bs, ext.c_tcp_opt_sack_code ack_num (fun i => uncomp_opt (2 + i))
        (len_minus_2 uncomp_opt_len) false room = some bs ∧ ret = bs.length) := by
  unfold c_tcp_opts_build_list_item at h
  unfold item_len_of_index
  split_ifs at h with h0 h1 h2 h3 h4 h5 h6
  · simp only [c_tcp_build_nop_list_item, Option.some.injEq, Prod.mk.injEq] at h
    obtain ⟨rfl, rfl⟩ := h
    refine ⟨fun _ _ => rfl, fun _ => ?_, fun h => ?_⟩
    · simp [h0]
    · simp only [TCP_INDEX_NOP, TCP_INDEX_SACK] at h0 h; omega
  · unfold c_tcp_build_eol_list_item at h
    simp only [] at h
    split_ifs at h with g1 g2
    simp only [Option.some.injEq, Prod.mk.injEq] at h
    obtain ⟨rfl, rfl⟩ := h
    refine ⟨fun j hj => ?_, fun _ => ?_, fun h => ?_⟩
    · rw [upd, if_neg (by omega)]
    · exact ⟨by rw [h1]; rfl, by omega⟩
    · simp only [TCP_INDEX_EOL, TCP_INDEX_SACK] at h1 h; omega
  · unfold c_tcp_build_mss_list_item at h
    simp only [] at h
    split_ifs at h with g1
    simp only [Option.some.injEq, Prod.mk.injEq] at h
    obtain ⟨rfl, rfl⟩ := h
    refine ⟨fun j hj => memcpy_outside _ _ _ _ _ (Or.inl hj), fun _ => ?_, fun h => ?_⟩
    · exact ⟨by rw [h2]; rfl, by omega⟩
    · simp only [TCP_INDEX_MSS, TCP_INDEX_SACK] at h2 h; omega
  · unfold c_tcp_build_ws_list_item at h
    simp only [] at h
    split_ifs at h with g1
    simp only [Option.some.injEq, Prod.mk.injEq] at h
    obtain ⟨rfl, rfl⟩ := h
    refine ⟨fun j hj => ?_, fun _ => ?_, fun h => ?_⟩
    · rw [upd, if_neg (by omega)]
    · exact ⟨by rw [h3]; rfl, by omega⟩
    · simp only [TCP_INDEX_WS, TCP_INDEX_SACK] at h3 h; omega
  · unfold c_tcp_build_ts_list_item at h
    simp only [sizeof_tcp_option_timestamp] at h
    split_ifs at h with g1
    simp only [Option.some.injEq, Prod.mk.injEq] at h
    obtain ⟨rfl, rfl⟩ := h
    refine ⟨fun j hj => memcpy_outside _ _ _ _ _ (Or.inl hj), fun _ => ?_, fun h => ?_⟩
    · exact ⟨by rw [h4]; rfl, by omega⟩
    · simp only [TCP_INDEX_TS, TCP_INDEX_SACK] at h4 h; omega
  · simp only [c_tcp_build_sack_perm_list_item, Option.some.injEq, Prod.mk.injEq] at h
    obtain ⟨rfl, rfl⟩ := h
    refine ⟨fun _ _ => rfl, fun _ => ?_, fun h => ?_⟩
    · exact ⟨by rw [h5]; rfl, Nat.zero_le _⟩
    · simp only [TCP_INDEX_SACK_PERM, TCP_INDEX_SACK] at h5 h; omega
  · unfold c_tcp_build_sack_list_item at h
    obtain ⟨bs, hbs, he⟩ := Option.map_eq_some'.mp h
    simp only [Prod.mk.injEq] at he
    obtain ⟨rfl, rfl⟩ := he
    exact ⟨fun j hj => write_bytes_before _ _ _ _ hj, fun hn => absurd h6 hn,
      fun _ => ⟨bs, hbs, rfl⟩⟩
  · unfold c_tcp_build_generic_list_item at h
    simp only [] at h
    split_ifs at h with g1 g2
    simp only [Option.some.injEq, Prod.mk.injEq] at h
    obtain ⟨rfl, rfl⟩ := h
    refine ⟨fun j hj => ?_, fun _ => ?_, fun h => absurd h h6⟩
    · rw [upd, if_neg (by omega)]
      exact memcpy_outside _ _ _ _ _ (Or.inl hj)
    · simp only [h0, h1, h2, h3, h4, h5, if_false]; exact ⟨trivial, by omega⟩

theorem list_item_step_some {ext : ext_coders} {opts : List Nat} {ack_num : Nat}
    {tmp : c_tcp_opts_ctxt_tmp} {items_needed : Nat → Bool} {ps : Nat} {st st' : list_item_state}
    {opt_pos : Nat} {d : tcp_opt_descr}
    (h : list_item_step ext opts ack_num tmp items_needed ps st opt_pos d = some st') :
    st'.xi_remain_data = st.xi_remain_data +
      (c_tcp_opt_write_xi st.buf st.xi_remain_data ps opt_pos (tmp.position2index opt_pos)
        (items_needed (tmp.position2index opt_pos))).1 ∧
    (∀ j, j < st.items_remain_data → st'.buf j =
      (c_tcp_opt_write_xi st.buf st.xi_remain_data ps opt_pos (tmp.position2index opt_pos)
        (items_needed (tmp.position2index opt_pos))).2 j) ∧
    st.items_remain_data ≤ st'.items_remain_data ∧
    ∃ b, st'.comp_opts_len = st.comp_opts_len + b ∧
      body_of_index ext opts ack_num tmp items_needed opt_pos d b ∧
      ((items_needed (tmp.position2index opt_pos) = true →
          tmp.position2index opt_pos ≠ TCP_INDEX_SACK) →
        st.items_remain_len < SIZE_MAX1 →
        b ≤ st.items_remain_len ∧ st'.items_remain_len = st.items_remain_len - b) := by
  unfold list_item_step at h
  simp only [] at h
  cases hn : items_needed (tmp.position2index opt_pos) with
  | false =>
    simp only [hn, Bool.false_eq_true, not_false_eq_true, if_true, Option.some.injEq] at h
    subst h
    refine ⟨rfl, fun _ _ => rfl, le_rfl, 0, rfl, ⟨fun _ => rfl, fun h => ?_, fun h => ?_⟩,
      fun _ _ => ⟨Nat.zero_le _, rfl⟩⟩
    · exact absurd (hn.symm.trans h) (by simp)
    · exact absurd (hn.symm.trans h) (by simp)
  | true =>
    simp only [hn, not_true_eq_false, if_false] at h
    obtain ⟨r, hr, he⟩ := Option.map_eq_some'.mp h
    obtain ⟨ret, buf'⟩ := r
    subst he
    obtain ⟨b1, b2, b3⟩ := build_list_item_some hr
    refine ⟨rfl, fun j hj => b1 j hj, by simp, ret, rfl, ⟨fun h => ?_, fun _ h6 => (b2 h6).1,
      fun _ h6 => ?_⟩, fun h6 hlt => ?_⟩
    · exact absurd (hn.symm.trans h) (by simp)
    · obtain ⟨bs, hbs, hl⟩ := b3 h6
      exact ⟨_, bs, hbs, hl⟩
    · have := (b2 (h6 rfl)).2
      exact ⟨this, size_t_sub_eq _ _ this hlt⟩

/-- The loop of the list item encoder, when it succeeds from position `k` on: the
length grows by the sum of the item bodies, one per option. -/
theorem list_item_loop_len (ext : ext_coders) (opts : List Nat) (ack_num : Nat)
    (tmp : c_tcp_opts_ctxt_tmp) (items_needed : Nat → Bool) (ps : Nat) :
    ∀ (ds : List tcp_opt_descr) (k : Nat) (st st' : list_item_state),
    list_item_loop ext opts ack_num tmp items_needed ps (ds.enumFrom k) st = some st' →
    ∃ bodies : List Nat, bodies.length = ds.length ∧
      st'.comp_opts_len = st.comp_opts_len + bodies.sum ∧
      (∀ (i : Nat) d, ds[i]? = some d →
        body_of_index ext opts ack_num tmp items_needed (k + i) d (bodies.getD i 0)) ∧
      ((∀ i, i < ds.length → items_needed (tmp.position2index (k + i)) = true →
          tmp.position2index (k + i) ≠ TCP_INDEX_SACK) →
        st.items_remain_len < SIZE_MAX1 →
        bodies.sum ≤ st.items_remain_len ∧
        st'.items_remain_len = st.items_remain_len - bodies.sum) := by
  intro ds
  induction ds with
  | nil =>
    intro k st st' h
    simp only [List.enumFrom_nil, list_item_loop, Option.some.injEq] at h
    subst h
    exact ⟨[], rfl, by simp, fun i d hd => absurd hd (by simp), fun _ _ => by simp⟩
  | cons d ds ih =>
    intro k st st' h
    rw [List.enumFrom_cons, list_item_loop] at h
    obtain ⟨st1, hstep, hrest⟩ := Option.bind_eq_some.mp h
    obtain ⟨_, _, _, b, hb1, hb2, hb3⟩ := list_item_step_some hstep
    obtain ⟨bodies, hl, hsum, hbody, hroom⟩ := ih (k + 1) st1 st' hrest
    refine ⟨b :: bodies, by simp [hl], ?_, ?_, ?_⟩
    · rw [hsum, hb1, List.sum_cons]; omega
    · intro i e he
      cases i with
      | zero =>
        simp only [List.getElem?_cons_zero, Option.some.injEq] at he
        subst he
        simpa using hb2
      | succ i =>
        simp only [List.getElem?_cons_succ] at he
        have := hbody i e he
        rw [show k + 1 + i = k + (i + 1) by omega] at this
        simpa using this
    · intro hns hlt
      have h0 := hb3 (by simpa using hns 0 (by simp)) hlt
      have h1 := hroom (fun i hi hn => by
        have := hns (i + 1) (by simp; omega)
        rw [show k + (i + 1) = k + 1 + i by omega] at this
        exact this hn) (by rw [h0.2]; omega)
      rw [List.sum_cons]
      constructor
      · rw [h0.2] at h1; omega
      · rw [h1.2, h0.2]; omega

theorem list_item_some {ext : ext_coders} {h : rohc_tcp_opts} {ack_num : Nat}
    {tmp : c_tcp_opts_ctxt_tmp} {items_needed : Nat → Bool} {comp_opts : Nat → Nat}
    {comp_opts_max_len n : Nat} {buf' : Nat → Nat}
    (hs : c_tcp_code_tcp_opts_list_item ext h ack_num tmp items_needed comp_opts
      comp_opts_max_len = some (n, buf')) :
    c_tcp_opt_compute_xi_len (c_tcp_opt_compute_ps tmp.idx_max) h.nr ≤ comp_opts_max_len ∧
    ∃ st', list_item_loop ext h.opts ack_num tmp items_needed (c_tcp_opt_compute_ps tmp.idx_max)
        (h.descrs.enumFrom 0)
        (list_item_init comp_opts comp_opts_max_len (c_tcp_opt_compute_ps tmp.idx_max) h.nr) =
          some st' ∧ st'.comp_opts_len = n ∧ st'.buf = buf' := by
  unfold c_tcp_code_tcp_opts_list_item at hs
  split_ifs at hs with hlt
  obtain ⟨st', hst, he⟩ := Option.map_eq_some'.mp hs
  simp only [Prod.mk.injEq] at he
  exact ⟨by omega, st', hst, he.1, he.2⟩

/-- The length returned by the list item encoder, by index: the length of the XI
fields plus the item bodies, one per option, each as the builder of the index of
the option gives it. -/
theorem list_item_length_by_index (ext : ext_coders) (h : rohc_tcp_opts) (ack_num : Nat)
    (tmp : c_tcp_opts_ctxt_tmp) (items_needed : Nat → Bool) (comp_opts : Nat → Nat)
    (comp_opts_max_len n : Nat) (buf' : Nat → Nat)
    (hs : c_tcp_code_tcp_opts_list_item ext h ack_num tmp items_needed comp_opts
      comp_opts_max_len = some (n, buf')) :
    ∃ bodies : List Nat, bodies.length = h.nr ∧
      n = c_tcp_opt_compute_xi_len (c_tcp_opt_compute_ps tmp.idx_max) h.nr + bodies.sum ∧
      (∀ (p : Nat) d, h.descrs[p]? = some d →
        body_of_index ext h.opts ack_num tmp items_needed p d (bodies.getD p 0)) ∧
      ((∀ p, p < h.nr → items_needed (tmp.position2index p) = true →
          tmp.position2index p ≠ TCP_INDEX_SACK) →
        comp_opts_max_len < SIZE_MAX1 → n ≤ comp_opts_max_len) := by
  obtain ⟨hxi, st', hloop, rfl, _⟩ := list_item_some hs
  obtain ⟨bodies, hl, hsum, hbody, hroom⟩ :=
    list_item_loop_len ext h.opts ack_num tmp items_needed _ h.descrs 0 _ st' hloop
  refine ⟨bodies, hl, hsum, ?_, ?_⟩
  · intro p d hd
    simpa using hbody p d hd
  · intro hns hlt
    have := hroom (fun i hi => by simpa using hns i hi)
      (by simp only [list_item_init]; omega)
    rw [hsum]
    simp only [list_item_init] at this ⊢
    omega

/-! ## Properties of the list item encoder: XI fields -/

theorem xi_4bit_lt (item_needed : Bool) (opt_idx : Nat) (hi : opt_idx ≤ 7) :
    xi_4bit item_needed opt_idx < 16 := by
  interval_cases opt_idx <;> cases item_needed <;> decide

theorem write_xi_even (buf : Nat → Nat) (pos opt_pos opt_idx : Nat) (item_needed : Bool)
    (hp : opt_pos % 2 = 0) (hi : opt_idx ≤ 7) :
    c_tcp_opt_write_xi buf pos 0 opt_pos opt_idx item_needed =
      (0, upd buf pos (16 * xi_4bit item_needed opt_idx)) := by
  unfold c_tcp_opt_write_xi
  simp only [Nat.and_one_is_mod, hp, if_true, ne_eq, not_true_eq_false, if_false]
  interval_cases opt_idx <;> cases item_needed <;> rfl

theorem write_xi_odd (buf : Nat → Nat) (pos opt_pos opt_idx : Nat) (item_needed : Bool) (v : Nat)
    (hp : opt_pos % 2 = 1) (hi : opt_idx ≤ 7) (hv : v < 16) (hb : buf pos = 16 * v) :
    c_tcp_opt_write_xi buf pos 0 opt_pos opt_idx item_needed =
      (1, upd buf pos (16 * v + xi_4bit item_needed opt_idx)) := by
  unfold c_tcp_opt_write_xi
  simp only [Nat.and_one_is_mod, hp, if_true, ne_eq, one_ne_zero, not_false_eq_true, hb]
  interval_cases v <;> interval_cases opt_idx <;> cases item_needed <;> rfl

theorem write_xi_8 (buf : Nat → Nat) (pos ps opt_pos opt_idx : Nat) (item_needed : Bool)
    (hps : ps ≠ 0) (hi : opt_idx < 256) :
    c_tcp_opt_write_xi buf pos ps opt_pos opt_idx item_needed =
      (1, upd buf pos (xi_8bit item_needed opt_idx)) := by
  have h1 : opt_idx % 256 = opt_idx := Nat.mod_eq_of_lt hi
  have h2 : (opt_idx ||| 0x80) % 256 = opt_idx ||| 0x80 :=
    Nat.mod_eq_of_lt
      (Nat.or_lt_two_pow (show opt_idx < 2 ^ 8 from hi) (show 0x80 < 2 ^ 8 by decide))
  unfold c_tcp_opt_write_xi
  simp only [hps, if_false]
  cases item_needed
  · simp [xi_8bit, h1]
  · simp only [if_true, h1, h2, xi_8bit, Bool.toNat_true]
    rw [Nat.lor_comm]
    rfl

theorem upd_eq {α : Type} (a : Nat → α) (i : Nat) (v : α) : upd a i v i = v := by
  simp [upd]

theorem upd_ne {α : Type} (a : Nat → α) (i : Nat) (v : α) (j : Nat) (h : j ≠ i) :
    upd a i v j = a j := by
  simp [upd, h]

theorem list_item_step_needed (ext : ext_coders) (opts : List Nat) (ack_num : Nat)
    (tmp : c_tcp_opts_ctxt_tmp) (items_needed : Nat → Bool) (ps : Nat) (st : list_item_state)
    (opt_pos : Nat) (d : tcp_opt_descr)
    (hn : items_needed (tmp.position2index opt_pos) = true) :
    list_item_step ext opts ack_num tmp items_needed ps st opt_pos d =
      (c_tcp_opts_build_list_item (tmp.position2index opt_pos) ext ack_num (ptr opts d.data)
        d.length
        (c_tcp_opt_write_xi st.buf st.xi_remain_data ps opt_pos (tmp.position2index opt_pos)
          true).2
        st.items_remain_data st.items_remain_len).map (fun ret =>
          { buf := ret.2,
            xi_remain_data := st.xi_remain_data +
              (c_tcp_opt_write_xi st.buf st.xi_remain_data ps opt_pos
                (tmp.position2index opt_pos) true).1,
            items_remain_data := st.items_remain_data + ret.1,
            items_remain_len := size_t_sub st.items_remain_len ret.1,
            comp_opts_len := st.comp_opts_len + ret.1 }) := by
  unfold list_item_step
  simp only [hn, not_true_eq_false, if_false]

theorem xi_len_4 (m : Nat) : c_tcp_opt_compute_xi_len 0 m = 1 + (m + 1) / 2 := by
  simp [c_tcp_opt_compute_xi_len]

theorem xi_len_8 (m : Nat) : c_tcp_opt_compute_xi_len 1 m = 1 + m := by
  simp [c_tcp_opt_compute_xi_len]

theorem list_item_step_xi4 {ext : ext_coders} {opts : List Nat} {ack_num : Nat}
    {tmp : c_tcp_opts_ctxt_tmp} {items_needed : Nat → Bool} {m hdr k : Nat}
    {st st' : list_item_state} {d : tcp_opt_descr}
    (h : list_item_step ext opts ack_num tmp items_needed 0 st k d = some st')
    (hk : k < m) (hidx : ∀ p, p < m → tmp.position2index p ≤ 7)
    (hinv : xi4_inv tmp items_needed m hdr k st) :
    xi4_inv tmp items_needed m hdr (k + 1) st' := by
  obtain ⟨i1, i2, i3, i4, i5⟩ := hinv
  obtain ⟨s1, s2, s3, _⟩ := list_item_step_some h
  rw [xi_len_4] at i2
  rcases Nat.mod_two_eq_zero_or_one k with hp | hp
  · rw [i1, write_xi_even _ _ _ _ _ hp (hidx k hk)] at s1 s2
    dsimp only at s1 s2
    refine ⟨by rw [s1]; omega, by rw [xi_len_4]; omega, ?_, ?_, ?_⟩
    · rw [s2 0 (by omega), upd_ne _ _ _ _ (by omega)]; exact i3
    · intro q hq
      rw [s2 (1 + q) (by omega), upd_ne _ _ _ _ (by omega)]
      exact i4 q (by omega)
    · intro _
      rw [s2 _ (by omega), show 1 + (k + 1) / 2 = 1 + k / 2 by omega, upd_eq]
      rfl
  · have hb := i5 hp
    rw [i1, write_xi_odd _ _ _ _ _ _ hp (hidx k hk)
      (xi_4bit_lt _ _ (hidx (k - 1) (by omega))) hb] at s1 s2
    dsimp only at s1 s2
    refine ⟨by rw [s1]; omega, by rw [xi_len_4]; omega, ?_, ?_, ?_⟩
    · rw [s2 0 (by omega), upd_ne _ _ _ _ (by omega)]; exact i3
    · intro q hq
      by_cases hqk : 2 * q + 1 = k
      · rw [s2 (1 + q) (by omega), show 1 + k / 2 = 1 + q by omega, upd_eq,
          show k - 1 = 2 * q by omega, hqk]
      · rw [s2 (1 + q) (by omega), upd_ne _ _ _ _ (by omega)]
        exact i4 q (by omega)
    · intro h1
      omega

theorem list_item_loop_xi4 (ext : ext_coders) (opts : List Nat) (ack_num : Nat)
    (tmp : c_tcp_opts_ctxt_tmp) (items_needed : Nat → Bool) (m hdr : Nat)
    (hidx : ∀ p, p < m → tmp.position2index p ≤ 7) :
    ∀ (ds : List tcp_opt_descr) (k : Nat) (st st' : list_item_state),
    list_item_loop ext opts ack_num tmp items_needed 0 (ds.enumFrom k) st = some st' →
    k + ds.length ≤ m → xi4_inv tmp items_needed m hdr k st →
    xi4_inv tmp items_needed m hdr (k + ds.length) st' := by
  intro ds
  induction ds with
  | nil =>
    intro k st st' h _ hinv
    simp only [List.enumFrom_nil, list_item_loop, Option.some.injEq] at h
    subst h
    simpa using hinv
  | cons d ds ih =>
    intro k st st' h hk hinv
    rw [List.enumFrom_cons, list_item_loop] at h
    obtain ⟨st1, hstep, hrest⟩ := Option.bind_eq_some.mp h
    simp only [List.length_cons] at hk ⊢
    have := ih (k + 1) st1 st' hrest (by omega)
      (list_item_step_xi4 hstep (by omega) hidx hinv)
    rw [show k + (ds.length + 1) = k + 1 + ds.length by omega]
    exact this

theorem list_item_step_xi8 {ext : ext_coders} {opts : List Nat} {ack_num : Nat}
    {tmp : c_tcp_opts_ctxt_tmp} {items_needed : Nat → Bool} {ps m hdr k : Nat}
    {st st' : list_item_state} {d : tcp_opt_descr}
    (h : list_item_step ext opts ack_num tmp items_needed ps st k d = some st')
    (hps : ps ≠ 0)
    (hk : k < m) (hidx : ∀ p, p < m → tmp.position2index p < 256)
    (hinv : xi8_inv tmp items_needed m hdr k st) :
    xi8_inv tmp items_needed m hdr (k + 1) st' := by
  obtain ⟨i1, i2, i3, i4⟩ := hinv
  obtain ⟨s1, s2, s3, _⟩ := list_item_step_some h
  rw [xi_len_8] at i2
  rw [i1, write_xi_8 _ _ _ _ _ _ hps (hidx k hk)] at s1 s2
  dsimp only at s1 s2
  refine ⟨by rw [s1]; omega, by rw [xi_len_8]; omega, ?_, ?_⟩
  · rw [s2 0 (by omega), upd_ne _ _ _ _ (by omega)]; exact i3
  · intro p hp
    by_cases hpk : p = k
    · rw [s2 (1 + p) (by omega), hpk, upd_eq]
    · rw [s2 (1 + p) (by omega), upd_ne _ _ _ _ (by omega)]
      exact i4 p (by omega)

theorem list_item_loop_xi8 (ext : ext_coders) (opts : List Nat) (ack_num : Nat)
    (tmp : c_tcp_opts_ctxt_tmp) (items_needed : Nat → Bool) (ps m hdr : Nat) (hps : ps ≠ 0)
    (hidx : ∀ p, p < m → tmp.position2index p < 256) :
    ∀ (ds : List tcp_opt_descr) (k : Nat) (st st' : list_item_state),
    list_item_loop ext opts ack_num tmp items_needed ps (ds.enumFrom k) st = some st' →
    k + ds.length ≤ m → xi8_inv tmp items_needed m hdr k st →
    xi8_inv tmp items_needed m hdr (k + ds.length) st' := by
  intro ds
  induction ds with
  | nil =>
    intro k st st' h _ hinv
    simp only [List.enumFrom_nil, list_item_loop, Option.some.injEq] at h
    subst h
    simpa using hinv
  | cons d ds ih =>
    intro k st st' h hk hinv
    rw [List.enumFrom_cons, list_item_loop] at h
    obtain ⟨st1, hstep, hrest⟩ := Option.bind_eq_some.mp h
    simp only [List.length_cons] at hk ⊢
    have := ih (k + 1) st1 st' hrest (by omega)
      (list_item_step_xi8 hstep hps (by omega) hidx hinv)
    rw [show k + (ds.length + 1) = k + 1 + ds.length by omega]
    exact this

theorem compute_ps_cases (idx_max : Nat) :
    c_tcp_opt_compute_ps idx_max = 0 ∨ c_tcp_opt_compute_ps idx_max = 1 := by
  unfold c_tcp_opt_compute_ps
  split_ifs <;> simp

/-- C14: whenever the list item encoder succeeds on a packet of `m ≤ 15` options,
with every index at most 7 when PS = 0 (an index being 8 bits wide): byte 0 of the
output is `(PS << 4) | m`; with PS = 0 the XI field of
position `p` is `(item_needed << 3) | idx`, in byte `1 + p / 2`, in the high
nibble when `p` is even and in the low nibble when `p` is odd, and when `m` is odd
the low nibble of the last XI byte is 0; with PS = 1 byte `1 + p` is
`(item_needed << 7) | idx`. -/
theorem xi_fields_layout (ext : ext_coders) (h : rohc_tcp_opts) (ack_num : Nat)
    (tmp : c_tcp_opts_ctxt_tmp) (items_needed : Nat → Bool) (comp_opts : Nat → Nat)
    (comp_opts_max_len n : Nat) (buf' : Nat → Nat)
    (hs : c_tcp_code_tcp_opts_list_item ext h ack_num tmp items_needed comp_opts
      comp_opts_max_len = some (n, buf'))
    (hm : h.nr ≤ ROHC_TCP_OPTS_MAX)
    (h4 : c_tcp_opt_compute_ps tmp.idx_max = 0 → ∀ p, p < h.nr → tmp.position2index p ≤ 7)
    (h8 : ∀ p, p < h.nr → tmp.position2index p < 256) :
    buf' 0 = (c_tcp_opt_compute_ps tmp.idx_max <<< 4) ||| h.nr ∧
    (c_tcp_opt_compute_ps tmp.idx_max = 0 →
      (∀ p, p < h.nr → p % 2 = 0 → buf' (1 + p / 2) / 16 =
        ((items_needed (tmp.position2index p)).toNat <<< 3) ||| tmp.position2index p) ∧
      (∀ p, p < h.nr → p % 2 = 1 → buf' (1 + p / 2) % 16 =
        ((items_needed (tmp.position2index p)).toNat <<< 3) ||| tmp.position2index p) ∧
      (h.nr % 2 = 1 → buf' (1 + (h.nr - 1) / 2) % 16 = 0)) ∧
    (c_tcp_opt_compute_ps tmp.idx_max = 1 →
      ∀ p, p < h.nr → buf' (1 + p) =
        ((items_needed (tmp.position2index p)).toNat <<< 7) ||| tmp.position2index p) := by
  obtain ⟨hxi, st', hloop, _, rfl⟩ := list_item_some hs
  have hhdr : ∀ ps, ps = 0 ∨ ps = 1 → ((ps <<< 4) ||| h.nr) % 256 = (ps <<< 4) ||| h.nr := by
    intro ps hps
    have : h.nr ≤ 15 := hm
    generalize h.nr = m at this
    rcases hps with rfl | rfl <;> interval_cases m <;> rfl
  rcases compute_ps_cases tmp.idx_max with hps | hps
  · rw [hps] at hloop hxi ⊢
    have hinv := list_item_loop_xi4 ext h.opts ack_num tmp items_needed h.nr
      (((0 <<< 4) ||| h.nr) % 256) (h4 hps) h.descrs 0 _ st' hloop
      (by simp [rohc_tcp_opts.nr])
      ⟨rfl, le_rfl, by simp [list_item_init, upd], fun q hq => by omega, fun hk => by omega⟩
    obtain ⟨_, _, i3, i4, i5⟩ := hinv
    have hlen : 0 + h.descrs.length = h.nr := by simp [rohc_tcp_opts.nr]
    rw [hlen] at i4 i5
    refine ⟨by rw [i3]; exact hhdr 0 (Or.inl rfl), fun _ => ⟨?_, ?_, ?_⟩, fun h1 => by omega⟩
    · intro p hp hpe
      have hx := xi_4bit_lt (items_needed (tmp.position2index p)) _ (h4 hps p hp)
      by_cases hlast : p + 1 < h.nr
      · have := i4 (p / 2) (by omega)
        rw [show 2 * (p / 2) = p by omega] at this
        have hx1 := xi_4bit_lt (items_needed (tmp.position2index (p + 1))) _
          (h4 hps (p + 1) hlast)
        rw [this]
        unfold xi_4bit at hx hx1 ⊢
        omega
      · have := i5 (by omega)
        rw [show h.nr - 1 = p by omega, show h.nr / 2 = p / 2 by omega] at this
        rw [this]
        unfold xi_4bit at hx ⊢
        omega
    · intro p hp hpo
      have hx := xi_4bit_lt (items_needed (tmp.position2index p)) _ (h4 hps p hp)
      have := i4 (p / 2) (by omega)
      rw [show 2 * (p / 2) + 1 = p by omega] at this
      rw [this]
      unfold xi_4bit at hx ⊢
      omega
    · intro hodd
      have := i5 hodd
      rw [show 1 + (h.nr - 1) / 2 = 1 + h.nr / 2 by omega, this]
      omega
  · rw [hps] at hloop hxi ⊢
    have hinv := list_item_loop_xi8 ext h.opts ack_num tmp items_needed 1 h.nr
      (((1 <<< 4) ||| h.nr) % 256) (by omega) h8 h.descrs 0 _ st' hloop
      (by simp [rohc_tcp_opts.nr])
      ⟨rfl, le_rfl, by simp [list_item_init, upd], fun q hq => by omega⟩
    obtain ⟨_, _, i3, i4⟩ := hinv
    have hlen : 0 + h.descrs.length = h.nr := by simp [rohc_tcp_opts.nr]
    rw [hlen] at i4
    refine ⟨by rw [i3]; exact hhdr 1 (Or.inr rfl), fun h0 => by omega, fun _ p hp => ?_⟩
    rw [i4 p hp]
    rfl

/-! ## Properties of the encoders: lengths by kind and overflow -/

theorem index_of_kind_sack {opt_type opt_idx : Nat} (h : index_of_kind opt_type opt_idx) :
    opt_idx = TCP_INDEX_SACK ↔ opt_type = TCP_OPT_SACK := by
  rcases h with ⟨⟨hlt, hge⟩, rfl⟩ | ⟨hn, h7, h15⟩
  · simp only [TCP_LIST_ITEM_MAP_LEN] at hlt
    interval_cases opt_type <;> revert hge <;> decide
  · constructor
    · intro h6
      simp only [TCP_INDEX_SACK] at h6
      omega
    · intro h5
      exact absurd (show has_reserved_index opt_type by rw [h5]; unfold has_reserved_index; decide) hn

theorem item_len_index_of_kind {opt_type opt_idx : Nat} (opt_len : Nat)
    (h : index_of_kind opt_type opt_idx) (hs : opt_type ≠ TCP_OPT_SACK) :
    item_len_of_index opt_idx opt_len = item_len_of_kind opt_type opt_len := by
  rcases h with ⟨⟨hlt, hge⟩, rfl⟩ | ⟨hn, h7, h15⟩
  · simp only [TCP_LIST_ITEM_MAP_LEN] at hlt
    interval_cases opt_type
    all_goals first
      | rfl
      | exact absurd hge (by decide)
  · have h0 : opt_type ≠ 0 := fun h => hn (by rw [h]; unfold has_reserved_index; decide)
    have h1 : opt_type ≠ 1 := fun h => hn (by rw [h]; unfold has_reserved_index; decide)
    have h2 : opt_type ≠ 2 := fun h => hn (by rw [h]; unfold has_reserved_index; decide)
    have h3 : opt_type ≠ 3 := fun h => hn (by rw [h]; unfold has_reserved_index; decide)
    have h4 : opt_type ≠ 4 := fun h => hn (by rw [h]; unfold has_reserved_index; decide)
    have h8 : opt_type ≠ 8 := fun h => hn (by rw [h]; unfold has_reserved_index; decide)
    unfold item_len_of_index item_len_of_kind
    simp only [TCP_INDEX_NOP, TCP_INDEX_EOL, TCP_INDEX_MSS, TCP_INDEX_WS, TCP_INDEX_TS,
      TCP_INDEX_SACK_PERM, TCP_OPT_NOP, TCP_OPT_SACK_PERM, TCP_OPT_EOL, TCP_OPT_WS, TCP_OPT_MSS,
      TCP_OPT_TS]
    split_ifs <;> omega

theorem body_index_of_kind {ext : ext_coders} {opts : List Nat} {ack_num : Nat}
    {tmp : c_tcp_opts_ctxt_tmp} {items_needed : Nat → Bool} {opt_pos : Nat} {d : tcp_opt_descr}
    {b : Nat} (hk : index_of_kind d.type (tmp.position2index opt_pos))
    (h : body_of_index ext opts ack_num tmp items_needed opt_pos d b) :
    body_of_kind ext opts ack_num tmp items_needed opt_pos d b := by
  obtain ⟨b1, b2, b3⟩ := h
  refine ⟨b1, fun hn hs => ?_, fun hn hs => b3 hn ((index_of_kind_sack hk).mpr hs)⟩
  rw [b2 hn (fun h6 => hs ((index_of_kind_sack hk).mp h6)), item_len_index_of_kind _ hk hs]

theorem sum_items_len_of_kinds (tmp : c_tcp_opts_ctxt_tmp) (items_needed : Nat → Bool) :
    ∀ (ds : List tcp_opt_descr) (bodies : List Nat) (k : Nat), bodies.length = ds.length →
    (∀ (i : Nat) d, ds[i]? = some d → bodies.getD i 0 =
      if items_needed (tmp.position2index (k + i)) then item_len_of_kind d.type d.length else 0) →
    bodies.sum = items_len_of_kinds tmp items_needed ds k := by
  intro ds
  induction ds with
  | nil =>
    intro bodies k hl _
    rw [List.length_eq_zero.mp hl]
    rfl
  | cons d ds ih =>
    intro bodies k hl hb
    cases bodies with
    | nil => simp at hl
    | cons b bs =>
      have h0 := hb 0 d (by simp)
      simp only [List.getD_cons_zero, Nat.add_zero] at h0
      rw [List.sum_cons, items_len_of_kinds, h0, ih bs (k + 1) (by simpa using hl)]
      intro i e he
      have := hb (i + 1) e (by simpa using he)
      rw [List.getD_cons_succ, show k + (i + 1) = k + 1 + i by omega] at this
      exact this

/-- The length returned by the list item encoder for a packet in which every option
has an index of its kind and no option is SACK. -/
theorem list_item_length_no_sack {ext : ext_coders} {h : rohc_tcp_opts} {ack_num : Nat}
    {tmp : c_tcp_opts_ctxt_tmp} {items_needed : Nat → Bool} {comp_opts : Nat → Nat}
    {comp_opts_max_len n : Nat} {buf' : Nat → Nat}
    (hs : c_tcp_code_tcp_opts_list_item ext h ack_num tmp items_needed comp_opts
      comp_opts_max_len = some (n, buf'))
    (hkind : ∀ (p : Nat) d, h.descrs[p]? = some d →
      index_of_kind d.type (tmp.position2index p))
    (hnosack : ∀ d ∈ h.descrs, d.type ≠ TCP_OPT_SACK) :
    n = c_tcp_opt_compute_xi_len (c_tcp_opt_compute_ps tmp.idx_max) h.nr +
        items_len_of_kinds tmp items_needed h.descrs 0 ∧
    (comp_opts_max_len < SIZE_MAX1 → n ≤ comp_opts_max_len) := by
  obtain ⟨bodies, hl, hn, hbody, hroom⟩ :=
    list_item_length_by_index ext h ack_num tmp items_needed comp_opts comp_opts_max_len n buf' hs
  have hmem : ∀ (p : Nat) d, h.descrs[p]? = some d → d.type ≠ TCP_OPT_SACK :=
    fun p d hd => hnosack d (List.getElem?_mem hd)
  constructor
  · rw [hn, sum_items_len_of_kinds tmp items_needed h.descrs bodies 0 hl]
    intro i d hd
    obtain ⟨b1, b2, _⟩ := body_index_of_kind (hkind i d hd) (hbody i d hd)
    rw [Nat.zero_add]
    cases hne : items_needed (tmp.position2index i) with
    | false => simpa using b1 hne
    | true => simpa using b2 hne (hmem i d hd)
  · refine hroom (fun p hp _ h6 => ?_)
    have hp' : p < h.descrs.length := hp
    have hd : h.descrs[p]? = some h.descrs[p] := List.getElem?_eq_getElem hp'
    exact hmem p _ hd ((index_of_kind_sack (hkind p _ hd)).mp h6)

/-- The length returned by the list item encoder, by kind, where the indexes are
those of §3.1: whenever the list item encoder succeeds on a packet of `m`
options in which every option has an index of its kind (the reserved index of a
well-known kind, an index in 7..15 otherwise), the length it returns is `xis_len`
plus the sum of the item bodies of the positions whose item is needed, with
`xis_len = 1 + m` if PS = 1 and `1 + ceil(m / 2)` if PS = 0, the body being of
length 0 for NOP and SACK-Permitted, 1 for EOL and WS, 2 for MSS, 8 for TS, the
option length for a generic option, and the length returned by the SACK coder for
SACK. -/
theorem list_item_length_by_kind (ext : ext_coders) (h : rohc_tcp_opts) (ack_num : Nat)
    (tmp : c_tcp_opts_ctxt_tmp) (items_needed : Nat → Bool) (comp_opts : Nat → Nat)
    (comp_opts_max_len n : Nat) (buf' : Nat → Nat)
    (hs : c_tcp_code_tcp_opts_list_item ext h ack_num tmp items_needed comp_opts
      comp_opts_max_len = some (n, buf'))
    (hkind : ∀ (p : Nat) d, h.descrs[p]? = some d →
      index_of_kind d.type (tmp.position2index p)) :
    (∃ bodies : List Nat, bodies.length = h.nr ∧
      n = c_tcp_opt_compute_xi_len (c_tcp_opt_compute_ps tmp.idx_max) h.nr + bodies.sum ∧
      ∀ (p : Nat) d, h.descrs[p]? = some d →
        body_of_kind ext h.opts ack_num tmp items_needed p d (bodies.getD p 0)) ∧
    (c_tcp_opt_compute_ps tmp.idx_max = 1 →
      c_tcp_opt_compute_xi_len (c_tcp_opt_compute_ps tmp.idx_max) h.nr = 1 + h.nr) ∧
    (c_tcp_opt_compute_ps tmp.idx_max = 0 →
      c_tcp_opt_compute_xi_len (c_tcp_opt_compute_ps tmp.idx_max) h.nr = 1 + (h.nr + 1) / 2) ∧
    ((∀ d ∈ h.descrs, d.type ≠ TCP_OPT_SACK) →
      n = c_tcp_opt_compute_xi_len (c_tcp_opt_compute_ps tmp.idx_max) h.nr +
        items_len_of_kinds tmp items_needed h.descrs 0) := by
  obtain ⟨bodies, hl, hn, hbody, _⟩ :=
    list_item_length_by_index ext h ack_num tmp items_needed comp_opts comp_opts_max_len n buf' hs
  refine ⟨⟨bodies, hl, hn, fun p d hd => body_index_of_kind (hkind p d hd) (hbody p d hd)⟩,
    fun h1 => by rw [h1, xi_len_8], fun h0 => by rw [h0, xi_len_4],
    fun hnosack => (list_item_length_no_sack hs hkind hnosack).1⟩

theorem parse_loop_generic_len (opts : List Nat) (L : Nat) :
    ∀ (n off : Nat) (cnt : Nat → Nat) (off' : Nat) (ds : List tcp_opt_descr),
      parse_loop opts L n off cnt = some (off', ds) →
      ∀ d ∈ ds, (d.type ≠ TCP_OPT_EOL → d.type ≠ TCP_OPT_NOP → 2 ≤ d.length) ∧
        d.length ≤ 255 := by
  intro n
  induction n with
  | zero =>
    intro off cnt off' ds h
    rw [parse_loop_zero] at h
    simp only [Option.some.injEq, Prod.mk.injEq] at h
    obtain ⟨_, rfl⟩ := h
    simp
  | succ n ih =>
    intro off cnt off' ds h
    rcases parse_loop_succ h with ⟨_, _, rfl⟩ | ⟨_, t, len, ds', hg, hlen, _, _, hrec, rfl⟩
    · simp
    · intro d hd
      rcases List.mem_cons.mp hd with rfl | hd
      · obtain ⟨_, _, _, _, hoth⟩ := get_type_len_some hg
        exact ⟨fun h0 h1 => (hoth h0 h1).2.2.1, show len ≤ 255 by omega⟩
      · exact ih _ _ _ _ hrec d hd

/-- In an accepted packet every option other than EOL and NOP has a length of 2 at
least, and every length fits 8 bits. -/
theorem accepted_generic_len {opts : List Nat} {data_offset : Nat} {h : rohc_tcp_opts}
    (hacc : rohc_comp_tcp_are_options_acceptable opts data_offset = some h) :
    ∀ d ∈ h.descrs, (d.type ≠ TCP_OPT_EOL → d.type ≠ TCP_OPT_NOP → 2 ≤ d.length) ∧
      d.length ≤ 255 :=
  parse_loop_generic_len opts _ _ _ _ _ _ (acceptable_some hacc).1

theorem len_minus_2_eq (opt_len : Nat) (h2 : 2 ≤ opt_len) (h : opt_len ≤ 255) :
    len_minus_2 opt_len = opt_len - 2 := by
  unfold len_minus_2
  simp only [SIZE_MAX1]
  omega

/-- C17 (as stated, refuted): for the accepted options `02 04 05 b4 01 03 03 07` on a
fresh context with `oa_repetitions_nr = 3`, `tcp_detect_options_changes` yields
`position2index = [2, 0, 3]`, `idx_max = 3` and `do_list_struct_changed = true`, but
`list_item_needed[0]`, for the NOP option, is false. -/
theorem syn_nop_item_not_needed :
    (rohc_comp_tcp_are_options_acceptable [2, 4, 5, 0xb4, 1, 3, 3, 7] 7).map
      (fun h => (tcp_detect_options_changes 3 h fresh_ctxt zero_tmp false).list_item_needed 0) =
    some false := by
  decide

/-- C17 (amended): for the accepted options `02 04 05 b4 01 03 03 07` on a fresh
context with `oa_repetitions_nr = 3`, `tcp_detect_options_changes` yields
`position2index = [2, 0, 3]`, `idx_max = 3`, `do_list_struct_changed = true`, and
`list_item_needed` true for the indices 2 (MSS) and 3 (WS) and false for the index
0 (NOP), whatever the temporary state was before. -/
theorem syn_detector (tmp : c_tcp_opts_ctxt_tmp) :
    (rohc_comp_tcp_are_options_acceptable [2, 4, 5, 0xb4, 1, 3, 3, 7] 7).map
      (fun h =>
        ((List.range 3).map (tcp_detect_options_changes 3 h fresh_ctxt tmp false).position2index,
         (tcp_detect_options_changes 3 h fresh_ctxt tmp false).idx_max,
         (tcp_detect_options_changes 3 h fresh_ctxt tmp false).do_list_struct_changed,
         (tcp_detect_options_changes 3 h fresh_ctxt tmp false).list_item_needed 2,
         (tcp_detect_options_changes 3 h fresh_ctxt tmp false).list_item_needed 0,
         (tcp_detect_options_changes 3 h fresh_ctxt tmp false).list_item_needed 3)) =
    some ([2, 0, 3], 3, true, true, false, true) := by
  have hacc : rohc_comp_tcp_are_options_acceptable [2, 4, 5, 0xb4, 1, 3, 3, 7] 7 =
      some ⟨[2, 4, 5, 0xb4, 1, 3, 3, 7], [⟨0, 2, 4⟩, ⟨4, 1, 1⟩, ⟨5, 3, 3⟩], 8⟩ := by decide
  rw [hacc]
  rfl

/-- C16: fresh SYN scenario, encoder: for the options `02 04 05 b4 01 03 03 07`
(MSS = 1460, NOP, WS = 7) with `position2index = [2, 0, 3]`, `idx_max = 3`, the
items needed for the three options and at least 6 bytes of room, the list item
encoder returns 6 and writes exactly `03 a8 b0 05 b4 07`: the header 0x03, the XI
bytes 0xa8 and 0xb0, the MSS item `05 b4`, no byte for NOP and the WS item `07`;
the bytes of the buffer after these six are left as they were. -/
theorem syn_encoder (ext : ext_coders) (ack_num : Nat) (tmp : c_tcp_opts_ctxt_tmp)
    (items_needed : Nat → Bool) (comp_opts : Nat → Nat) (comp_opts_max_len : Nat)
    (hp0 : tmp.position2index 0 = 2) (hp1 : tmp.position2index 1 = 0)
    (hp2 : tmp.position2index 2 = 3) (hmax : tmp.idx_max = 3)
    (hn2 : items_needed 2 = true) (hn0 : items_needed 0 = true) (hn3 : items_needed 3 = true)
    (hroom : 6 ≤ comp_opts_max_len) (hsz : comp_opts_max_len < SIZE_MAX1) :
    ∃ buf', c_tcp_code_tcp_opts_list_item ext syn_opts ack_num tmp items_needed comp_opts
        comp_opts_max_len = some (6, buf') ∧
      bytes_at buf' 0 6 = [0x03, 0xa8, 0xb0, 0x05, 0xb4, 0x07] ∧
      ∀ j, 6 ≤ j → buf' j = comp_opts j := by
  have hps : c_tcp_opt_compute_ps tmp.idx_max = 0 := by rw [hmax]; rfl
  have hxl : c_tcp_opt_compute_xi_len 0 syn_opts.nr = 3 := rfl
  have henum : syn_opts.descrs.enum = [(0, ⟨0, 2, 4⟩), (1, ⟨4, 1, 1⟩), (2, ⟨5, 3, 3⟩)] := rfl
  have e3 : size_t_sub (comp_opts_max_len - 3) 2 = comp_opts_max_len - 5 := by
    rw [size_t_sub_eq _ _ (by omega) (by omega)]; omega
  have e4 : size_t_sub (comp_opts_max_len - 5) 0 = comp_opts_max_len - 5 :=
    size_t_sub_eq _ _ (by omega) (by omega)
  have hx3 : c_tcp_opt_compute_xi_len 0 3 = 3 := rfl
  have s0 : list_item_step ext syn_opts.opts ack_num tmp items_needed 0
      (list_item_init comp_opts comp_opts_max_len 0 3) 0 ⟨0, 2, 4⟩ =
      some ⟨memcpy (upd (upd comp_opts 0 3) 1 0xa0) 3 (fun i => ptr syn_opts.opts 0 (2 + i)) 2,
        1, 5, comp_opts_max_len - 5, 5⟩ := by
    rw [list_item_step_needed _ _ _ _ _ _ _ _ _ (by rw [hp0]; exact hn2), hp0,
      write_xi_even _ _ 0 2 true rfl (by decide)]
    show Option.map _ (c_tcp_build_mss_list_item _ _ 3 (comp_opts_max_len - 3)) = _
    unfold c_tcp_build_mss_list_item
    rw [if_neg (by omega)]
    simp only [Option.map_some', list_item_init, hx3, e3]
    rfl
  have s1 : ∀ b : Nat → Nat, b 1 = 0xa0 →
      list_item_step ext syn_opts.opts ack_num tmp items_needed 0
        ⟨b, 1, 5, comp_opts_max_len - 5, 5⟩ 1 ⟨4, 1, 1⟩ =
      some ⟨upd b 1 0xa8, 2, 5, comp_opts_max_len - 5, 5⟩ := by
    intro b hb
    rw [list_item_step_needed _ _ _ _ _ _ _ _ _ (by rw [hp1]; exact hn0), hp1,
      write_xi_odd b 1 1 0 true 10 rfl (by decide) (by decide) hb]
    simp only [c_tcp_opts_build_list_item, TCP_INDEX_NOP, if_true, c_tcp_build_nop_list_item,
      Option.map_some', e4]
    rfl
  have s2 : ∀ b : Nat → Nat,
      list_item_step ext syn_opts.opts ack_num tmp items_needed 0
        ⟨b, 2, 5, comp_opts_max_len - 5, 5⟩ 2 ⟨5, 3, 3⟩ =
      some ⟨upd (upd b 2 0xb0) 5 7, 2, 6, size_t_sub (comp_opts_max_len - 5) 1, 6⟩ := by
    intro b
    rw [list_item_step_needed _ _ _ _ _ _ _ _ _ (by rw [hp2]; exact hn3), hp2,
      write_xi_even _ _ 2 3 true rfl (by decide)]
    show Option.map _ (c_tcp_build_ws_list_item _ _ 5 (comp_opts_max_len - 5)) = _
    unfold c_tcp_build_ws_list_item
    rw [if_neg (by omega)]
    rfl
  unfold c_tcp_code_tcp_opts_list_item
  rw [hps, hxl, if_neg (by omega), henum]
  show ∃ buf', Option.map _ ((list_item_step ext syn_opts.opts ack_num tmp items_needed 0
      (list_item_init comp_opts comp_opts_max_len 0 3) 0 ⟨0, 2, 4⟩).bind
      (fun st1 => (list_item_step ext syn_opts.opts ack_num tmp items_needed 0 st1 1
        ⟨4, 1, 1⟩).bind
      (fun st2 => (list_item_step ext syn_opts.opts ack_num tmp items_needed 0 st2 2
        ⟨5, 3, 3⟩).bind some))) = _ ∧ _
  rw [s0, Option.some_bind, s1 _ rfl, Option.some_bind, s2, Option.some_bind, Option.map_some']
  refine ⟨_, rfl, rfl, fun j hj => ?_⟩
  show upd _ _ _ j = _
  rw [upd_ne _ _ _ _ (by omega), upd_ne _ _ _ _ (by omega), upd_ne _ _ _ _ (by omega),
    memcpy_outside _ _ _ _ _ (Or.inr (by omega)), upd_ne _ _ _ _ (by omega),
    upd_ne _ _ _ _ (by omega)]

/-! ## Evaluations of the list item encoder -/

theorem syn_run :
    c_tcp_code_tcp_opts_list_item failing_coders syn_opts 0 syn_tmp (fun _ => true) (fun _ => 0)
      6 = some (6, syn_out) := by
  rfl

theorem syn_index_of_kind : ∀ (p : Nat) d, syn_opts.descrs[p]? = some d →
    index_of_kind d.type (syn_tmp.position2index p) := by
  intro p d hd
  have hp : p < 3 := by
    by_contra hc
    have : syn_opts.descrs[p]? = none := List.getElem?_eq_none (by simp [syn_opts]; omega)
    rw [this] at hd
    exact absurd hd (by simp)
  interval_cases p
  all_goals
    simp only [syn_opts, List.getElem?_cons_zero, List.getElem?_cons_succ,
      Option.some.injEq] at hd
    subst hd
    exact Or.inl ⟨⟨by decide, by decide⟩, rfl⟩

/-- C13 (code evaluated at the failing input): the accepted block of ten 2-byte
options of the kinds 30..39 on a fresh context: the option of kind 39 at position 9
gets index 0, the index of NOP, from the allocator, and its item is needed;
`xis_len` is 11 and the item bodies by kind sum to 20, ten generic items of 2
bytes, so that the length by kind is 31, but the encoder builds the item of index
0, writes no byte for this option, and returns 29. -/
theorem item_of_index_not_of_kind :
    (rohc_comp_tcp_are_options_acceptable ten_generic 10).map (fun h =>
      let t := tcp_detect_options_changes 3 h fresh_ctxt zero_tmp false
      ([h.types.getD 9 0, h.lengths.getD 9 0, t.position2index 9,
          c_tcp_opt_compute_xi_len (c_tcp_opt_compute_ps t.idx_max) h.nr,
          items_len_of_kinds t t.list_item_needed h.descrs 0],
        t.list_item_needed 0,
        (c_tcp_code_tcp_opts_list_item failing_coders h 0 t t.list_item_needed (fun _ => 0)
          64).map (fun r => r.1))) =
    some ([39, 2, 0, 11, 20], true, some 29) := by
  decide

/-- The length by kind in the fresh SYN scenario, in which MSS, NOP and WS have the
indexes 2, 0 and 3 of their kinds: the length 6 is `xis_len = 3` plus the bodies of
2, 0 and 1 bytes. -/
theorem list_item_length_by_kind_witness :
    6 = c_tcp_opt_compute_xi_len (c_tcp_opt_compute_ps syn_tmp.idx_max) syn_opts.nr +
      items_len_of_kinds syn_tmp (fun _ => true) syn_opts.descrs 0 :=
  (list_item_length_by_kind failing_coders syn_opts 0 syn_tmp (fun _ => true) (fun _ => 0) 6 6
    syn_out syn_run syn_index_of_kind).2.2.2 (by decide)

/-- Witness of C14: the fresh SYN scenario: the header is 0x03, the XI fields of
the positions 0, 1 and 2 are 0xa, 0x8 and 0xb, and the low nibble of the last XI
byte is 0. -/
theorem xi_fields_layout_witness :
    syn_out 0 = 0x03 ∧ syn_out 1 / 16 = 0xa ∧ syn_out 1 % 16 = 0x8 ∧ syn_out 2 / 16 = 0xb ∧
      syn_out 2 % 16 = 0 :=
  have hw := xi_fields_layout failing_coders syn_opts 0 syn_tmp (fun _ => true) (fun _ => 0) 6 6
    syn_out syn_run (by decide) (fun _ p hp => by
      have : p < 3 := hp
      interval_cases p <;> decide) (fun p hp => by
      have : p < 3 := hp
      interval_cases p <;> decide)
  ⟨hw.1, (hw.2.1 rfl).1 0 (by decide) rfl, (hw.2.1 rfl).2.1 1 (by decide) rfl,
    (hw.2.1 rfl).1 2 (by decide) rfl, (hw.2.1 rfl).2.2 rfl⟩

/-- The accepted block of ten 2-byte options of the kinds 30..39, none of them SACK,
on a fresh context, with 30 bytes of room: the option of kind 39 has index 0, so
`xis_len` plus the item bodies by kind is 31 where the encoder builds and returns
29 bytes, which fit the room. -/
theorem no_failure_below_length_by_kind :
    (rohc_comp_tcp_are_options_acceptable ten_generic 10).map (fun h =>
      let t := tcp_detect_options_changes 3 h fresh_ctxt zero_tmp false
      (h.types.all (fun k => decide (k ≠ TCP_OPT_SACK)),
        c_tcp_opt_compute_xi_len (c_tcp_opt_compute_ps t.idx_max) h.nr +
          items_len_of_kinds t t.list_item_needed h.descrs 0,
        (c_tcp_code_tcp_opts_list_item failing_coders h 0 t t.list_item_needed (fun _ => 0)
          30).map (fun r => r.1))) =
    some (true, 31, some 29) := by
  decide

/-- Witness of C16: the fresh SYN scenario with coders that fail, a buffer of bytes
0xee and 6 bytes of room. -/
theorem syn_encoder_witness :
    ∃ buf', c_tcp_code_tcp_opts_list_item failing_coders syn_opts 0 syn_tmp (fun _ => true)
        (fun _ => 0xee) 6 = some (6, buf') ∧
      bytes_at buf' 0 6 = [0x03, 0xa8, 0xb0, 0x05, 0xb4, 0x07] ∧
      ∀ j, 6 ≤ j → buf' j = 0xee :=
  syn_encoder failing_coders 0 syn_tmp (fun _ => true) (fun _ => 0xee) 6 rfl rfl rfl rfl rfl rfl
    rfl (by decide) (by decide)

/-! ## Parsing of the type and length of one option -/

/-- C30: `c_tcp_opt_get_type_len` on the remaining bytes `R` of length `n`, a length
that fits the 8 bits on which the length of the option is returned: it fails if
`n = 0`; for kind NOP it gives length 1; for kind EOL it gives length `n`; for any
other kind it fails if `n < 2`, and otherwise it succeeds, with `len = R[1]`, if
and only if `2 ≤ len ≤ n`. -/
theorem get_type_len_by_kind (R : Nat → Nat) (n : Nat) (hn : n < 256) :
    (n = 0 → c_tcp_opt_get_type_len R n = none) ∧
    (0 < n → R 0 = TCP_OPT_NOP → c_tcp_opt_get_type_len R n = some (TCP_OPT_NOP, 1)) ∧
    (0 < n → R 0 = TCP_OPT_EOL → c_tcp_opt_get_type_len R n = some (TCP_OPT_EOL, n)) ∧
    (R 0 ≠ TCP_OPT_NOP → R 0 ≠ TCP_OPT_EOL → n < 2 → c_tcp_opt_get_type_len R n = none) ∧
    (R 0 ≠ TCP_OPT_NOP → R 0 ≠ TCP_OPT_EOL → 2 ≤ n →
      (2 ≤ R 1 ∧ R 1 ≤ n → c_tcp_opt_get_type_len R n = some (R 0, R 1)) ∧
      (¬ (2 ≤ R 1 ∧ R 1 ≤ n) → c_tcp_opt_get_type_len R n = none)) := by
  unfold c_tcp_opt_get_type_len
  refine ⟨fun h0 => ?_, fun h0 h1 => ?_, fun h0 h1 => ?_, fun h1 h2 h3 => ?_,
    fun h1 h2 h3 => ⟨fun h4 => ?_, fun h4 => ?_⟩⟩
  · rw [if_pos (by omega)]
  · rw [if_neg (by omega)]
    simp only [h1, if_true]
  · rw [if_neg (by omega)]
    simp only [h1, TCP_OPT_EOL, TCP_OPT_NOP, if_true, Nat.mod_eq_of_lt hn]
    rfl
  · by_cases h0 : n < 1
    · rw [if_pos h0]
    · rw [if_neg h0]
      simp only [h1, h2, if_false, h3, if_true]
  · rw [if_neg (by omega)]
    simp only [h1, h2, if_false]
    rw [if_neg (by omega), if_neg (by omega)]
  · rw [if_neg (by omega)]
    simp only [h1, h2, if_false]
    rw [if_neg (by omega), if_pos (by omega)]

/-- Witness of C30: on the 3 remaining bytes `03 03 07` the option is WS of length 3,
and on the 4 remaining bytes `00 00 00 00` the option is EOL of length 4. -/
theorem get_type_len_by_kind_witness :
    c_tcp_opt_get_type_len (ptr [3, 3, 7] 0) 3 = some (3, 3) ∧
    c_tcp_opt_get_type_len (ptr [0, 0, 0, 0] 0) 4 = some (TCP_OPT_EOL, 4) :=
  ⟨((get_type_len_by_kind (ptr [3, 3, 7] 0) 3 (by decide)).2.2.2.2 (by decide) (by decide)
      (by decide)).1 (by decide),
    (get_type_len_by_kind (ptr [0, 0, 0, 0] 0) 4 (by decide)).2.2.1 (by decide) (by decide)⟩

/-! ## Properties of the index allocator: the three searches -/

/-- C26: for every options context and every mask, `c_tcp_get_opt_index` gives each
reserved kind its fixed index, with `recycled = false`: NOP (1) → 0, EOL (0) → 1,
MSS (2) → 2, WS (3) → 3, TS (8) → 4, SACK-Permitted (4) → 5, SACK (5) → 6. -/
theorem reserved_kinds_get_fixed_index (opts_ctxt : c_tcp_opts_ctxt) (indexes_in_use : Nat) :
    c_tcp_get_opt_index opts_ctxt TCP_OPT_NOP indexes_in_use = (0, false) ∧
    c_tcp_get_opt_index opts_ctxt TCP_OPT_EOL indexes_in_use = (1, false) ∧
    c_tcp_get_opt_index opts_ctxt TCP_OPT_MSS indexes_in_use = (2, false) ∧
    c_tcp_get_opt_index opts_ctxt TCP_OPT_WS indexes_in_use = (3, false) ∧
    c_tcp_get_opt_index opts_ctxt TCP_OPT_TS indexes_in_use = (4, false) ∧
    c_tcp_get_opt_index opts_ctxt TCP_OPT_SACK_PERM indexes_in_use = (5, false) ∧
    c_tcp_get_opt_index opts_ctxt TCP_OPT_SACK indexes_in_use = (6, false) :=
  ⟨rfl, rfl, rfl, rfl, rfl, rfl, rfl⟩

theorem find_range' (f : Nat → Bool) : ∀ (n a x : Nat),
    (List.range' a n).find? f = some x ↔
      a ≤ x ∧ x < a + n ∧ f x = true ∧ ∀ y, a ≤ y → y < x → f y = false := by
  intro n
  induction n with
  | zero =>
    intro a x
    simp only [List.range'_zero, List.find?_nil, Nat.add_zero]
    constructor
    · intro h; exact absurd h (by simp)
    · rintro ⟨h1, h2, _⟩; omega
  | succ n ih =>
    intro a x
    rw [List.range'_succ, List.find?_cons]
    cases hfa : f a with
    | true =>
      simp only [Option.some.injEq]
      constructor
      · rintro rfl
        exact ⟨le_rfl, by omega, hfa, fun y h1 h2 => by omega⟩
      · rintro ⟨h1, _, _, h4⟩
        by_contra hne
        have := h4 a le_rfl (by omega)
        rw [hfa] at this
        exact absurd this (by simp)
    | false =>
      simp only []
      rw [ih (a + 1) x]
      constructor
      · rintro ⟨h1, h2, h3, h4⟩
        refine ⟨by omega, by omega, h3, fun y hy1 hy2 => ?_⟩
        by_cases hya : y = a
        · rw [hya]; exact hfa
        · exact h4 y (by omega) hy2
      · rintro ⟨h1, h2, h3, h4⟩
        have hne : x ≠ a := by
          rintro rfl
          rw [hfa] at h3
          exact absurd h3 (by simp)
        exact ⟨by omega, by omega, h3, fun y hy1 hy2 => h4 y (by omega) hy2⟩

theorem find_generic_some (f : Nat → Bool) (x : Nat) :
    generic_indexes.find? f = some x ↔
      7 ≤ x ∧ x ≤ 15 ∧ f x = true ∧ ∀ y, 7 ≤ y → y < x → f y = false := by
  unfold generic_indexes
  rw [find_range']
  simp only [TCP_INDEX_GENERIC7, MAX_TCP_OPTION_INDEX]
  constructor
  · rintro ⟨h1, h2, h3, h4⟩; exact ⟨h1, by omega, h3, h4⟩
  · rintro ⟨h1, h2, h3, h4⟩; exact ⟨h1, by omega, h3, h4⟩

theorem find_generic_none (f : Nat → Bool) :
    generic_indexes.find? f = none ↔ ∀ y, 7 ≤ y → y ≤ 15 → f y = false := by
  rw [List.find?_eq_none]
  constructor
  · intro h y h1 h2
    have := h y ((mem_generic_indexes y).mpr ⟨h1, h2⟩)
    simpa using this
  · intro h y hy
    have hm := (mem_generic_indexes y).mp hy
    simp [h y hm.1 hm.2]

/-- C27: for every kind without a reserved index: if some slot in 7..15 is used and
holds the kind, `c_tcp_get_opt_index` returns the lowest such slot, whatever the
free slots are; otherwise, if some slot in 7..15 is unused and not set in the mask,
it returns the lowest such slot; in both cases `recycled = false`. -/
theorem generic_kind_reuse_then_fresh (opts_ctxt : c_tcp_opts_ctxt) (opt_type indexes_in_use : Nat)
    (hgen : ¬ has_reserved_index opt_type) :
    (∀ x, 7 ≤ x → x ≤ 15 →
      (opts_ctxt.list x).used = true → (opts_ctxt.list x).type = opt_type →
      (∀ y, 7 ≤ y → y < x →
        ¬ ((opts_ctxt.list y).used = true ∧ (opts_ctxt.list y).type = opt_type)) →
      c_tcp_get_opt_index opts_ctxt opt_type indexes_in_use = (x, false)) ∧
    ((∀ y, 7 ≤ y → y ≤ 15 →
        ¬ ((opts_ctxt.list y).used = true ∧ (opts_ctxt.list y).type = opt_type)) →
      ∀ x, 7 ≤ x → x ≤ 15 →
      (opts_ctxt.list x).used = false → index_is_free indexes_in_use x = true →
      (∀ y, 7 ≤ y → y < x →
        ¬ ((opts_ctxt.list y).used = false ∧ index_is_free indexes_in_use y = true)) →
      c_tcp_get_opt_index opts_ctxt opt_type indexes_in_use = (x, false)) := by
  have hr : ¬ (opt_type < TCP_LIST_ITEM_MAP_LEN ∧ c_tcp_type2index opt_type ≥ 0) := hgen
  constructor
  · intro x h7 h15 hu ht hlow
    have h1 : generic_indexes.find? (fun opt_idx =>
        (opts_ctxt.list opt_idx).used && (opts_ctxt.list opt_idx).type == opt_type) = some x := by
      rw [find_generic_some]
      refine ⟨h7, h15, by simp [hu, ht], fun y hy1 hy2 => ?_⟩
      have := hlow y hy1 hy2
      simp only [Bool.and_eq_false_imp, beq_eq_false_iff_ne]
      intro hyu hyt
      exact this ⟨hyu, hyt⟩
    unfold c_tcp_get_opt_index
    rw [if_neg hr, h1]
  · intro hnone x h7 h15 hu hf hlow
    have h1 : generic_indexes.find? (fun opt_idx =>
        (opts_ctxt.list opt_idx).used && (opts_ctxt.list opt_idx).type == opt_type) = none := by
      rw [find_generic_none]
      intro y hy1 hy2
      have := hnone y hy1 hy2
      simp only [Bool.and_eq_false_imp, beq_eq_false_iff_ne]
      intro hyu hyt
      exact this ⟨hyu, hyt⟩
    have h2 : generic_indexes.find? (fun opt_idx =>
        !(opts_ctxt.list opt_idx).used && index_is_free indexes_in_use opt_idx) = some x := by
      rw [find_generic_some]
      refine ⟨h7, h15, by simp [hu, hf], fun y hy1 hy2 => ?_⟩
      have := hlow y hy1 hy2
      simp only [Bool.and_eq_false_imp, Bool.not_eq_true', Bool.not_eq_true]
      intro hyu
      by_contra hc
      exact this ⟨hyu, by simpa using hc⟩
    unfold c_tcp_get_opt_index
    rw [if_neg hr, h1]
    simp only []
    rw [h2]

/-- Witness of C27: in a context whose slot 9 is used by the kind 200, the kind 200
re-uses slot 9 although the slots 7 and 8 are free, and the kind 201 gets the free
slot 7. -/
theorem generic_kind_reuse_then_fresh_witness :
    c_tcp_get_opt_index slot9_ctxt 200 0 = (9, false) ∧
    c_tcp_get_opt_index slot9_ctxt 201 0 = (7, false) :=
  ⟨(generic_kind_reuse_then_fresh slot9_ctxt 200 0 (by unfold has_reserved_index; decide)).1 9
      (by decide) (by decide) (by decide) (by decide) (by decide),
    (generic_kind_reuse_then_fresh slot9_ctxt 201 0 (by unfold has_reserved_index; decide)).2
      (by decide) 7 (by decide) (by decide) (by decide) (by decide) (by decide)⟩

/-- C29: for the CO chain, `c_tcp_is_list_item_needed` is false when the kind is NOP
or SACK-Permitted, whatever `static_changed` and `nr_trans` are, and otherwise it
is true if and only if `static_changed` or `nr_trans = 0` or
`nr_trans < oa_repetitions_nr`. -/
theorem co_list_item_needed_iff (oa_repetitions_nr opt_type : Nat) (opt_static_changed : Bool)
    (opt_nr_trans : Nat) :
    (opt_type = TCP_OPT_NOP ∨ opt_type = TCP_OPT_SACK_PERM →
      c_tcp_is_list_item_needed oa_repetitions_nr ROHC_CHAIN_CO opt_type opt_static_changed
        opt_nr_trans = false) ∧
    (opt_type ≠ TCP_OPT_NOP → opt_type ≠ TCP_OPT_SACK_PERM →
      (c_tcp_is_list_item_needed oa_repetitions_nr ROHC_CHAIN_CO opt_type opt_static_changed
        opt_nr_trans = true ↔
      opt_static_changed = true ∨ opt_nr_trans = 0 ∨ opt_nr_trans < oa_repetitions_nr)) := by
  unfold c_tcp_is_list_item_needed
  constructor
  · intro h
    rw [if_pos ⟨rfl, h⟩]
  · intro h1 h2
    rw [if_neg (fun hc => hc.2.elim h1 h2)]
    split_ifs with a b c
    · simp [a]
    · simp [b]
    · simp [c]
    · simp only [Bool.false_eq_true, false_iff]
      rintro (h | h | h)
      · exact a h
      · exact b h
      · exact c h

/-! ## Irregular forms of the options -/

/-- C21: for every generic option (kind other than NOP, EOL, MSS, WS,
SACK-Permitted, SACK and TS) of 8-bit length `len ≥ 2` that the irregular chain
encoder processes (its flag `items_not_needed` is false) with enough room: if
`changes[idx].dyn_changed` or `dyn_trans_nr < oa_repetitions_nr`, the encoder
emits the byte 0x00 followed by the `len - 2` content bytes `opt[2..len)`, that is
`1 + (len - 2)` bytes in all; otherwise it emits the single byte 0xff. -/
theorem generic_irregular_forms (oa_repetitions_nr : Nat) (ext : ext_coders) (opts : List Nat)
    (ack_num : Nat) (opts_ctxt : c_tcp_opts_ctxt) (tmp : c_tcp_opts_ctxt_tmp)
    (items_not_needed : Nat → Bool) (st : irreg_state) (opt_pos : Nat) (d : tcp_opt_descr)
    (hflag : items_not_needed (tmp.position2index opt_pos) = false)
    (hkind : d.type ≠ TCP_OPT_NOP ∧ d.type ≠ TCP_OPT_EOL ∧ d.type ≠ TCP_OPT_MSS ∧
      d.type ≠ TCP_OPT_WS ∧ d.type ≠ TCP_OPT_SACK_PERM ∧ d.type ≠ TCP_OPT_SACK ∧
      d.type ≠ TCP_OPT_TS)
    (h2 : 2 ≤ d.length) (h255 : d.length ≤ 255) :
    (((tmp.changes (tmp.position2index opt_pos)).dyn_changed = true ∨
        (opts_ctxt.list (tmp.position2index opt_pos)).dyn_trans_nr < oa_repetitions_nr) →
      1 + (d.length - 2) ≤ st.rohc_remain_len →
      irreg_step oa_repetitions_nr ext opts ack_num opts_ctxt tmp items_not_needed st opt_pos d =
        some { written := st.written ++ [0x00] ++
                 (List.range (d.length - 2)).map (fun i => ptr opts d.data (2 + i)),
               rohc_remain_len := st.rohc_remain_len - (1 + (d.length - 2)),
               comp_opts_len := st.comp_opts_len + (1 + (d.length - 2)) }) ∧
    (¬ ((tmp.changes (tmp.position2index opt_pos)).dyn_changed = true ∨
        (opts_ctxt.list (tmp.position2index opt_pos)).dyn_trans_nr < oa_repetitions_nr) →
      1 ≤ st.rohc_remain_len →
      irreg_step oa_repetitions_nr ext opts ack_num opts_ctxt tmp items_not_needed st opt_pos d =
        some { written := st.written ++ [0xff],
               rohc_remain_len := st.rohc_remain_len - 1,
               comp_opts_len := st.comp_opts_len + 1 }) := by
  obtain ⟨k1, k2, k3, k4, k5, k6, k7⟩ := hkind
  have hl := len_minus_2_eq d.length h2 h255
  unfold irreg_step
  simp only [hflag, Bool.false_eq_true, if_false, k6, k7, hl]
  rw [if_pos ⟨k2, k1, k3, k4, k5⟩]
  constructor
  · intro hfull hroom
    have hf : ((tmp.changes (tmp.position2index opt_pos)).dyn_changed ||
        decide ((opts_ctxt.list (tmp.position2index opt_pos)).dyn_trans_nr <
          oa_repetitions_nr)) = true := by
      simpa using hfull
    simp only [hf, if_true]
    have hmod : (1 + (d.length - 2)) % SIZE_MAX1 = 1 + (d.length - 2) := by
      simp only [SIZE_MAX1]; omega
    rw [hmod, if_neg (by omega)]
    by_cases hc : d.length - 2 > 0
    · simp only [hc, if_true, List.length_map, List.length_range, Nat.sub_sub]
    · have h0 : d.length - 2 = 0 := by omega
      simp only [h0, gt_iff_lt, lt_self_iff_false, if_false, List.range_zero, List.map_nil,
        List.length_nil, List.append_nil, Nat.add_zero, Nat.sub_zero]
  · intro hfull hroom
    have hf : ((tmp.changes (tmp.position2index opt_pos)).dyn_changed ||
        decide ((opts_ctxt.list (tmp.position2index opt_pos)).dyn_trans_nr <
          oa_repetitions_nr)) = false := by
      simpa using hfull
    simp only [hf, Bool.false_eq_true, if_false]
    have hmod : (1 + 0) % SIZE_MAX1 = 1 := by norm_num [SIZE_MAX1]
    rw [hmod, if_neg (by omega)]
    simp

/-- Witness of C21: the generic option of kind 30 and content `aa bb`, at index 7,
with a dynamic change and 10 bytes of room: the encoder emits `00 aa bb`. -/
theorem generic_irregular_forms_witness :
    irreg_step 3 failing_coders one_generic.opts 0 fresh_ctxt tmp_index7 (fun _ => false)
      ⟨[], 10, 0⟩ 0 ⟨0, 30, 4⟩ = some ⟨[0x00, 0xaa, 0xbb], 7, 3⟩ :=
  (generic_irregular_forms 3 failing_coders one_generic.opts 0 fresh_ctxt tmp_index7
    (fun _ => false) ⟨[], 10, 0⟩ 0 ⟨0, 30, 4⟩ rfl (by decide) (by decide) (by decide)).1
    (Or.inl rfl) (by decide)

theorem irreg_step_nothing (oa_repetitions_nr : Nat) (ext : ext_coders) (opts : List Nat)
    (ack_num : Nat) (opts_ctxt : c_tcp_opts_ctxt) (tmp : c_tcp_opts_ctxt_tmp)
    (items_not_needed : Nat → Bool) (st : irreg_state) (opt_pos : Nat) (d : tcp_opt_descr)
    (hkind : d.type = TCP_OPT_NOP ∨ d.type = TCP_OPT_EOL ∨ d.type = TCP_OPT_MSS ∨
      d.type = TCP_OPT_WS ∨ d.type = TCP_OPT_SACK_PERM) :
    irreg_step oa_repetitions_nr ext opts ack_num opts_ctxt tmp items_not_needed st opt_pos d =
      some st := by
  have hts : d.type ≠ TCP_OPT_TS := by
    simp only [TCP_OPT_NOP, TCP_OPT_EOL, TCP_OPT_MSS, TCP_OPT_WS, TCP_OPT_SACK_PERM,
      TCP_OPT_TS] at hkind ⊢
    omega
  have hsack : d.type ≠ TCP_OPT_SACK := by
    simp only [TCP_OPT_NOP, TCP_OPT_EOL, TCP_OPT_MSS, TCP_OPT_WS, TCP_OPT_SACK_PERM,
      TCP_OPT_SACK] at hkind ⊢
    omega
  have hgen : ¬ (d.type ≠ TCP_OPT_EOL ∧ d.type ≠ TCP_OPT_NOP ∧ d.type ≠ TCP_OPT_MSS ∧
      d.type ≠ TCP_OPT_WS ∧ d.type ≠ TCP_OPT_SACK_PERM) := by
    simp only [TCP_OPT_NOP, TCP_OPT_EOL, TCP_OPT_MSS, TCP_OPT_WS, TCP_OPT_SACK_PERM] at hkind ⊢
    omega
  unfold irreg_step
  simp only []
  by_cases a : items_not_needed (tmp.position2index opt_pos) = true
  · rw [if_pos a]
  · rw [if_neg a, if_neg hts, if_neg hsack, if_neg hgen]

theorem irreg_loop_nothing (oa_repetitions_nr : Nat) (ext : ext_coders) (opts : List Nat)
    (ack_num : Nat) (opts_ctxt : c_tcp_opts_ctxt) (tmp : c_tcp_opts_ctxt_tmp)
    (items_not_needed : Nat → Bool) (st : irreg_state) :
    ∀ (ds : List tcp_opt_descr) (k : Nat),
    (∀ d ∈ ds, d.type = TCP_OPT_NOP ∨ d.type = TCP_OPT_EOL ∨ d.type = TCP_OPT_MSS ∨
      d.type = TCP_OPT_WS ∨ d.type = TCP_OPT_SACK_PERM) →
    irreg_loop oa_repetitions_nr ext opts ack_num opts_ctxt tmp items_not_needed
      (ds.enumFrom k) st = some st := by
  intro ds
  induction ds with
  | nil => intro k _; rfl
  | cons d ds ih =>
    intro k hds
    rw [List.enumFrom_cons, irreg_loop,
      irreg_step_nothing _ _ _ _ _ _ _ _ _ _ (hds d (List.mem_cons_self _ _))]
    exact ih (k + 1) (fun e he => hds e (List.mem_cons_of_mem _ he))

/-- C22: for every packet made only of NOP, EOL, MSS, WS and SACK-Permitted options,
every context, every temporary state, every flag array and every room, also none,
`c_tcp_code_tcp_opts_irreg` succeeds, returns 0 and writes no byte. -/
theorem irreg_nothing_for_static_kinds (oa_repetitions_nr : Nat) (ext : ext_coders)
    (h : rohc_tcp_opts) (ack_num : Nat) (opts_ctxt : c_tcp_opts_ctxt)
    (tmp : c_tcp_opts_ctxt_tmp) (items_not_needed : Nat → Bool) (comp_opts_max_len : Nat)
    (hkinds : ∀ d ∈ h.descrs, d.type = TCP_OPT_NOP ∨ d.type = TCP_OPT_EOL ∨
      d.type = TCP_OPT_MSS ∨ d.type = TCP_OPT_WS ∨ d.type = TCP_OPT_SACK_PERM) :
    c_tcp_code_tcp_opts_irreg oa_repetitions_nr ext h ack_num opts_ctxt tmp items_not_needed
      comp_opts_max_len = some (0, []) := by
  unfold c_tcp_code_tcp_opts_irreg
  have := irreg_loop_nothing oa_repetitions_nr ext h.opts ack_num opts_ctxt tmp items_not_needed
    ⟨[], comp_opts_max_len, 0⟩ h.descrs 0 hkinds
  rw [List.enum, this]
  rfl

/-- Witness of C22: the options `02 04 05 b4 01 03 03 07` (MSS, NOP, WS) with an
empty output buffer. -/
theorem irreg_nothing_for_static_kinds_witness :
    c_tcp_code_tcp_opts_irreg 3 failing_coders syn_opts 0 fresh_ctxt syn_tmp (fun _ => false)
      0 = some (0, []) :=
  irreg_nothing_for_static_kinds 3 failing_coders syn_opts 0 fresh_ctxt syn_tmp (fun _ => false)
    0 (by decide)

/-! ## History of one index in the detector -/

theorem detect_changes_fst (opt_idx : Nat) (opts_ctxt : c_tcp_opts_ctxt)
    (opt_ctxt : c_tcp_opt_ctxt) (tmp tmp' : c_tcp_opts_ctxt_tmp) (ack : Bool)
    (opt_data : Nat → Nat) (opt_len : Nat) :
    (c_tcp_opts_detect_changes opt_idx opts_ctxt opt_ctxt tmp ack opt_data opt_len).1 =
      (c_tcp_opts_detect_changes opt_idx opts_ctxt opt_ctxt tmp' ack opt_data opt_len).1 := by
  have hts : (c_tcp_detect_ts_changes opts_ctxt opt_ctxt tmp opt_data).1 =
      (c_tcp_detect_ts_changes opts_ctxt opt_ctxt tmp' opt_data).1 := by
    unfold c_tcp_detect_ts_changes
    dsimp only
    split_ifs <;> rfl
  unfold c_tcp_opts_detect_changes
  split_ifs
  all_goals first | exact hts | rfl

theorem change_none_of_not (c : rohc_change_t) (h1 : ¬ c = ROHC_CHANGE_STATIC)
    (h2 : ¬ c = ROHC_CHANGE_DYNAMIC) : c = ROHC_CHANGE_NONE := by
  cases c
  · rfl
  · exact absurd rfl h2
  · exact absurd rfl h1

theorem detect_step_changed_at (oa : Nat) (opts : List Nat) (opts_ctxt : c_tcp_opts_ctxt)
    (ack : Bool) (st : detect_state) (opt_pos : Nat) (d : tcp_opt_descr) :
    ((detect_step oa opts opts_ctxt ack st opt_pos d).tmp.changes
        (c_tcp_get_opt_index opts_ctxt d.type st.indexes_in_use).1).static_changed =
      ((st.tmp.changes (c_tcp_get_opt_index opts_ctxt d.type st.indexes_in_use).1).static_changed
        || decide (opt_change opts_ctxt ack opts
          (c_tcp_get_opt_index opts_ctxt d.type st.indexes_in_use).1 d = ROHC_CHANGE_STATIC)) ∧
    ((detect_step oa opts opts_ctxt ack st opt_pos d).tmp.changes
        (c_tcp_get_opt_index opts_ctxt d.type st.indexes_in_use).1).dyn_changed =
      ((st.tmp.changes (c_tcp_get_opt_index opts_ctxt d.type st.indexes_in_use).1).dyn_changed
        || decide (opt_change opts_ctxt ack opts
          (c_tcp_get_opt_index opts_ctxt d.type st.indexes_in_use).1 d ≠ ROHC_CHANGE_NONE)) := by
  have key : ∀ tmpx : c_tcp_opts_ctxt_tmp,
      (c_tcp_opts_detect_changes (c_tcp_get_opt_index opts_ctxt d.type st.indexes_in_use).1
        opts_ctxt (opts_ctxt.list (c_tcp_get_opt_index opts_ctxt d.type st.indexes_in_use).1)
        tmpx ack (ptr opts d.data) d.length).1 =
      opt_change opts_ctxt ack opts
        (c_tcp_get_opt_index opts_ctxt d.type st.indexes_in_use).1 d :=
    fun tmpx => detect_changes_fst _ _ _ _ _ _ _ _
  unfold detect_step
  simp only []
  constructor <;> split_ifs <;> simp only [key] at * <;>
    simp [upd, (detect_changes_fields _ _ _ _ _ _ _).1, *] <;>
    try (intro hn; exact absurd (change_none_of_not _ (by assumption) (by assumption)) hn)

theorem oldest_index_zero_or_generic (opts_ctxt : c_tcp_opts_ctxt) (m : Nat) :
    (oldest_index opts_ctxt m).1 = 0 ∨
      (7 ≤ (oldest_index opts_ctxt m).1 ∧ (oldest_index opts_ctxt m).1 ≤ 15) := by
  unfold oldest_index
  have key : ∀ (l : List Nat) (acc : Nat × Nat), (∀ i ∈ l, 7 ≤ i ∧ i ≤ 15) →
      (acc.1 = 0 ∨ (7 ≤ acc.1 ∧ acc.1 ≤ 15)) →
      ((l.foldl (fun (acc : Nat × Nat) opt_idx =>
        if index_is_free m opt_idx ∧ (opts_ctxt.list opt_idx).used = true ∧
            (opts_ctxt.list opt_idx).age > acc.2
        then (opt_idx, (opts_ctxt.list opt_idx).age) else acc) acc).1 = 0 ∨
       (7 ≤ (l.foldl (fun (acc : Nat × Nat) opt_idx =>
        if index_is_free m opt_idx ∧ (opts_ctxt.list opt_idx).used = true ∧
            (opts_ctxt.list opt_idx).age > acc.2
        then (opt_idx, (opts_ctxt.list opt_idx).age) else acc) acc).1 ∧
        (l.foldl (fun (acc : Nat × Nat) opt_idx =>
        if index_is_free m opt_idx ∧ (opts_ctxt.list opt_idx).used = true ∧
            (opts_ctxt.list opt_idx).age > acc.2
        then (opt_idx, (opts_ctxt.list opt_idx).age) else acc) acc).1 ≤ 15)) := by
    intro l
    induction l with
    | nil => intro acc _ h; exact h
    | cons a l ih =>
      intro acc hl hacc
      simp only [List.foldl_cons]
      apply ih
      · intro i hi; exact hl i (List.mem_cons_of_mem _ hi)
      · split_ifs
        · exact Or.inr (hl a (List.mem_cons_self _ _))
        · exact hacc
  exact key _ _ (fun i hi => (mem_generic_indexes i).mp hi) (Or.inl rfl)

theorem get_opt_index_of_kind (opts_ctxt : c_tcp_opts_ctxt) (t m : Nat) :
    (has_reserved_index t →
      (c_tcp_get_opt_index opts_ctxt t m).1 = (c_tcp_type2index t).toNat) ∧
    (¬ has_reserved_index t →
      (c_tcp_get_opt_index opts_ctxt t m).1 = 0 ∨
        (7 ≤ (c_tcp_get_opt_index opts_ctxt t m).1 ∧
          (c_tcp_get_opt_index opts_ctxt t m).1 ≤ 15)) := by
  constructor
  · intro hr
    have hr' : t < TCP_LIST_ITEM_MAP_LEN ∧ c_tcp_type2index t ≥ 0 := hr
    unfold c_tcp_get_opt_index
    rw [if_pos hr']
  · intro hr
    have hr' : ¬ (t < TCP_LIST_ITEM_MAP_LEN ∧ c_tcp_type2index t ≥ 0) := hr
    unfold c_tcp_get_opt_index
    rw [if_neg hr']
    cases h1 : generic_indexes.find?
        (fun opt_idx => (opts_ctxt.list opt_idx).used && (opts_ctxt.list opt_idx).type == t) with
    | some i =>
      exact Or.inr ((mem_generic_indexes i).mp (List.mem_of_find?_eq_some h1))
    | none =>
      cases h2 : generic_indexes.find?
          (fun opt_idx => !(opts_ctxt.list opt_idx).used && index_is_free m opt_idx) with
      | some i =>
        exact Or.inr ((mem_generic_indexes i).mp (List.mem_of_find?_eq_some h2))
      | none => exact oldest_index_zero_or_generic opts_ctxt m

theorem getElem?_append_last {α : Type} (l : List α) (a : α) (q : Nat) (e : α)
    (h : (l ++ [a])[q]? = some e) : (q < l.length ∧ l[q]? = some e) ∨ (q = l.length ∧ e = a) := by
  by_cases hq : q < l.length
  · left
    rw [List.getElem?_append_left hq] at h
    exact ⟨hq, h⟩
  · right
    have hlen : q < (l ++ [a]).length := by
      by_contra hc
      rw [List.getElem?_eq_none (by omega)] at h
      exact absurd h (by simp)
    simp only [List.length_append, List.length_singleton] at hlen
    have hq' : q = l.length := by omega
    subst hq'
    simp at h
    exact ⟨rfl, h.symm⟩

theorem detect_step_hist (oa : Nat) (opts : List Nat) (opts_ctxt : c_tcp_opts_ctxt) (ack : Bool)
    (seen : List tcp_opt_descr) (st : detect_state) (d : tcp_opt_descr)
    (hinv : hist_inv oa opts opts_ctxt ack seen st) :
    hist_inv oa opts opts_ctxt ack (seen ++ [d])
      (detect_step oa opts opts_ctxt ack st seen.length d) := by
  obtain ⟨i1, i2, i3, i4⟩ := hinv
  have hp2i := detect_step_position2index oa opts opts_ctxt ack st seen.length d
  have hch := detect_step_changed_at oa opts opts_ctxt ack st seen.length d
  have hnd := detect_step_needed oa opts opts_ctxt ack st seen.length d
  have hold : ∀ q e, seen[q]? = some e →
      (seen ++ [d])[q]? = some e ∧
      (detect_step oa opts opts_ctxt ack st seen.length d).tmp.position2index q =
        st.tmp.position2index q := by
    intro q e he
    have hq : q < seen.length := by
      by_contra hc
      rw [List.getElem?_eq_none (by omega)] at he
      exact absurd he (by simp)
    refine ⟨by rw [List.getElem?_append_left hq]; exact he, ?_⟩
    rw [hp2i, upd_ne _ _ _ _ (by omega)]
  have hnew : (seen ++ [d])[seen.length]? = some d ∧
      (detect_step oa opts opts_ctxt ack st seen.length d).tmp.position2index seen.length =
        (c_tcp_get_opt_index opts_ctxt d.type st.indexes_in_use).1 := by
    refine ⟨by simp, ?_⟩
    rw [hp2i, upd_eq]
  refine ⟨?_, ?_, ?_, ?_⟩
  · intro i hi
    by_cases hidx : i = (c_tcp_get_opt_index opts_ctxt d.type st.indexes_in_use).1
    · rw [hidx] at hi ⊢
      rw [hch.1] at hi
      simp only [Bool.or_eq_true, decide_eq_true_eq] at hi
      rcases hi with hi | hi
      · obtain ⟨q, e, he, hq, hc⟩ := i1 _ hi
        exact ⟨q, e, (hold q e he).1, by rw [(hold q e he).2]; exact hq, hc⟩
      · exact ⟨seen.length, d, hnew.1, hnew.2, hi⟩
    · rw [detect_step_changes_other _ _ _ _ _ _ _ _ hidx] at hi
      obtain ⟨q, e, he, hq, hc⟩ := i1 _ hi
      exact ⟨q, e, (hold q e he).1, by rw [(hold q e he).2]; exact hq, hc⟩
  · intro i hi
    by_cases hidx : i = (c_tcp_get_opt_index opts_ctxt d.type st.indexes_in_use).1
    · rw [hidx] at hi ⊢
      rw [hch.2] at hi
      simp only [Bool.or_eq_true, decide_eq_true_eq] at hi
      rcases hi with hi | hi
      · obtain ⟨q, e, he, hq, hc⟩ := i2 _ hi
        exact ⟨q, e, (hold q e he).1, by rw [(hold q e he).2]; exact hq, hc⟩
      · exact ⟨seen.length, d, hnew.1, hnew.2, hi⟩
    · rw [detect_step_changes_other _ _ _ _ _ _ _ _ hidx] at hi
      obtain ⟨q, e, he, hq, hc⟩ := i2 _ hi
      exact ⟨q, e, (hold q e he).1, by rw [(hold q e he).2]; exact hq, hc⟩
  · intro i hi
    rw [hnd] at hi
    by_cases hidx : i = (c_tcp_get_opt_index opts_ctxt d.type st.indexes_in_use).1
    · rw [hidx] at hi ⊢
      rw [upd_eq] at hi
      refine ⟨seen.length, d, hnew.1, hnew.2, ?_⟩
      unfold c_tcp_is_list_item_needed at hi
      split_ifs at hi with a b c e
      · exact ⟨fun h => a ⟨rfl, Or.inl h⟩, fun h => a ⟨rfl, Or.inr h⟩, Or.inl b⟩
      · exact ⟨fun h => a ⟨rfl, Or.inl h⟩, fun h => a ⟨rfl, Or.inr h⟩, Or.inr (Or.inl c)⟩
      · exact ⟨fun h => a ⟨rfl, Or.inl h⟩, fun h => a ⟨rfl, Or.inr h⟩, Or.inr (Or.inr e)⟩
    · rw [upd_ne _ _ _ _ hidx] at hi
      obtain ⟨q, e, he, hq, h1, h2, h3⟩ := i3 _ hi
      refine ⟨q, e, (hold q e he).1, by rw [(hold q e he).2]; exact hq, h1, h2, ?_⟩
      rw [detect_step_changes_other _ _ _ _ _ _ _ _ hidx]
      exact h3
  · intro q e he
    rcases getElem?_append_last seen d q e he with ⟨hq, he'⟩ | ⟨rfl, rfl⟩
    · rw [(hold q e he').2]
      exact i4 q e he'
    · rw [hnew.2]
      exact get_opt_index_of_kind opts_ctxt e.type st.indexes_in_use

theorem detect_loop_hist (oa : Nat) (opts : List Nat) (opts_ctxt : c_tcp_opts_ctxt) (ack : Bool) :
    ∀ (ds seen : List tcp_opt_descr) (st : detect_state),
    hist_inv oa opts opts_ctxt ack seen st →
    hist_inv oa opts opts_ctxt ack (seen ++ ds)
      (detect_loop oa opts opts_ctxt ack ds seen.length st) := by
  intro ds
  induction ds with
  | nil =>
    intro seen st hinv
    simpa [detect_loop] using hinv
  | cons d ds ih =>
    intro seen st hinv
    rw [detect_loop]
    have := ih (seen ++ [d]) _ (detect_step_hist oa opts opts_ctxt ack seen st d hinv)
    simpa using this

/-- What the detector recorded at each index when it returns. -/
theorem detect_final_hist (oa : Nat) (h : rohc_tcp_opts) (opts_ctxt : c_tcp_opts_ctxt)
    (tmp : c_tcp_opts_ctxt_tmp) (ack : Bool) :
    hist_inv oa h.opts opts_ctxt ack h.descrs
      ⟨tcp_detect_options_changes oa h opts_ctxt tmp ack, 0, false⟩ := by
  have hinit : hist_inv oa h.opts opts_ctxt ack [] (detect_init h opts_ctxt tmp) := by
    refine ⟨fun i hi => ?_, fun i hi => ?_, fun i hi => ?_, fun q d hd => ?_⟩
    · exact absurd hi (by simp [detect_init])
    · exact absurd hi (by simp [detect_init])
    · exact absurd hi (by simp [detect_init])
    · exact absurd hd (by simp)
  have hl := detect_loop_hist oa h.opts opts_ctxt ack h.descrs [] _ hinit
  simp only [List.nil_append, List.length_nil] at hl
  obtain ⟨f1, f2, f3, _⟩ := detect_final_fields oa h opts_ctxt tmp ack
  unfold hist_inv at hl ⊢
  simp only [f1, f2, f3]
  exact hl

/-! ## Options that did not change -/

theorem opt_change_sack (opts_ctxt : c_tcp_opts_ctxt) (ack : Bool) (opts : List Nat)
    (d : tcp_opt_descr) :
    opt_change opts_ctxt ack opts TCP_INDEX_SACK d =
      c_tcp_detect_sack_changes (opts_ctxt.list TCP_INDEX_SACK) ack (ptr opts d.data) d.length :=
  rfl

/-- An index for which the detector finds no change for any option of the packet
that has it: no change is recorded at the index, and no item is needed once the
item was sent often enough. -/
theorem stable_at_index (oa : Nat) (h : rohc_tcp_opts) (opts_ctxt : c_tcp_opts_ctxt)
    (tmp : c_tcp_opts_ctxt_tmp) (ack : Bool) (i : Nat)
    (hall : ∀ (q : Nat) e, h.descrs[q]? = some e →
      (tcp_detect_options_changes oa h opts_ctxt tmp ack).position2index q = i →
      opt_change opts_ctxt ack h.opts i e = ROHC_CHANGE_NONE) :
    ((tcp_detect_options_changes oa h opts_ctxt tmp ack).changes i).static_changed = false ∧
    ((tcp_detect_options_changes oa h opts_ctxt tmp ack).changes i).dyn_changed = false ∧
    (0 < oa → oa ≤ (opts_ctxt.list i).full_trans_nr →
      (tcp_detect_options_changes oa h opts_ctxt tmp ack).list_item_needed i = false) := by
  obtain ⟨i1, i2, i3, _⟩ := detect_final_hist oa h opts_ctxt tmp ack
  have hs : ((tcp_detect_options_changes oa h opts_ctxt tmp ack).changes i).static_changed =
      false := by
    by_contra hc
    obtain ⟨q, e, he, hq, hch⟩ := i1 i (by simpa using hc)
    rw [hall q e he hq] at hch
    exact absurd hch (by simp)
  refine ⟨hs, ?_, fun hoa hfull => ?_⟩
  · by_contra hc
    obtain ⟨q, e, he, hq, hch⟩ := i2 i (by simpa using hc)
    exact hch (hall q e he hq)
  · by_contra hc
    obtain ⟨q, e, he, hq, _, _, h3⟩ := i3 i (by simpa using hc)
    rcases h3 with h3 | h3 | h3
    · have h3' : ((tcp_detect_options_changes oa h opts_ctxt tmp ack).changes i).static_changed =
          true := h3
      rw [hs] at h3'
      exact absurd h3' (by simp)
    · omega
    · omega

theorem index_of_position (oa : Nat) (h : rohc_tcp_opts) (opts_ctxt : c_tcp_opts_ctxt)
    (tmp : c_tcp_opts_ctxt_tmp) (ack : Bool) (q : Nat) (e : tcp_opt_descr)
    (he : h.descrs[q]? = some e) :
    (has_reserved_index e.type →
      (tcp_detect_options_changes oa h opts_ctxt tmp ack).position2index q =
        (c_tcp_type2index e.type).toNat) ∧
    (¬ has_reserved_index e.type →
      (tcp_detect_options_changes oa h opts_ctxt tmp ack).position2index q = 0 ∨
        (7 ≤ (tcp_detect_options_changes oa h opts_ctxt tmp ack).position2index q ∧
          (tcp_detect_options_changes oa h opts_ctxt tmp ack).position2index q ≤ 15)) :=
  (detect_final_hist oa h opts_ctxt tmp ack).2.2.2 q e he

theorem index_of_position_kind (oa : Nat) (h : rohc_tcp_opts) (opts_ctxt : c_tcp_opts_ctxt)
    (tmp : c_tcp_opts_ctxt_tmp) (ack : Bool) (q : Nat) (e : tcp_opt_descr)
    (he : h.descrs[q]? = some e) (t : Nat) (ht : has_reserved_index t)
    (h0 : (c_tcp_type2index t).toNat ≠ 0) :
    (tcp_detect_options_changes oa h opts_ctxt tmp ack).position2index q =
      (c_tcp_type2index t).toNat ↔ e.type = t := by
  obtain ⟨a, b⟩ := index_of_position oa h opts_ctxt tmp ack q e he
  constructor
  · intro hq
    by_cases hr : has_reserved_index e.type
    · exact reserved_index_inj _ _ hr ht ((a hr).symm.trans hq)
    · have := b hr
      have hlt := reserved_index_lt t ht
      omega
  · intro hk
    rw [← hk]
    exact a (by rw [hk]; exact ht)

theorem accepted_kind_once {opts : List Nat} {data_offset : Nat} {h : rohc_tcp_opts}
    (hlo : 5 ≤ data_offset) (hhi : data_offset ≤ 15)
    (hacc : rohc_comp_tcp_are_options_acceptable opts data_offset = some h)
    (p q : Nat) (d e : tcp_opt_descr) (hp : h.descrs[p]? = some d) (hq : h.descrs[q]? = some e)
    (hk : d.type = e.type) (hnop : d.type ≠ TCP_OPT_NOP) : p = q := by
  by_contra hpq
  obtain ⟨hpl, _, _⟩ := acceptable_some hacc
  rw [opts_len_of_eq data_offset hlo hhi] at hpl
  obtain ⟨_, _, _, i6⟩ :=
    parse_loop_inv opts (data_offset * 4 - 20) (by omega) _ _ _ _ _ hpl
  obtain ⟨_, i5⟩ := parse_loop_counts opts (data_offset * 4 - 20) _ _ _ _ _ hpl
  have hpl' : p < h.descrs.length := by
    by_contra hc
    rw [List.getElem?_eq_none (by omega)] at hp
    exact absurd hp (by simp)
  have hql' : q < h.descrs.length := by
    by_contra hc
    rw [List.getElem?_eq_none (by omega)] at hq
    exact absurd hq (by simp)
  have gp : (h.descrs.map (·.type)).getD p 0 = d.type := by
    simp [List.getD_eq_getElem?_getD, List.getElem?_map, hp]
  have gq : (h.descrs.map (·.type)).getD q 0 = d.type := by
    simp [List.getD_eq_getElem?_getD, List.getElem?_map, hq, hk]
  have hlen : (h.descrs.map (·.type)).length = h.descrs.length := by simp
  have hcount : 2 ≤ (h.descrs.map (·.type)).count d.type := by
    rcases Nat.lt_or_gt_of_ne hpq with hlt | hgt
    · exact two_le_count _ p q _ hlt (by omega) gp gq
    · exact two_le_count _ q p _ hgt (by omega) gq gp
  by_cases h0 : d.type = 0
  · rw [h0] at hcount
    omega
  · have := i5 _ h0 hnop
    simp only [zero_add] at this
    omega

theorem irreg_step_sack (oa_repetitions_nr : Nat) (ext : ext_coders) (opts : List Nat)
    (ack_num : Nat) (opts_ctxt : c_tcp_opts_ctxt) (tmp : c_tcp_opts_ctxt_tmp)
    (items_not_needed : Nat → Bool) (st : irreg_state) (opt_pos : Nat) (d : tcp_opt_descr)
    (hflag : items_not_needed (tmp.position2index opt_pos) = false)
    (hkind : d.type = TCP_OPT_SACK) :
    irreg_step oa_repetitions_nr ext opts ack_num opts_ctxt tmp items_not_needed st opt_pos d =
      (ext.c_tcp_opt_sack_code ack_num (fun i => ptr opts d.data (2 + i)) (len_minus_2 d.length)
        (!((tmp.changes (tmp.position2index opt_pos)).dyn_changed ||
          decide ((opts_ctxt.list (tmp.position2index opt_pos)).dyn_trans_nr <
            oa_repetitions_nr)))
        st.rohc_remain_len).map
        (fun sack => { written := st.written ++ sack,
                       rohc_remain_len := size_t_sub st.rohc_remain_len sack.length,
                       comp_opts_len := st.comp_opts_len + sack.length }) := by
  unfold irreg_step
  simp only [hflag, Bool.false_eq_true, if_false, hkind]
  rw [if_pos trivial]
  cases ext.c_tcp_opt_sack_code ack_num (fun i => ptr opts d.data (2 + i))
      (len_minus_2 d.length)
      (!((tmp.changes (tmp.position2index opt_pos)).dyn_changed ||
        decide ((opts_ctxt.list (tmp.position2index opt_pos)).dyn_trans_nr <
          oa_repetitions_nr)))
      st.rohc_remain_len <;> rfl

/-- C24: stable SACK scenario: for a SACK option of an accepted packet whose slot
(index 6) is used, with `tcp_ack_num_changed` false, the same length and content as
stored in the slot, and `full_trans_nr` and `dyn_trans_nr` that have reached
`oa_repetitions_nr ≥ 1`: the detector of SACK reports no change, the option has
index 6, no change is recorded and `list_item_needed[6]` is false; and the
irregular chain encoder, when it processes the option, calls the SACK coder with
the host-order ack number, the blocks at `opt + 2`, `len - 2` as their length and
`is_unchanged = true`, where in general
`is_unchanged = !(dyn_changed || dyn_trans_nr < oa_repetitions_nr)`. -/
theorem stable_sack_unchanged (oa : Nat) (opts : List Nat) (data_offset : Nat)
    (h : rohc_tcp_opts) (opts_ctxt : c_tcp_opts_ctxt) (tmp : c_tcp_opts_ctxt_tmp) (p : Nat)
    (d : tcp_opt_descr)
    (hlo : 5 ≤ data_offset) (hhi : data_offset ≤ 15)
    (hacc : rohc_comp_tcp_are_options_acceptable opts data_offset = some h)
    (hoa : 0 < oa) (hd : h.descrs[p]? = some d) (hkind : d.type = TCP_OPT_SACK)
    (hused : (opts_ctxt.list TCP_INDEX_SACK).used = true)
    (hlen : (opts_ctxt.list TCP_INDEX_SACK).data_len = d.length)
    (hcontent : memcmp_ne (payload_ptr (opts_ctxt.list TCP_INDEX_SACK))
      (fun i => ptr h.opts d.data (2 + i)) (len_minus_2 d.length) = false)
    (hfull : oa ≤ (opts_ctxt.list TCP_INDEX_SACK).full_trans_nr)
    (hdyn : oa ≤ (opts_ctxt.list TCP_INDEX_SACK).dyn_trans_nr) :
    c_tcp_detect_sack_changes (opts_ctxt.list TCP_INDEX_SACK) false (ptr h.opts d.data)
      d.length = ROHC_CHANGE_NONE ∧
    (tcp_detect_options_changes oa h opts_ctxt tmp false).position2index p = TCP_INDEX_SACK ∧
    ((tcp_detect_options_changes oa h opts_ctxt tmp false).changes
      TCP_INDEX_SACK).static_changed = false ∧
    ((tcp_detect_options_changes oa h opts_ctxt tmp false).changes
      TCP_INDEX_SACK).dyn_changed = false ∧
    (tcp_detect_options_changes oa h opts_ctxt tmp false).list_item_needed TCP_INDEX_SACK =
      false ∧
    (∀ (ext : ext_coders) (ack_num : Nat) (items_not_needed : Nat → Bool) (st : irreg_state),
      items_not_needed TCP_INDEX_SACK = false →
      irreg_step oa ext h.opts ack_num opts_ctxt
        (tcp_detect_options_changes oa h opts_ctxt tmp false) items_not_needed st p d =
      (ext.c_tcp_opt_sack_code ack_num (fun i => ptr h.opts d.data (2 + i)) (d.length - 2) true
        st.rohc_remain_len).map
        (fun sack => { written := st.written ++ sack,
                       rohc_remain_len := size_t_sub st.rohc_remain_len sack.length,
                       comp_opts_len := st.comp_opts_len + sack.length })) ∧
    (∀ (tmp' : c_tcp_opts_ctxt_tmp) (ext : ext_coders) (ack_num : Nat)
      (items_not_needed : Nat → Bool) (st : irreg_state),
      items_not_needed (tmp'.position2index p) = false →
      irreg_step oa ext h.opts ack_num opts_ctxt tmp' items_not_needed st p d =
      (ext.c_tcp_opt_sack_code ack_num (fun i => ptr h.opts d.data (2 + i)) (d.length - 2)
        (!((tmp'.changes (tmp'.position2index p)).dyn_changed ||
          decide ((opts_ctxt.list (tmp'.position2index p)).dyn_trans_nr < oa)))
        st.rohc_remain_len).map
        (fun sack => { written := st.written ++ sack,
                       rohc_remain_len := size_t_sub st.rohc_remain_len sack.length,
                       comp_opts_len := st.comp_opts_len + sack.length })) := by
  have hmem : d ∈ h.descrs := List.getElem?_mem hd
  have hk0 : d.type ≠ TCP_OPT_EOL := by rw [hkind]; decide
  have hk1 : d.type ≠ TCP_OPT_NOP := by rw [hkind]; decide
  obtain ⟨hl2, hl255⟩ := accepted_generic_len hacc d hmem
  have hlm := len_minus_2_eq d.length (hl2 hk0 hk1) hl255
  have hres : has_reserved_index TCP_OPT_SACK := by unfold has_reserved_index; decide
  have hidx := index_of_position_kind oa h opts_ctxt tmp false
  have hp6 : (tcp_detect_options_changes oa h opts_ctxt tmp false).position2index p =
      TCP_INDEX_SACK := (hidx p d hd TCP_OPT_SACK hres (by decide)).mpr hkind
  have hnone : c_tcp_detect_sack_changes (opts_ctxt.list TCP_INDEX_SACK) false
      (ptr h.opts d.data) d.length = ROHC_CHANGE_NONE := by
    unfold c_tcp_detect_sack_changes
    simp [hused, hlen, hcontent]
  have hall : ∀ (q : Nat) e, h.descrs[q]? = some e →
      (tcp_detect_options_changes oa h opts_ctxt tmp false).position2index q =
        TCP_INDEX_SACK →
      opt_change opts_ctxt false h.opts TCP_INDEX_SACK e = ROHC_CHANGE_NONE := by
    intro q e he hq
    have hke : e.type = TCP_OPT_SACK := (hidx q e he TCP_OPT_SACK hres (by decide)).mp hq
    have hpq := accepted_kind_once hlo hhi hacc p q d e hd he (by rw [hkind, hke]) hk1
    subst hpq
    rw [hd] at he
    simp only [Option.some.injEq] at he
    subst he
    rw [opt_change_sack]
    exact hnone
  obtain ⟨s1, s2, s3⟩ := stable_at_index oa h opts_ctxt tmp false _ hall
  refine ⟨hnone, hp6, s1, s2, s3 hoa hfull, fun ext ack_num inn st hflag => ?_,
    fun tmp' ext ack_num inn st hflag => ?_⟩
  · rw [irreg_step_sack _ _ _ _ _ _ _ _ _ _ (by rw [hp6]; exact hflag) hkind, hp6, s2, hlm]
    have hdt : decide ((opts_ctxt.list TCP_INDEX_SACK).dyn_trans_nr < oa) = false := by
      simp only [decide_eq_false_iff_not]
      omega
    rw [hdt]
    rfl
  · rw [irreg_step_sack _ _ _ _ _ _ _ _ _ _ hflag hkind, hlm]

/-- Witness of C24: the accepted block `05 0a 00 00 03 e8 00 00 07 d0 01 01`, a SACK
option of one block and two NOP, on a context whose slot 6 holds this option, sent
3 times: the item of index 6 is not needed. -/
theorem stable_sack_unchanged_witness :
    (tcp_detect_options_changes 3 sack_opts sack_ctxt zero_tmp false).position2index 0 = 6 ∧
    (tcp_detect_options_changes 3 sack_opts sack_ctxt zero_tmp false).list_item_needed 6 =
      false :=
  have hw := stable_sack_unchanged 3 [5, 10, 0, 0, 3, 0xe8, 0, 0, 7, 0xd0, 1, 1] 8 sack_opts
    sack_ctxt zero_tmp 0 ⟨0, 5, 10⟩ (by decide) (by decide) (by decide) (by decide) rfl rfl
    (by decide) (by decide) (by decide) (by decide) (by decide)
  ⟨hw.2.1, hw.2.2.2.2.1⟩

/-- The same option when its index is shared: in the accepted block
`c8 02 64 04 aa bb 01 01` on a context whose slots 7..15 are used, slot 7, the
oldest, holding the kind 100 with the content `aa bb` sent 3 times, the option of
kind 200 recycles slot 7 and the option of kind 100 re-uses it; the detector finds
no change for the option of kind 100, but the static change recorded at index 7
for the option of kind 200 makes its item needed. -/
theorem stable_option_after_recycle_needs_item :
    (rohc_comp_tcp_are_options_acceptable [200, 2, 100, 4, 0xaa, 0xbb, 1, 1] 7).map (fun h =>
      let t := tcp_detect_options_changes 3 h recycle_ctxt zero_tmp false
      ((List.range 4).map t.position2index,
        opt_change recycle_ctxt false h.opts 7 ⟨2, 100, 4⟩,
        t.changes 7, t.list_item_needed 7)) =
    some ([7, 7, 0, 0], ROHC_CHANGE_NONE, ⟨true, true, true, true⟩, true) := by
  decide

/-! ## Recycling of the oldest index -/

theorem oldest_fold (opts_ctxt : c_tcp_opts_ctxt) (m : Nat) : ∀ (n a : Nat) (acc : Nat × Nat),
    7 ≤ a → oldest_inv opts_ctxt m a acc →
    oldest_inv opts_ctxt m (a + n)
      ((List.range' a n).foldl (fun (acc : Nat × Nat) opt_idx =>
        if index_is_free m opt_idx ∧ (opts_ctxt.list opt_idx).used = true ∧
            (opts_ctxt.list opt_idx).age > acc.2
        then (opt_idx, (opts_ctxt.list opt_idx).age) else acc) acc) := by
  intro n
  induction n with
  | zero => intro a acc _ h; simpa using h
  | succ n ih =>
    intro a acc ha hinv
    rw [List.range'_succ, List.foldl_cons, show a + (n + 1) = a + 1 + n by omega]
    apply ih (a + 1) _ (by omega)
    obtain ⟨h1, h2⟩ := hinv
    by_cases hc : index_is_free m a ∧ (opts_ctxt.list a).used = true ∧
        (opts_ctxt.list a).age > acc.2
    · rw [if_pos hc]
      refine ⟨fun j hj1 hj2 hf hu => ?_, Or.inr ⟨by show 0 < (opts_ctxt.list a).age; omega,
        ha, by show a < a + 1; omega, hc.1, hc.2.1, rfl, fun j hj1 hj2 hf hu => ?_⟩⟩
      · show (opts_ctxt.list j).age ≤ (opts_ctxt.list a).age
        by_cases hja : j = a
        · rw [hja]
        · have := h1 j hj1 (by omega) hf hu
          omega
      · show (opts_ctxt.list j).age < (opts_ctxt.list a).age
        have := h1 j hj1 hj2 hf hu
        omega
    · rw [if_neg hc]
      refine ⟨fun j hj1 hj2 hf hu => ?_, ?_⟩
      · by_cases hja : j = a
        · subst hja
          by_contra hgt
          exact hc ⟨hf, hu, by omega⟩
        · exact h1 j hj1 (by omega) hf hu
      · rcases h2 with h2 | ⟨a1, a2, a3, a4, a5, a6, a7⟩
        · exact Or.inl h2
        · exact Or.inr ⟨a1, a2, by omega, a4, a5, a6, a7⟩

/-- The index that the third loop of `c_tcp_get_opt_index` finds: 0 when no used
slot outside the mask has a positive age, and otherwise the lowest index among
the used slots outside the mask that have the largest age. -/
theorem oldest_index_inv (opts_ctxt : c_tcp_opts_ctxt) (m : Nat) :
    oldest_inv opts_ctxt m 16 (oldest_index opts_ctxt m) := by
  unfold oldest_index generic_indexes
  exact oldest_fold opts_ctxt m 9 7 (0, 0) le_rfl
    ⟨fun j h1 h2 _ _ => by omega, Or.inl rfl⟩

/-- What `c_tcp_get_opt_index` does when it recycles, for a kind without reserved
index that no slot holds, when no slot of 7..15 is both unused and outside the
mask: if the slot `x` is the lowest one among the used slots outside the mask that
have the largest age, and this age is positive, the function returns `x` with
`recycled = true`; if no used slot outside the mask has a positive age, it
returns the index 0. -/
theorem recycle_oldest (opts_ctxt : c_tcp_opts_ctxt) (opt_type indexes_in_use : Nat)
    (hgen : ¬ has_reserved_index opt_type)
    (hnone : ∀ y, 7 ≤ y → y ≤ 15 →
      ¬ ((opts_ctxt.list y).used = true ∧ (opts_ctxt.list y).type = opt_type))
    (hnofree : ∀ y, 7 ≤ y → y ≤ 15 →
      ¬ ((opts_ctxt.list y).used = false ∧ index_is_free indexes_in_use y = true)) :
    (∀ x, 7 ≤ x → x ≤ 15 → index_is_free indexes_in_use x = true →
      (opts_ctxt.list x).used = true → 0 < (opts_ctxt.list x).age →
      (∀ j, 7 ≤ j → j ≤ 15 → index_is_free indexes_in_use j = true →
        (opts_ctxt.list j).used = true → (opts_ctxt.list j).age ≤ (opts_ctxt.list x).age) →
      (∀ j, 7 ≤ j → j < x → index_is_free indexes_in_use j = true →
        (opts_ctxt.list j).used = true → (opts_ctxt.list j).age < (opts_ctxt.list x).age) →
      c_tcp_get_opt_index opts_ctxt opt_type indexes_in_use = (x, true)) ∧
    ((∀ j, 7 ≤ j → j ≤ 15 → index_is_free indexes_in_use j = true →
        (opts_ctxt.list j).used = true → (opts_ctxt.list j).age = 0) →
      c_tcp_get_opt_index opts_ctxt opt_type indexes_in_use = (0, true)) := by
  have hr : ¬ (opt_type < TCP_LIST_ITEM_MAP_LEN ∧ c_tcp_type2index opt_type ≥ 0) := hgen
  have h1 : generic_indexes.find? (fun opt_idx =>
      (opts_ctxt.list opt_idx).used && (opts_ctxt.list opt_idx).type == opt_type) = none := by
    rw [find_generic_none]
    intro y hy1 hy2
    have := hnone y hy1 hy2
    simp only [Bool.and_eq_false_imp, beq_eq_false_iff_ne]
    intro hyu hyt
    exact this ⟨hyu, hyt⟩
  have h2 : generic_indexes.find? (fun opt_idx =>
      !(opts_ctxt.list opt_idx).used && index_is_free indexes_in_use opt_idx) = none := by
    rw [find_generic_none]
    intro y hy1 hy2
    have := hnofree y hy1 hy2
    simp only [Bool.and_eq_false_imp, Bool.not_eq_true', Bool.not_eq_true]
    intro hyu
    by_contra hc
    exact this ⟨hyu, by simpa using hc⟩
  have hget : c_tcp_get_opt_index opts_ctxt opt_type indexes_in_use =
      ((oldest_index opts_ctxt indexes_in_use).1, true) := by
    unfold c_tcp_get_opt_index
    rw [if_neg hr, h1]
    simp only []
    rw [h2]
  obtain ⟨o1, o2⟩ := oldest_index_inv opts_ctxt indexes_in_use
  rw [hget]
  constructor
  · intro x hx7 hx15 hxf hxu hxa hmax hlow
    have hge := o1 x hx7 (by omega) hxf hxu
    rcases o2 with o2 | ⟨a1, a2, a3, a4, a5, a6, a7⟩
    · rw [o2] at hge
      simp only [] at hge
      omega
    · have hle := hmax _ a2 (by omega) a4 a5
      have heq : (oldest_index opts_ctxt indexes_in_use).1 = x := by
        by_contra hne
        rcases Nat.lt_or_gt_of_ne hne with hlt | hgt
        · have := hlow _ a2 hlt a4 a5
          omega
        · have := a7 x hx7 hgt hxf hxu
          omega
      rw [heq]
  · intro hzero
    rcases o2 with o2 | ⟨a1, a2, a3, a4, a5, a6, a7⟩
    · rw [o2]
    · have := hzero _ a2 (by omega) a4 a5
      omega

/-- C28 (code evaluated at the failing input): the kind 200, which has no reserved
index, on a context whose slots 7..15 are all used, by other kinds, and all of age
0, with an empty mask: every slot of 7..15 is used and outside the mask, the
largest age is 0 and slot 7 is the lowest slot of this age, but the function
returns the index 0, with `recycled = true`. -/
theorem recycling_at_age_0_gives_index_0 :
    generic_indexes.all (fun i => (aged0_ctxt.list i).used && (aged0_ctxt.list i).type != 200 &&
      index_is_free 0 i && (aged0_ctxt.list i).age == 0) = true ∧
    c_tcp_get_opt_index aged0_ctxt 200 0 = (0, true) := by
  decide

/-- C25 (code evaluated at the failing input): on a context whose slots 7..15 are
used by the kinds 100..108, with the mask 0x80 that has bit 7 set and leaves the
indexes 8..15 unset, the kind 100 re-uses slot 7, whose bit is set in the mask;
and in the accepted block `c8 02 64 02`, of the kinds 200 and 100, the kind 200
recycles slot 7, the oldest one, and the kind 100 then re-uses it: both options get
index 7. With the mask 0x01 on a context whose slots 7..15 are used with age 0,
the kind 200 gets index 0, whose bit is set in the mask. -/
theorem reused_slot_is_set_in_mask :
    c_tcp_get_opt_index recycle_ctxt 100 0x80 = (7, false) ∧
    index_is_free 0x80 7 = false ∧
    (List.range' 8 8).all (index_is_free 0x80) = true ∧
    (rohc_comp_tcp_are_options_acceptable [200, 2, 100, 2] 6).map (fun h =>
      (h.types,
        (List.range 2).map
          (tcp_detect_options_changes 3 h recycle_ctxt zero_tmp false).position2index)) =
      some ([200, 100], [7, 7]) ∧
    c_tcp_get_opt_index aged0_ctxt 200 0x01 = (0, true) ∧
    index_is_free 0x01 0 = false := by
  decide

/-! ## The change detectors of the option kinds -/

theorem ts_one_least (wlsb : Nat → Nat → Bool) (ts : Nat) :
    (tcp_opt_ts_one_can_be_encoded wlsb ts = 0 ∧
        ∀ k, 1 ≤ k → k ≤ 4 → wlsb ts k = false) ∨
      (1 ≤ tcp_opt_ts_one_can_be_encoded wlsb ts ∧ tcp_opt_ts_one_can_be_encoded wlsb ts ≤ 4 ∧
        wlsb ts (tcp_opt_ts_one_can_be_encoded wlsb ts) = true ∧
        ∀ j, 1 ≤ j → j < tcp_opt_ts_one_can_be_encoded wlsb ts → wlsb ts j = false) := by
  unfold tcp_opt_ts_one_can_be_encoded
  by_cases h1 : wlsb ts 1 = true
  · right
    rw [if_pos h1]
    exact ⟨le_refl _, by omega, h1, fun j hj1 hj2 => by omega⟩
  by_cases h2 : wlsb ts 2 = true
  · right
    rw [if_neg h1, if_pos h2]
    refine ⟨by omega, by omega, h2, fun j hj1 hj2 => ?_⟩
    have hj : j = 1 := by omega
    subst hj
    simpa using h1
  by_cases h3 : wlsb ts 3 = true
  · right
    rw [if_neg h1, if_neg h2, if_pos h3]
    refine ⟨by omega, by omega, h3, fun j hj1 hj2 => ?_⟩
    have hj : j = 1 ∨ j = 2 := by omega
    rcases hj with rfl | rfl
    · simpa using h1
    · simpa using h2
  by_cases h4 : wlsb ts 4 = true
  · right
    rw [if_neg h1, if_neg h2, if_neg h3, if_pos h4]
    refine ⟨by omega, by omega, h4, fun j hj1 hj2 => ?_⟩
    have hj : j = 1 ∨ j = 2 ∨ j = 3 := by omega
    rcases hj with rfl | rfl | rfl
    · simpa using h1
    · simpa using h2
    · simpa using h3
  · left
    rw [if_neg h1, if_neg h2, if_neg h3, if_neg h4]
    refine ⟨rfl, fun k hk1 hk4 => ?_⟩
    have hk : k = 1 ∨ k = 2 ∨ k = 3 ∨ k = 4 := by omega
    rcases hk with rfl | rfl | rfl | rfl
    · simpa using h1
    · simpa using h2
    · simpa using h3
    · simpa using h4

/-- C31: for every TS option and every W-LSB oracle, `c_tcp_detect_ts_changes` sets
`ts_req` and `ts_reply` to the big-endian 32-bit values of `opt[2..6)` and of
`opt[6..10)`, sets `ts_req_bytes_nr` (resp. `ts_reply_bytes_nr`) to the least `k`
in 1..4 for which the oracle accepts the value with the `k`-byte parameters, or to
0 if there is none, and returns Static if the slot is unused, else Static if either
byte count is 0, else Dynamic. -/
theorem ts_changes_fields_and_class (opts_ctxt : c_tcp_opts_ctxt) (opt_ctxt : c_tcp_opt_ctxt)
    (tmp : c_tcp_opts_ctxt_tmp) (opt_data : Nat → Nat) :
    (c_tcp_detect_ts_changes opts_ctxt opt_ctxt tmp opt_data).2.ts_req =
      opt_data 2 * 2 ^ 24 + opt_data 3 * 2 ^ 16 + opt_data 4 * 2 ^ 8 + opt_data 5 ∧
    (c_tcp_detect_ts_changes opts_ctxt opt_ctxt tmp opt_data).2.ts_reply =
      opt_data 6 * 2 ^ 24 + opt_data 7 * 2 ^ 16 + opt_data 8 * 2 ^ 8 + opt_data 9 ∧
    ((c_tcp_detect_ts_changes opts_ctxt opt_ctxt tmp opt_data).2.ts_req_bytes_nr = 0 ∧
        (∀ k, 1 ≤ k → k ≤ 4 → opts_ctxt.ts_req_wlsb
          (c_tcp_detect_ts_changes opts_ctxt opt_ctxt tmp opt_data).2.ts_req k = false) ∨
      1 ≤ (c_tcp_detect_ts_changes opts_ctxt opt_ctxt tmp opt_data).2.ts_req_bytes_nr ∧
        (c_tcp_detect_ts_changes opts_ctxt opt_ctxt tmp opt_data).2.ts_req_bytes_nr ≤ 4 ∧
        opts_ctxt.ts_req_wlsb (c_tcp_detect_ts_changes opts_ctxt opt_ctxt tmp opt_data).2.ts_req
          (c_tcp_detect_ts_changes opts_ctxt opt_ctxt tmp opt_data).2.ts_req_bytes_nr = true ∧
        ∀ j, 1 ≤ j →
          j < (c_tcp_detect_ts_changes opts_ctxt opt_ctxt tmp opt_data).2.ts_req_bytes_nr →
          opts_ctxt.ts_req_wlsb
            (c_tcp_detect_ts_changes opts_ctxt opt_ctxt tmp opt_data).2.ts_req j = false) ∧
    ((c_tcp_detect_ts_changes opts_ctxt opt_ctxt tmp opt_data).2.ts_reply_bytes_nr = 0 ∧
        (∀ k, 1 ≤ k → k ≤ 4 → opts_ctxt.ts_reply_wlsb
          (c_tcp_detect_ts_changes opts_ctxt opt_ctxt tmp opt_data).2.ts_reply k = false) ∨
      1 ≤ (c_tcp_detect_ts_changes opts_ctxt opt_ctxt tmp opt_data).2.ts_reply_bytes_nr ∧
        (c_tcp_detect_ts_changes opts_ctxt opt_ctxt tmp opt_data).2.ts_reply_bytes_nr ≤ 4 ∧
        opts_ctxt.ts_reply_wlsb
          (c_tcp_detect_ts_changes opts_ctxt opt_ctxt tmp opt_data).2.ts_reply
          (c_tcp_detect_ts_changes opts_ctxt opt_ctxt tmp opt_data).2.ts_reply_bytes_nr = true ∧
        ∀ j, 1 ≤ j →
          j < (c_tcp_detect_ts_changes opts_ctxt opt_ctxt tmp opt_data).2.ts_reply_bytes_nr →
          opts_ctxt.ts_reply_wlsb
            (c_tcp_detect_ts_changes opts_ctxt opt_ctxt tmp opt_data).2.ts_reply j = false) ∧
    (c_tcp_detect_ts_changes opts_ctxt opt_ctxt tmp opt_data).1 =
      (if opt_ctxt.used = false then ROHC_CHANGE_STATIC
       else if (c_tcp_detect_ts_changes opts_ctxt opt_ctxt tmp opt_data).2.ts_req_bytes_nr = 0 ∨
          (c_tcp_detect_ts_changes opts_ctxt opt_ctxt tmp opt_data).2.ts_reply_bytes_nr = 0
        then ROHC_CHANGE_STATIC
       else ROHC_CHANGE_DYNAMIC) := by
  have hf : (c_tcp_detect_ts_changes opts_ctxt opt_ctxt tmp opt_data).2 =
      { tmp with
        ts_req := rohc_ntoh32_at (fun i => opt_data (2 + i)),
        ts_req_bytes_nr := tcp_opt_ts_one_can_be_encoded opts_ctxt.ts_req_wlsb
          (rohc_ntoh32_at (fun i => opt_data (2 + i))),
        ts_reply := rohc_ntoh32_at (fun i => opt_data (6 + i)),
        ts_reply_bytes_nr := tcp_opt_ts_one_can_be_encoded opts_ctxt.ts_reply_wlsb
          (rohc_ntoh32_at (fun i => opt_data (6 + i))) } := by
    unfold c_tcp_detect_ts_changes
    dsimp only
    split_ifs <;> rfl
  refine ⟨?_, ?_, ?_, ?_, ?_⟩
  · rw [hf]; rfl
  · rw [hf]; rfl
  · rw [hf]
    exact ts_one_least opts_ctxt.ts_req_wlsb _
  · rw [hf]
    exact ts_one_least opts_ctxt.ts_reply_wlsb _
  · rw [hf]
    unfold c_tcp_detect_ts_changes
    dsimp only
    cases hu : opt_ctxt.used <;> simp
    split_ifs <;> rfl

/-- C32: for every MSS or WS option, and every EOL option of at least 2 bytes,
`c_tcp_detect_static_opt_changes` returns Static if the slot is unused; else Static
if the option length differs from the `data_len` of the slot or the bytes of the
option after its 2-byte prefix differ from the payload of the slot; else None. It
never returns Dynamic. -/
theorem static_opt_changes_class (opt_ctxt : c_tcp_opt_ctxt) (opt_data : Nat → Nat)
    (opt_len : Nat) (h2 : 2 ≤ opt_len) (h255 : opt_len ≤ 255) :
    c_tcp_detect_static_opt_changes opt_ctxt opt_data opt_len =
      (if opt_ctxt.used = false then ROHC_CHANGE_STATIC
       else if opt_len ≠ opt_ctxt.data_len ∨
          (∃ i, i < opt_len - 2 ∧ opt_ctxt.payload.getD i 0 ≠ opt_data (2 + i))
        then ROHC_CHANGE_STATIC
       else ROHC_CHANGE_NONE) ∧
    c_tcp_detect_static_opt_changes opt_ctxt opt_data opt_len ≠ ROHC_CHANGE_DYNAMIC := by
  have hm : memcmp_ne (payload_ptr opt_ctxt) (fun i => opt_data (2 + i)) (len_minus_2 opt_len)
      = true ↔ ∃ i, i < opt_len - 2 ∧ opt_ctxt.payload.getD i 0 ≠ opt_data (2 + i) := by
    rw [memcmp_ne_iff, len_minus_2_eq opt_len h2 h255]
    simp [payload_ptr, ptr]
  unfold c_tcp_detect_static_opt_changes
  cases hu : opt_ctxt.used
  · simp
  · by_cases hl : opt_len = opt_ctxt.data_len
    · by_cases hc : ∃ i, i < opt_len - 2 ∧ opt_ctxt.payload.getD i 0 ≠ opt_data (2 + i)
      · have hc' := hm.mpr hc
        rw [if_neg (by simp), if_pos (Or.inr hc'), if_neg (by simp), if_pos (Or.inr hc)]
        simp
      · have hc' : memcmp_ne (payload_ptr opt_ctxt) (fun i => opt_data (2 + i))
            (len_minus_2 opt_len) = false := by
          cases hq : memcmp_ne (payload_ptr opt_ctxt) (fun i => opt_data (2 + i))
            (len_minus_2 opt_len) with
          | false => rfl
          | true => exact absurd (hm.mp hq) hc
        rw [if_neg (by simp), if_neg (by simp [hl.symm, hc']), if_neg (by simp),
          if_neg (by simp only [not_or, not_not]; exact ⟨hl, hc⟩)]
        simp
    · have hl' : opt_ctxt.data_len ≠ opt_len := fun h => hl h.symm
      simp [hl, hl']

/-- Witness of C32: the MSS option `02 04 05 b4` against a slot that holds the MSS
option `02 04 05 dc` gives Static, the second content byte being different. -/
theorem static_opt_changes_class_witness :
    c_tcp_detect_static_opt_changes ⟨true, 2, 4, [5, 0xdc], 3, 3, 0⟩ (ptr [2, 4, 5, 0xb4] 0) 4 =
        ROHC_CHANGE_STATIC ∧
      c_tcp_detect_static_opt_changes ⟨true, 2, 4, [5, 0xdc], 3, 3, 0⟩ (ptr [2, 4, 5, 0xb4] 0) 4 ≠
        ROHC_CHANGE_DYNAMIC := by
  have h := static_opt_changes_class ⟨true, 2, 4, [5, 0xdc], 3, 3, 0⟩ (ptr [2, 4, 5, 0xb4] 0) 4
    (by decide) (by decide)
  refine ⟨?_, h.2⟩
  rw [h.1, if_neg (by decide), if_pos (Or.inr ⟨1, by decide, by decide⟩)]

/-- C33: for every SACK option, `c_tcp_detect_sack_changes` returns Static if the
slot is unused; else Dynamic if `tcp_ack_num_changed`; else Dynamic if the length
differs from the `data_len` of the slot or the blocks differ from the payload of
the slot; else None. A length change of a used SACK slot is never classified
Static. -/
theorem sack_changes_class (opt_ctxt : c_tcp_opt_ctxt) (tcp_ack_num_changed : Bool)
    (opt_data : Nat → Nat) (opt_len : Nat) (h2 : 2 ≤ opt_len) (h255 : opt_len ≤ 255) :
    c_tcp_detect_sack_changes opt_ctxt tcp_ack_num_changed opt_data opt_len =
      (if opt_ctxt.used = false then ROHC_CHANGE_STATIC
       else if tcp_ack_num_changed = true then ROHC_CHANGE_DYNAMIC
       else if opt_len ≠ opt_ctxt.data_len ∨
          (∃ i, i < opt_len - 2 ∧ opt_ctxt.payload.getD i 0 ≠ opt_data (2 + i))
        then ROHC_CHANGE_DYNAMIC
       else ROHC_CHANGE_NONE) ∧
    (opt_ctxt.used = true →
      c_tcp_detect_sack_changes opt_ctxt tcp_ack_num_changed opt_data opt_len ≠
        ROHC_CHANGE_STATIC) := by
  have hm : memcmp_ne (payload_ptr opt_ctxt) (fun i => opt_data (2 + i)) (len_minus_2 opt_len)
      = true ↔ ∃ i, i < opt_len - 2 ∧ opt_ctxt.payload.getD i 0 ≠ opt_data (2 + i) := by
    rw [memcmp_ne_iff, len_minus_2_eq opt_len h2 h255]
    simp [payload_ptr, ptr]
  unfold c_tcp_detect_sack_changes
  cases hu : opt_ctxt.used
  · simp
  · cases ha : tcp_ack_num_changed
    · by_cases hl : opt_len = opt_ctxt.data_len
      · by_cases hc : ∃ i, i < opt_len - 2 ∧ opt_ctxt.payload.getD i 0 ≠ opt_data (2 + i)
        · have hc' := hm.mpr hc
          rw [if_neg (by simp), if_neg (by simp), if_pos (Or.inr hc'), if_neg (by simp),
            if_neg (by simp), if_pos (Or.inr hc)]
          simp
        · have hc' : memcmp_ne (payload_ptr opt_ctxt) (fun i => opt_data (2 + i))
              (len_minus_2 opt_len) = false := by
            cases hq : memcmp_ne (payload_ptr opt_ctxt) (fun i => opt_data (2 + i))
              (len_minus_2 opt_len) with
            | false => rfl
            | true => exact absurd (hm.mp hq) hc
          rw [if_neg (by simp), if_neg (by simp), if_neg (by simp [hl.symm, hc']),
            if_neg (by simp), if_neg (by simp),
            if_neg (by simp only [not_or, not_not]; exact ⟨hl, hc⟩)]
          simp
      · simp [hl]
    · simp

/-- Witness of C33: a SACK option of two blocks against a used slot that holds a
SACK option of one block, the ACK number being the same, gives Dynamic and not
Static. -/
theorem sack_changes_class_witness :
    c_tcp_detect_sack_changes ⟨true, 5, 10, [0, 0, 3, 0xe8, 0, 0, 7, 0xd0], 3, 3, 0⟩ false
        (ptr [5, 18, 0, 0, 3, 0xe8, 0, 0, 7, 0xd0, 0, 0, 0x0b, 0xb8, 0, 0, 0x0f, 0xa0] 0) 18 =
        ROHC_CHANGE_DYNAMIC ∧
      c_tcp_detect_sack_changes ⟨true, 5, 10, [0, 0, 3, 0xe8, 0, 0, 7, 0xd0], 3, 3, 0⟩ false
        (ptr [5, 18, 0, 0, 3, 0xe8, 0, 0, 7, 0xd0, 0, 0, 0x0b, 0xb8, 0, 0, 0x0f, 0xa0] 0) 18 ≠
        ROHC_CHANGE_STATIC := by
  have h := sack_changes_class ⟨true, 5, 10, [0, 0, 3, 0xe8, 0, 0, 7, 0xd0], 3, 3, 0⟩ false
    (ptr [5, 18, 0, 0, 3, 0xe8, 0, 0, 7, 0xd0, 0, 0, 0x0b, 0xb8, 0, 0, 0x0f, 0xa0] 0) 18
    (by decide) (by decide)
  refine ⟨?_, h.2 rfl⟩
  rw [h.1, if_neg (by decide), if_neg (by decide), if_pos (Or.inl (by decide))]

/-- C34: for every generic option, `c_tcp_detect_generic_changes` returns Static if
the slot is unused; else Static if the option length differs from the `data_len` of
the slot; else Dynamic if the `len - 2` content bytes differ from the payload of
the slot; else None. Hence whenever the slot is used and the result is not Static,
the length of the option equals the stored one. -/
theorem generic_changes_class (opt_ctxt : c_tcp_opt_ctxt) (opt_data : Nat → Nat)
    (opt_len : Nat) (h2 : 2 ≤ opt_len) (h255 : opt_len ≤ 255) :
    c_tcp_detect_generic_changes opt_ctxt opt_data opt_len =
      (if opt_ctxt.used = false then ROHC_CHANGE_STATIC
       else if opt_len ≠ opt_ctxt.data_len then ROHC_CHANGE_STATIC
       else if ∃ i, i < opt_len - 2 ∧ opt_ctxt.payload.getD i 0 ≠ opt_data (2 + i)
        then ROHC_CHANGE_DYNAMIC
       else ROHC_CHANGE_NONE) ∧
    (opt_ctxt.used = true →
      c_tcp_detect_generic_changes opt_ctxt opt_data opt_len ≠ ROHC_CHANGE_STATIC →
      opt_len = opt_ctxt.data_len) := by
  have hm : memcmp_ne (payload_ptr opt_ctxt) (fun i => opt_data (2 + i)) (len_minus_2 opt_len)
      = true ↔ ∃ i, i < opt_len - 2 ∧ opt_ctxt.payload.getD i 0 ≠ opt_data (2 + i) := by
    rw [memcmp_ne_iff, len_minus_2_eq opt_len h2 h255]
    simp [payload_ptr, ptr]
  unfold c_tcp_detect_generic_changes
  cases hu : opt_ctxt.used
  · simp
  · by_cases hl : opt_len = opt_ctxt.data_len
    · by_cases hc : ∃ i, i < opt_len - 2 ∧ opt_ctxt.payload.getD i 0 ≠ opt_data (2 + i)
      · have hc' := hm.mpr hc
        rw [if_neg (by simp), if_neg (by simp [hl]), if_pos hc', if_neg (by simp),
          if_neg (by simp [hl]), if_pos hc]
        simp [hl]
      · have hc' : memcmp_ne (payload_ptr opt_ctxt) (fun i => opt_data (2 + i))
            (len_minus_2 opt_len) = false := by
          cases hq : memcmp_ne (payload_ptr opt_ctxt) (fun i => opt_data (2 + i))
            (len_minus_2 opt_len) with
          | false => rfl
          | true => exact absurd (hm.mp hq) hc
        rw [if_neg (by simp), if_neg (by simp [hl]), if_neg (by simp [hc']),
          if_neg (by simp), if_neg (by simp [hl]), if_neg hc]
        simp [hl]
    · simp [hl]

/-- Witness of C34: the option `1e 04 aa cc` of kind 30 against a used slot that
holds `1e 04 aa bb` gives Dynamic, and its length is the stored one. -/
theorem generic_changes_class_witness :
    c_tcp_detect_generic_changes ⟨true, 30, 4, [0xaa, 0xbb], 3, 3, 0⟩
        (ptr [30, 4, 0xaa, 0xcc] 0) 4 = ROHC_CHANGE_DYNAMIC ∧
      (4 : Nat) = (⟨true, 30, 4, [0xaa, 0xbb], 3, 3, 0⟩ : c_tcp_opt_ctxt).data_len := by
  have h := generic_changes_class ⟨true, 30, 4, [0xaa, 0xbb], 3, 3, 0⟩
    (ptr [30, 4, 0xaa, 0xcc] 0) 4 (by decide) (by decide)
  have h1 : c_tcp_detect_generic_changes ⟨true, 30, 4, [0xaa, 0xbb], 3, 3, 0⟩
      (ptr [30, 4, 0xaa, 0xcc] 0) 4 = ROHC_CHANGE_DYNAMIC := by
    rw [h.1, if_neg (by decide), if_neg (by decide), if_pos ⟨1, by decide, by decide⟩]
  exact ⟨h1, h.2 rfl (by rw [h1]; decide)⟩

/-! ## Accepted options and their list items -/

/-- In a block of less than 256 bytes, an EOL option that the parsing loop records
is the last one recorded and ends where the block ends. -/
theorem parse_loop_eol_last (opts : List Nat) (L : Nat) (hL : L < 256) :
    ∀ (n off : Nat) (cnt : Nat → Nat) (off' : Nat) (ds : List tcp_opt_descr),
      parse_loop opts L n off cnt = some (off', ds) →
      ∀ (q : Nat) (d : tcp_opt_descr), ds[q]? = some d → d.type = TCP_OPT_EOL →
        q + 1 = ds.length ∧ d.data + d.length = L := by
  intro n
  induction n with
  | zero =>
    intro off cnt off' ds h q d hq
    rw [parse_loop_zero] at h
    simp only [Option.some.injEq, Prod.mk.injEq] at h
    obtain ⟨_, rfl⟩ := h
    simp at hq
  | succ n ih =>
    intro off cnt off' ds h q d hq h0
    rcases parse_loop_succ h with ⟨_, _, rfl⟩ | ⟨hlt, t, len, ds', hg, _, _, _, hrec, rfl⟩
    · simp at hq
    · cases q with
      | zero =>
        simp only [List.getElem?_cons_zero, Option.some.injEq] at hq
        subst hq
        obtain ⟨_, _, _, heol, _⟩ := get_type_len_some hg
        have hl : len = L - off := by rw [heol h0]; omega
        have hdone : ¬ off + len < L := by omega
        rw [parse_loop_done _ _ _ _ _ hdone] at hrec
        simp only [Option.some.injEq, Prod.mk.injEq] at hrec
        obtain ⟨_, rfl⟩ := hrec
        refine ⟨rfl, ?_⟩
        show off + len = L
        omega
      | succ q =>
        simp only [List.getElem?_cons_succ] at hq
        obtain ⟨i1, i2⟩ := ih _ _ _ _ hrec q d hq h0
        exact ⟨by simp only [List.length_cons]; omega, i2⟩

/-- The length that the parsing loop records for an option other than EOL and NOP
is the second byte of the option. -/
theorem parse_loop_second_byte (opts : List Nat) (L : Nat) :
    ∀ (n off : Nat) (cnt : Nat → Nat) (off' : Nat) (ds : List tcp_opt_descr),
      parse_loop opts L n off cnt = some (off', ds) →
      ∀ d ∈ ds, ptr opts d.data 0 = d.type ∧
        (d.type ≠ TCP_OPT_EOL → d.type ≠ TCP_OPT_NOP →
          ptr opts d.data 1 = d.length ∧ 2 ≤ d.length ∧ d.length ≤ 40) := by
  intro n
  induction n with
  | zero =>
    intro off cnt off' ds h
    rw [parse_loop_zero] at h
    simp only [Option.some.injEq, Prod.mk.injEq] at h
    obtain ⟨_, rfl⟩ := h
    simp
  | succ n ih =>
    intro off cnt off' ds h
    rcases parse_loop_succ h with ⟨_, _, rfl⟩ | ⟨_, t, len, ds', hg, hlen, _, _, hrec, rfl⟩
    · simp
    · intro d hd
      rcases List.mem_cons.mp hd with rfl | hd
      · obtain ⟨_, ht, _, _, hoth⟩ := get_type_len_some hg
        refine ⟨ht.symm, fun h0 h1 => ?_⟩
        obtain ⟨_, g2, g3, _⟩ := hoth h0 h1
        exact ⟨g2.symm, g3, hlen⟩
      · exact ih _ _ _ _ hrec d hd

theorem not_reserved_not_eol_nop {t : Nat} (h : ¬ has_reserved_index t) :
    t ≠ TCP_OPT_EOL ∧ t ≠ TCP_OPT_NOP := by
  constructor
  · rintro rfl
    exact h (by unfold has_reserved_index; decide)
  · rintro rfl
    exact h (by unfold has_reserved_index; decide)

/-- C35: in every options block of length `L = data_offset*4 - 20 ≤ 40` that
`rohc_comp_tcp_are_options_acceptable` accepts, an EOL option, if there is one, is
the last recorded option and runs to the end of the block; so an accepted block
holds at most one EOL option, and nothing is parsed after it. -/
theorem eol_is_last_and_fills_block (opts : List Nat) (data_offset : Nat) (h : rohc_tcp_opts)
    (hlo : 5 ≤ data_offset) (hhi : data_offset ≤ 15)
    (hacc : rohc_comp_tcp_are_options_acceptable opts data_offset = some h) :
    (∀ (q : Nat) (d : tcp_opt_descr), h.descrs[q]? = some d → d.type = TCP_OPT_EOL →
      q + 1 = h.nr ∧ d.data + d.length = h.tot_len ∧ 1 ≤ d.length ∧
        ∀ (p : Nat), q < p → h.descrs[p]? = none) ∧
    h.types.count TCP_OPT_EOL ≤ 1 := by
  obtain ⟨hp, _, htot⟩ := acceptable_some hacc
  have hL := opts_len_of_eq data_offset hlo hhi
  rw [hL] at hp htot
  have hlt : data_offset * 4 - 20 < 256 := by omega
  obtain ⟨_, _, i4, i6⟩ := parse_loop_inv opts _ hlt _ _ _ _ _ hp
  refine ⟨fun q d hq h0 => ?_, ?_⟩
  · obtain ⟨j1, j2⟩ := parse_loop_eol_last opts _ hlt _ _ _ _ _ hp q d hq h0
    refine ⟨j1, by rw [htot]; exact j2, (i4 d (List.getElem?_mem hq)).2.1, fun p hqp => ?_⟩
    exact List.getElem?_eq_none (by omega)
  · simpa [rohc_tcp_opts.types] using i6

/-- Witness of C35: the block `01 01 01 00` is accepted, and its EOL option, at
position 3, is the last of its 4 options and ends at offset 4. -/
theorem eol_is_last_and_fills_block_witness :
    rohc_comp_tcp_are_options_acceptable [1, 1, 1, 0] 6 =
        some ⟨[1, 1, 1, 0], [⟨0, 1, 1⟩, ⟨1, 1, 1⟩, ⟨2, 1, 1⟩, ⟨3, 0, 1⟩], 4⟩ ∧
      3 + 1 = (⟨[1, 1, 1, 0], [⟨0, 1, 1⟩, ⟨1, 1, 1⟩, ⟨2, 1, 1⟩, ⟨3, 0, 1⟩], 4⟩ :
        rohc_tcp_opts).nr :=
  ⟨by decide,
    ((eol_is_last_and_fills_block [1, 1, 1, 0] 6
      ⟨[1, 1, 1, 0], [⟨0, 1, 1⟩, ⟨1, 1, 1⟩, ⟨2, 1, 1⟩, ⟨3, 0, 1⟩], 4⟩ (by decide) (by decide)
      (by decide)).1 3 ⟨3, 0, 1⟩ (by decide) (by decide)).1⟩

/-- C36: every option of a block of at most 40 bytes that
`rohc_comp_tcp_are_options_acceptable` accepts is representable by its list item
builder: for an accepted EOL option of length `len`, `(len - 1) * 8 ≤ 255`, and for
an accepted generic option, `len ≤ 127`; so `c_tcp_build_eol_list_item` and
`c_tcp_build_generic_list_item` fail on accepted input for lack of room only. -/
theorem accepted_options_fit_builders (opts : List Nat) (data_offset : Nat) (h : rohc_tcp_opts)
    (hacc : rohc_comp_tcp_are_options_acceptable opts data_offset = some h)
    (htot : h.tot_len ≤ 40) :
    ∀ d ∈ h.descrs,
      (d.type = TCP_OPT_EOL →
        1 ≤ d.length ∧ (d.length - 1) * 8 ≤ 255 ∧
        ∀ (buf : Nat → Nat) (pos room : Nat),
          c_tcp_build_eol_list_item d.length buf pos room = none ↔ room < 1) ∧
      (¬ has_reserved_index d.type →
        d.length ≤ 127 ∧
        ∀ (buf : Nat → Nat) (pos room : Nat),
          c_tcp_build_generic_list_item (ptr h.opts d.data) d.length buf pos room = none ↔
            room < d.length) := by
  obtain ⟨hp, _, htot'⟩ := acceptable_some hacc
  rw [htot'] at htot
  obtain ⟨_, _, i4, _⟩ := parse_loop_inv opts _ (by omega) _ _ _ _ _ hp
  intro d hd
  obtain ⟨_, j2, _, j4, j5⟩ := i4 d hd
  constructor
  · intro h0
    have h32 : d.length ≤ 32 := by
      rw [h0] at j5
      unfold rohc_comp_tcp_are_opts_wellformed at j5
      rw [if_pos rfl] at j5
      by_contra hc
      simp only [] at j5
      rw [if_pos (by omega)] at j5
      exact absurd j5 (by simp)
    refine ⟨j2, by omega, fun buf pos room => ?_⟩
    unfold c_tcp_build_eol_list_item
    have hpad : (d.length * 8 + (SIZE_MAX1 - 8)) % SIZE_MAX1 = (d.length - 1) * 8 := by
      simp only [SIZE_MAX1]
      omega
    simp only [hpad]
    by_cases hr : room < 1
    · rw [if_pos hr]
      exact ⟨fun _ => hr, fun _ => rfl⟩
    · rw [if_neg hr, if_neg (by omega)]
      exact ⟨fun hn => absurd hn (by simp), fun hn => absurd hn hr⟩
  · intro _
    refine ⟨by omega, fun buf pos room => ?_⟩
    unfold c_tcp_build_generic_list_item
    simp only [and_0x7f]
    rw [if_neg (by omega)]
    by_cases hr : room < d.length
    · rw [if_pos hr]
      exact ⟨fun _ => hr, fun _ => rfl⟩
    · rw [if_neg hr]
      exact ⟨fun hn => absurd hn (by simp), fun hn => absurd hn hr⟩

/-- Witness of C36: in the accepted block `01 01 01 00` the EOL option has one
byte, and `(1 - 1) * 8 ≤ 255`. -/
theorem accepted_options_fit_builders_witness :
    rohc_comp_tcp_are_options_acceptable [1, 1, 1, 0] 6 =
        some ⟨[1, 1, 1, 0], [⟨0, 1, 1⟩, ⟨1, 1, 1⟩, ⟨2, 1, 1⟩, ⟨3, 0, 1⟩], 4⟩ ∧
      (1 ≤ (⟨3, 0, 1⟩ : tcp_opt_descr).length ∧ ((⟨3, 0, 1⟩ : tcp_opt_descr).length - 1) * 8 ≤ 255 ∧
        ∀ (buf : Nat → Nat) (pos room : Nat),
          c_tcp_build_eol_list_item (⟨3, 0, 1⟩ : tcp_opt_descr).length buf pos room = none ↔
            room < 1) :=
  ⟨by decide,
    (accepted_options_fit_builders [1, 1, 1, 0] 6
      ⟨[1, 1, 1, 0], [⟨0, 1, 1⟩, ⟨1, 1, 1⟩, ⟨2, 1, 1⟩, ⟨3, 0, 1⟩], 4⟩ (by decide) (by decide)
      ⟨3, 0, 1⟩ (by decide)).1 (by decide)⟩

/-- C37: for every generic option that the acceptor accepts (its kind has no
reserved index, `2 ≤ len ≤ 40`, its second byte is `len`) and a room of at least
`len` bytes, `c_tcp_build_generic_list_item` outputs exactly the `len` original
bytes of the option, unchanged, and leaves the bytes outside the item as they
are. -/
theorem generic_item_is_identity (opts : List Nat) (data_offset : Nat) (h : rohc_tcp_opts)
    (hacc : rohc_comp_tcp_are_options_acceptable opts data_offset = some h)
    (q : Nat) (d : tcp_opt_descr) (hq : h.descrs[q]? = some d)
    (hg : ¬ has_reserved_index d.type) (buf : Nat → Nat) (pos room : Nat)
    (hroom : d.length ≤ room) :
    2 ≤ d.length ∧ d.length ≤ 40 ∧ ptr h.opts d.data 1 = d.length ∧
    ∃ out, c_tcp_build_generic_list_item (ptr h.opts d.data) d.length buf pos room =
        some (d.length, out) ∧
      bytes_at out pos d.length = (List.range d.length).map (ptr h.opts d.data) ∧
      ∀ j, j < pos ∨ pos + d.length ≤ j → out j = buf j := by
  obtain ⟨hp, hopts, _⟩ := acceptable_some hacc
  obtain ⟨h0, h1⟩ := not_reserved_not_eol_nop hg
  obtain ⟨_, hb⟩ := parse_loop_second_byte opts _ _ _ _ _ _ hp d (List.getElem?_mem hq)
  obtain ⟨k1, k2, k3⟩ := hb h0 h1
  rw [hopts]
  refine ⟨k2, k3, k1, ?_⟩
  unfold c_tcp_build_generic_list_item
  simp only [and_0x7f]
  rw [if_neg (by omega), if_neg (by omega)]
  have hm : d.length % 128 = d.length := by omega
  refine ⟨_, rfl, ?_, ?_⟩
  · unfold bytes_at
    apply List.map_congr_left
    intro i hi
    have hi' : i < d.length := List.mem_range.mp hi
    by_cases hi1 : i = 1
    · subst hi1
      rw [upd_eq]
      simp only [Nat.shiftLeft_eq, Nat.zero_mul, Nat.zero_or, hm]
      exact k1.symm
    · rw [upd_ne _ _ _ _ (by omega)]
      exact memcpy_inside buf pos _ d.length i hi'
  · intro j hj
    rw [upd_ne _ _ _ _ (by omega)]
    exact memcpy_outside _ _ _ _ _ hj

/-- Witness of C37: the accepted block `1e 04 aa bb` holds one option of kind 30,
whose item is `1e 04 aa bb`. -/
theorem generic_item_is_identity_witness :
    rohc_comp_tcp_are_options_acceptable [30, 4, 0xaa, 0xbb] 6 = some one_generic ∧
      ∃ out, c_tcp_build_generic_list_item (ptr one_generic.opts 0) 4 (fun _ => 0) 0 4 =
          some (4, out) ∧
        bytes_at out 0 4 = [30, 4, 0xaa, 0xbb] := by
  refine ⟨by decide, ?_⟩
  obtain ⟨_, _, _, out, h1, h2, _⟩ :=
    generic_item_is_identity [30, 4, 0xaa, 0xbb] 6 one_generic (by decide) 0 ⟨0, 30, 4⟩
      (by decide) (by unfold has_reserved_index; decide) (fun _ => 0) 0 4 (by decide)
  exact ⟨out, h1, by rw [h2]; decide⟩

/-! ## Indexes in use after the detector -/

theorem detect_step_used_at (oa : Nat) (opts : List Nat) (opts_ctxt : c_tcp_opts_ctxt)
    (ack : Bool) (st : detect_state) (opt_pos : Nat) (d : tcp_opt_descr) :
    ((detect_step oa opts opts_ctxt ack st opt_pos d).tmp.changes
      (c_tcp_get_opt_index opts_ctxt d.type st.indexes_in_use).1).used = true := by
  unfold detect_step
  simp only []
  split_ifs <;> simp_all [upd, (detect_changes_fields _ _ _ _ _ _ _).1]

/-- The main loop of the detector keeps the index of every position seen at most
15 and in use. -/
theorem detect_loop_used (oa : Nat) (opts : List Nat) (opts_ctxt : c_tcp_opts_ctxt)
    (ack : Bool) : ∀ (ds : List tcp_opt_descr) (opt_pos : Nat) (st : detect_state),
    (∀ p, p < opt_pos → st.tmp.position2index p ≤ 15 ∧
      (st.tmp.changes (st.tmp.position2index p)).used = true) →
    ∀ p, p < opt_pos + ds.length →
      (detect_loop oa opts opts_ctxt ack ds opt_pos st).tmp.position2index p ≤ 15 ∧
      ((detect_loop oa opts opts_ctxt ack ds opt_pos st).tmp.changes
        ((detect_loop oa opts opts_ctxt ack ds opt_pos st).tmp.position2index p)).used = true := by
  intro ds
  induction ds with
  | nil =>
    intro opt_pos st hinv p hp
    exact hinv p (by simpa using hp)
  | cons d ds ih =>
    intro opt_pos st hinv p hp
    rw [detect_loop]
    refine ih (opt_pos + 1) _ ?_ p (by simp only [List.length_cons] at hp; omega)
    intro r hr
    rw [detect_step_position2index]
    by_cases hro : r = opt_pos
    · subst hro
      rw [upd_eq]
      exact ⟨get_opt_index_le _ _ _, detect_step_used_at _ _ _ _ _ _ _⟩
    · rw [upd_ne _ _ _ _ hro]
      obtain ⟨i1, i2⟩ := hinv r (by omega)
      refine ⟨i1, ?_⟩
      by_cases hi : st.tmp.position2index r =
          (c_tcp_get_opt_index opts_ctxt d.type st.indexes_in_use).1
      · rw [hi]
        exact detect_step_used_at _ _ _ _ _ _ _
      · rw [detect_step_changes_other _ _ _ _ _ _ _ _ hi]
        exact i2

/-- C38: after `tcp_detect_options_changes` on a packet of `m` options (in
particular `m ≤ 15`), for every position `p < m`: `position2index[p] ≤ 15` and
`changes[position2index[p]].used` is true, whatever the context and whether or not
the index was recycled; so the assertion that the index of the option is in use,
at the start of each iteration of both encoders, holds for a temporary state that
the detector produced. -/
theorem position_index_in_use (oa : Nat) (h : rohc_tcp_opts) (opts_ctxt : c_tcp_opts_ctxt)
    (tmp : c_tcp_opts_ctxt_tmp) (ack : Bool) (p : Nat) (hp : p < h.nr) :
    (tcp_detect_options_changes oa h opts_ctxt tmp ack).position2index p ≤ 15 ∧
    ((tcp_detect_options_changes oa h opts_ctxt tmp ack).changes
      ((tcp_detect_options_changes oa h opts_ctxt tmp ack).position2index p)).used = true := by
  obtain ⟨f1, f2, _, _⟩ := detect_final_fields oa h opts_ctxt tmp ack
  rw [f1, f2]
  exact detect_loop_used oa h.opts opts_ctxt ack h.descrs 0 (detect_init h opts_ctxt tmp)
    (fun r hr => absurd hr (by omega)) p (by unfold rohc_tcp_opts.nr at hp; omega)

/-- Witness of C38: in the block of ten generic options on a context of which the
nine generic slots are used by other kinds, the index of position 0 is recycled,
and it is in use after the detector. -/
theorem position_index_in_use_witness :
    0 < (⟨ten_generic, [⟨0, 30, 2⟩], 2⟩ : rohc_tcp_opts).nr ∧
      ((tcp_detect_options_changes 3 ⟨ten_generic, [⟨0, 30, 2⟩], 2⟩ recycle_ctxt zero_tmp
        false).position2index 0 ≤ 15 ∧
      ((tcp_detect_options_changes 3 ⟨ten_generic, [⟨0, 30, 2⟩], 2⟩ recycle_ctxt zero_tmp
          false).changes
        ((tcp_detect_options_changes 3 ⟨ten_generic, [⟨0, 30, 2⟩], 2⟩ recycle_ctxt zero_tmp
          false).position2index 0)).used = true) :=
  ⟨by decide,
    position_index_in_use 3 ⟨ten_generic, [⟨0, 30, 2⟩], 2⟩ recycle_ctxt zero_tmp false 0
      (by decide)⟩

/-! ## Length of the comparison of a static option -/

/-- For an option of 2 bytes at least and of 40 bytes at most, the number of
bytes that the detectors compare is `opt_len - 2`, between 0 and 38. -/
theorem len_minus_2_no_wrap (opt_len : Nat) (h2 : 2 ≤ opt_len) (h40 : opt_len ≤ 40) :
    len_minus_2 opt_len = opt_len - 2 ∧ len_minus_2 opt_len ≤ 38 := by
  rw [len_minus_2_eq opt_len h2 (by omega)]
  exact ⟨rfl, by omega⟩

/-- C39 (code evaluated at the failing input): the block `01 01 01 00` is accepted with an EOL
option of one byte, which gets index 1 and so goes to
`c_tcp_detect_static_opt_changes`; against the slot that holds this very option
(used, `data_len = 1`) the content comparison is reached with the length
`opt_len - 2` wrapped to `2^64 - 1`, above 38, and reads the bytes that follow
the options: the option is reported Static although it did not change. -/
theorem one_byte_eol_compares_wrapped_length :
    rohc_comp_tcp_are_options_acceptable eol1_block 6 =
        some ⟨eol1_block, [⟨0, 1, 1⟩, ⟨1, 1, 1⟩, ⟨2, 1, 1⟩, ⟨3, 0, 1⟩], 4⟩ ∧
      c_tcp_get_opt_index { fresh_ctxt with list := fun i => if i = 1 then eol1_slot else unused_slot }
        TCP_OPT_EOL 1 = (TCP_INDEX_EOL, false) ∧
      eol1_slot.used = true ∧ eol1_slot.data_len = 1 ∧
      len_minus_2 1 = 2 ^ 64 - 1 ∧ 38 < len_minus_2 1 ∧
      (∀ tmp ack, c_tcp_opts_detect_changes TCP_INDEX_EOL fresh_ctxt eol1_slot tmp ack
        (ptr eol1_block 3) 1 =
          (c_tcp_detect_static_opt_changes eol1_slot (ptr eol1_block 3) 1, tmp)) ∧
      c_tcp_detect_static_opt_changes eol1_slot (ptr eol1_block 3) 1 = ROHC_CHANGE_STATIC := by
  refine ⟨by decide, by decide, rfl, rfl, by decide, by decide, fun _ _ => rfl, ?_⟩
  have hm : memcmp_ne (payload_ptr eol1_slot) (fun i => ptr eol1_block 3 (2 + i))
      (len_minus_2 1) = true := by
    rw [memcmp_ne_iff]
    exact ⟨0, by decide, by decide⟩
  unfold c_tcp_detect_static_opt_changes
  rw [if_neg (by decide), if_pos (Or.inr hm)]

/-! ## The list item encoder and the initial contents of its buffer -/

/-- What `c_tcp_opt_write_xi` does on two buffers that hold the same byte under the
cursor when the XI field is the 4-bit one of an odd position: the same number of
bytes is completed, the byte under the cursor is the same after the call, and the
bytes that were the same remain so. -/
theorem write_xi_agree (b1 b2 : Nat → Nat) (pos ps opt_pos opt_idx : Nat) (item_needed : Bool)
    (h : ps = 0 → opt_pos % 2 = 1 → b1 pos = b2 pos) :
    (c_tcp_opt_write_xi b1 pos ps opt_pos opt_idx item_needed).1 =
      (if ps = 0 then (if opt_pos % 2 = 1 then 1 else 0) else 1) ∧
    (c_tcp_opt_write_xi b2 pos ps opt_pos opt_idx item_needed).1 =
      (if ps = 0 then (if opt_pos % 2 = 1 then 1 else 0) else 1) ∧
    (c_tcp_opt_write_xi b1 pos ps opt_pos opt_idx item_needed).2 pos =
      (c_tcp_opt_write_xi b2 pos ps opt_pos opt_idx item_needed).2 pos ∧
    ∀ j, b1 j = b2 j →
      (c_tcp_opt_write_xi b1 pos ps opt_pos opt_idx item_needed).2 j =
        (c_tcp_opt_write_xi b2 pos ps opt_pos opt_idx item_needed).2 j := by
  unfold c_tcp_opt_write_xi
  simp only [Nat.and_one_is_mod]
  by_cases hps : ps = 0
  · by_cases hodd : opt_pos % 2 = 1
    · have hb := h hps hodd
      have hne : opt_pos % 2 ≠ 0 := by omega
      simp only [hps, hodd, if_true, ne_eq, one_ne_zero, not_false_eq_true, hb]
      refine ⟨trivial, trivial, by rw [upd_eq, upd_eq], fun j hj => ?_⟩
      by_cases hjp : j = pos
      · subst hjp
        rw [upd_eq, upd_eq]
      · rw [upd_ne _ _ _ _ hjp, upd_ne _ _ _ _ hjp]
        exact hj
    · have he : opt_pos % 2 = 0 := by omega
      simp only [hps, he, if_true, ne_eq, not_true_eq_false, if_false, zero_ne_one]
      refine ⟨trivial, trivial, by rw [upd_eq, upd_eq], fun j hj => ?_⟩
      by_cases hjp : j = pos
      · subst hjp
        rw [upd_eq, upd_eq]
      · rw [upd_ne _ _ _ _ hjp, upd_ne _ _ _ _ hjp]
        exact hj
  · simp only [hps, if_false]
    refine ⟨trivial, trivial, by rw [upd_eq, upd_eq], fun j hj => ?_⟩
    by_cases hjp : j = pos
    · subst hjp
      rw [upd_eq, upd_eq]
    · rw [upd_ne _ _ _ _ hjp, upd_ne _ _ _ _ hjp]
      exact hj

theorem upd_agree (b1 b2 : Nat → Nat) (pos v j : Nat) (h : j = pos ∨ b1 j = b2 j) :
    upd b1 pos v j = upd b2 pos v j := by
  by_cases hjp : j = pos
  · subst hjp
    rw [upd_eq, upd_eq]
  · rw [upd_ne _ _ _ _ hjp, upd_ne _ _ _ _ hjp]
    rcases h with h | h
    · exact absurd h hjp
    · exact h

theorem memcpy_agree (b1 b2 : Nat → Nat) (pos : Nat) (src : Nat → Nat) (n j : Nat)
    (h : (pos ≤ j ∧ j < pos + n) ∨ b1 j = b2 j) :
    memcpy b1 pos src n j = memcpy b2 pos src n j := by
  unfold memcpy
  by_cases hin : pos ≤ j ∧ j < pos + n
  · rw [if_pos hin, if_pos hin]
  · rw [if_neg hin, if_neg hin]
    rcases h with h | h
    · exact absurd h hin
    · exact h

/-- What a builder of list item does on two buffers: it fails on both, or it gives
the same length on both, the same bytes in the item, and the bytes that were the
same in the two buffers remain so. -/
theorem build_list_item_agree (opt_idx : Nat) (ext : ext_coders) (ack_num : Nat)
    (uncomp_opt : Nat → Nat) (uncomp_opt_len : Nat) (b1 b2 : Nat → Nat) (pos room : Nat) :
    (c_tcp_opts_build_list_item opt_idx ext ack_num uncomp_opt uncomp_opt_len b1 pos room = none ∧
      c_tcp_opts_build_list_item opt_idx ext ack_num uncomp_opt uncomp_opt_len b2 pos room =
        none) ∨
    ∃ n o1 o2,
      c_tcp_opts_build_list_item opt_idx ext ack_num uncomp_opt uncomp_opt_len b1 pos room =
        some (n, o1) ∧
      c_tcp_opts_build_list_item opt_idx ext ack_num uncomp_opt uncomp_opt_len b2 pos room =
        some (n, o2) ∧
      (∀ j, pos ≤ j → j < pos + n → o1 j = o2 j) ∧
      (∀ j, b1 j = b2 j → o1 j = o2 j) := by
  unfold c_tcp_opts_build_list_item
  split_ifs with h0 h1 h2 h3 h4 h5 h6
  · right
    exact ⟨0, b1, b2, rfl, rfl, fun j _ _ => by omega, fun j hj => hj⟩
  · unfold c_tcp_build_eol_list_item
    simp only []
    split_ifs
    · exact Or.inl ⟨rfl, rfl⟩
    · exact Or.inl ⟨rfl, rfl⟩
    · right
      exact ⟨1, _, _, rfl, rfl, fun j _ _ => upd_agree _ _ _ _ _ (Or.inl (by omega)),
        fun j hj => upd_agree _ _ _ _ _ (Or.inr hj)⟩
  · unfold c_tcp_build_mss_list_item
    simp only []
    split_ifs
    · exact Or.inl ⟨rfl, rfl⟩
    · right
      exact ⟨2, _, _, rfl, rfl, fun j hj1 hj2 => memcpy_agree _ _ _ _ _ _ (Or.inl ⟨hj1, hj2⟩),
        fun j hj => memcpy_agree _ _ _ _ _ _ (Or.inr hj)⟩
  · unfold c_tcp_build_ws_list_item
    simp only []
    split_ifs
    · exact Or.inl ⟨rfl, rfl⟩
    · right
      exact ⟨1, _, _, rfl, rfl, fun j _ _ => upd_agree _ _ _ _ _ (Or.inl (by omega)),
        fun j hj => upd_agree _ _ _ _ _ (Or.inr hj)⟩
  · unfold c_tcp_build_ts_list_item
    simp only []
    split_ifs
    · exact Or.inl ⟨rfl, rfl⟩
    · right
      exact ⟨sizeof_tcp_option_timestamp, _, _, rfl, rfl,
        fun j hj1 hj2 => memcpy_agree _ _ _ _ _ _ (Or.inl ⟨hj1, hj2⟩),
        fun j hj => memcpy_agree _ _ _ _ _ _ (Or.inr hj)⟩
  · right
    exact ⟨0, b1, b2, rfl, rfl, fun j _ _ => by omega, fun j hj => hj⟩
  · unfold c_tcp_build_sack_list_item
    cases hs : ext.c_tcp_opt_sack_code ack_num (fun i => uncomp_opt (2 + i))
        (len_minus_2 uncomp_opt_len) false room with
    | none => exact Or.inl ⟨rfl, rfl⟩
    | some bs =>
      right
      exact ⟨bs.length, _, _, rfl, rfl,
        fun j hj1 hj2 => memcpy_agree _ _ _ _ _ _ (Or.inl ⟨hj1, hj2⟩),
        fun j hj => memcpy_agree _ _ _ _ _ _ (Or.inr hj)⟩
  · unfold c_tcp_build_generic_list_item
    simp only []
    split_ifs
    · exact Or.inl ⟨rfl, rfl⟩
    · exact Or.inl ⟨rfl, rfl⟩
    · right
      refine ⟨uncomp_opt_len, _, _, rfl, rfl, fun j hj1 hj2 => ?_, fun j hj => ?_⟩
      · exact upd_agree _ _ _ _ _ (Or.inr (memcpy_agree _ _ _ _ _ _ (Or.inl ⟨hj1, hj2⟩)))
      · exact upd_agree _ _ _ _ _ (Or.inr (memcpy_agree _ _ _ _ _ _ (Or.inr hj)))

/-- One iteration of the list item encoder on two states that hold the same
output: it fails on both, or it gives two states that hold the same output. -/
theorem list_item_step_agree (ext : ext_coders) (opts : List Nat) (ack_num : Nat)
    (tmp : c_tcp_opts_ctxt_tmp) (items_needed : Nat → Bool) (ps xi_len k : Nat)
    (s1 s2 : list_item_state) (d : tcp_opt_descr) (hinv : same_output ps xi_len k s1 s2) :
    (list_item_step ext opts ack_num tmp items_needed ps s1 k d = none ∧
      list_item_step ext opts ack_num tmp items_needed ps s2 k d = none) ∨
    ∃ t1 t2, list_item_step ext opts ack_num tmp items_needed ps s1 k d = some t1 ∧
      list_item_step ext opts ack_num tmp items_needed ps s2 k d = some t2 ∧
      same_output ps xi_len (k + 1) t1 t2 := by
  obtain ⟨e1, e2, e3, e4, c1, c2, a1, a2, a3⟩ := hinv
  obtain ⟨x1, x2, x3, x4⟩ := write_xi_agree s1.buf s2.buf s1.xi_remain_data ps k
    (tmp.position2index k) (items_needed (tmp.position2index k)) a2
  have hcur : s1.xi_remain_data + (if ps = 0 then (if k % 2 = 1 then 1 else 0) else 1) =
      (if ps = 0 then 1 + (k + 1) / 2 else 1 + (k + 1)) := by
    rw [c1]
    split_ifs <;> omega
  have hxi : ∀ j, j < s1.xi_remain_data +
        (if ps = 0 then (if k % 2 = 1 then 1 else 0) else 1) →
      (c_tcp_opt_write_xi s1.buf s1.xi_remain_data ps k (tmp.position2index k)
        (items_needed (tmp.position2index k))).2 j =
      (c_tcp_opt_write_xi s2.buf s1.xi_remain_data ps k (tmp.position2index k)
        (items_needed (tmp.position2index k))).2 j := by
    intro j hj
    by_cases hjc : j < s1.xi_remain_data
    · exact x4 j (a1 j hjc)
    · have hjeq : j = s1.xi_remain_data := by
        split_ifs at hj <;> omega
      rw [hjeq]
      exact x3
  have hodd : ps = 0 → (k + 1) % 2 = 1 →
      (c_tcp_opt_write_xi s1.buf s1.xi_remain_data ps k (tmp.position2index k)
        (items_needed (tmp.position2index k))).2
        (s1.xi_remain_data + (if ps = 0 then (if k % 2 = 1 then 1 else 0) else 1)) =
      (c_tcp_opt_write_xi s2.buf s1.xi_remain_data ps k (tmp.position2index k)
        (items_needed (tmp.position2index k))).2
        (s1.xi_remain_data + (if ps = 0 then (if k % 2 = 1 then 1 else 0) else 1)) := by
    intro hps hk
    rw [if_pos hps, if_neg (by omega), Nat.add_zero]
    exact x3
  have hitems : ∀ j, xi_len ≤ j → j < s1.items_remain_data →
      (c_tcp_opt_write_xi s1.buf s1.xi_remain_data ps k (tmp.position2index k)
        (items_needed (tmp.position2index k))).2 j =
      (c_tcp_opt_write_xi s2.buf s1.xi_remain_data ps k (tmp.position2index k)
        (items_needed (tmp.position2index k))).2 j :=
    fun j hj1 hj2 => x4 j (a3 j hj1 hj2)
  unfold list_item_step
  simp only [e1, e2, e3, e4]
  by_cases hn : items_needed (tmp.position2index k) = true
  · rw [if_neg (by simp [hn]), if_neg (by simp [hn])]
    rcases build_list_item_agree (tmp.position2index k) ext ack_num (ptr opts d.data) d.length
      (c_tcp_opt_write_xi s1.buf s1.xi_remain_data ps k (tmp.position2index k)
        (items_needed (tmp.position2index k))).2
      (c_tcp_opt_write_xi s2.buf s1.xi_remain_data ps k (tmp.position2index k)
        (items_needed (tmp.position2index k))).2
      s1.items_remain_data s1.items_remain_len with ⟨n1, n2⟩ | ⟨n, o1, o2, g1, g2, g3, g4⟩
    · left
      rw [n1, n2]
      exact ⟨rfl, rfl⟩
    · right
      rw [g1, g2]
      refine ⟨_, _, rfl, rfl, ?_⟩
      refine ⟨by simp only [x1, x2], rfl, rfl, rfl, ?_, ?_, ?_, ?_, ?_⟩
      · show s1.xi_remain_data + _ = _
        rw [x1]
        exact hcur
      · show s1.comp_opts_len + n = s1.items_remain_data + n
        rw [c2]
      · intro j hj
        have hj' : j < s1.xi_remain_data +
            (if ps = 0 then (if k % 2 = 1 then 1 else 0) else 1) := by
          rw [← x1]
          exact hj
        exact g4 j (hxi j hj')
      · intro hps hk
        show o1 (s1.xi_remain_data + _) = o2 (s1.xi_remain_data + _)
        rw [x1]
        exact g4 _ (hodd hps hk)
      · intro j hj1 hj2
        have hj2' : j < s1.items_remain_data + n := hj2
        by_cases hjo : j < s1.items_remain_data
        · exact g4 j (hitems j hj1 hjo)
        · exact g3 j (by omega) hj2'
  · right
    rw [if_pos (by simp [hn]), if_pos (by simp [hn])]
    refine ⟨_, _, rfl, rfl, ?_⟩
    refine ⟨by simp only [x1, x2], rfl, rfl, rfl, ?_, c2, ?_, ?_, ?_⟩
    · show s1.xi_remain_data + _ = _
      rw [x1]
      exact hcur
    · intro j hj
      have hj' : j < s1.xi_remain_data +
          (if ps = 0 then (if k % 2 = 1 then 1 else 0) else 1) := by
        rw [← x1]
        exact hj
      exact hxi j hj'
    · intro hps hk
      show (c_tcp_opt_write_xi s1.buf _ _ _ _ _).2 (s1.xi_remain_data + _) =
        (c_tcp_opt_write_xi s2.buf _ _ _ _ _).2 (s1.xi_remain_data + _)
      rw [x1]
      exact hodd hps hk
    · exact hitems

/-- The loop of the list item encoder on two states that hold the same output: it
fails on both, or it gives two states that hold the same output. -/
theorem list_item_loop_agree (ext : ext_coders) (opts : List Nat) (ack_num : Nat)
    (tmp : c_tcp_opts_ctxt_tmp) (items_needed : Nat → Bool) (ps xi_len : Nat) :
    ∀ (ds : List tcp_opt_descr) (k : Nat) (s1 s2 : list_item_state),
    same_output ps xi_len k s1 s2 →
    (list_item_loop ext opts ack_num tmp items_needed ps (ds.enumFrom k) s1 = none ∧
      list_item_loop ext opts ack_num tmp items_needed ps (ds.enumFrom k) s2 = none) ∨
    ∃ t1 t2, list_item_loop ext opts ack_num tmp items_needed ps (ds.enumFrom k) s1 = some t1 ∧
      list_item_loop ext opts ack_num tmp items_needed ps (ds.enumFrom k) s2 = some t2 ∧
      same_output ps xi_len (k + ds.length) t1 t2 := by
  intro ds
  induction ds with
  | nil =>
    intro k s1 s2 hinv
    right
    exact ⟨s1, s2, rfl, rfl, hinv⟩
  | cons d ds ih =>
    intro k s1 s2 hinv
    simp only [List.enumFrom_cons, list_item_loop, List.length_cons]
    rcases list_item_step_agree ext opts ack_num tmp items_needed ps xi_len k s1 s2 d hinv with
      ⟨n1, n2⟩ | ⟨t1, t2, g1, g2, g3⟩
    · left
      rw [n1, n2]
      exact ⟨rfl, rfl⟩
    · rw [g1, g2, Option.some_bind, Option.some_bind]
      have := ih (k + 1) t1 t2 g3
      rw [show k + 1 + ds.length = k + (ds.length + 1) by omega] at this
      exact this

/-- C40: for every packet (a fortiori one without SACK option, the SACK coder being
held as a function of its arguments that gives the bytes it writes), every
temporary state and every array `items_needed`, the result of
`c_tcp_code_tcp_opts_list_item` and the bytes that it writes in
`[0, returned length)` do not depend on the initial contents of the output buffer:
on two buffers of the same size it fails on both, or it returns the same length
and the same output bytes on both. -/
theorem list_item_output_independent_of_buffer (ext : ext_coders) (h : rohc_tcp_opts)
    (ack_num : Nat) (tmp : c_tcp_opts_ctxt_tmp) (items_needed : Nat → Bool)
    (buf1 buf2 : Nat → Nat) (comp_opts_max_len : Nat) :
    (c_tcp_code_tcp_opts_list_item ext h ack_num tmp items_needed buf1 comp_opts_max_len = none ∧
      c_tcp_code_tcp_opts_list_item ext h ack_num tmp items_needed buf2 comp_opts_max_len =
        none) ∨
    ∃ n out1 out2,
      c_tcp_code_tcp_opts_list_item ext h ack_num tmp items_needed buf1 comp_opts_max_len =
        some (n, out1) ∧
      c_tcp_code_tcp_opts_list_item ext h ack_num tmp items_needed buf2 comp_opts_max_len =
        some (n, out2) ∧
      (∀ j, j < n → out1 j = out2 j) ∧ bytes_at out1 0 n = bytes_at out2 0 n := by
  unfold c_tcp_code_tcp_opts_list_item
  by_cases hroom : comp_opts_max_len <
      c_tcp_opt_compute_xi_len (c_tcp_opt_compute_ps tmp.idx_max) h.nr
  · left
    rw [if_pos hroom, if_pos hroom]
    exact ⟨rfl, rfl⟩
  · rw [if_neg hroom, if_neg hroom]
    have hinit : same_output (c_tcp_opt_compute_ps tmp.idx_max)
        (c_tcp_opt_compute_xi_len (c_tcp_opt_compute_ps tmp.idx_max) h.nr) 0
        (list_item_init buf1 comp_opts_max_len (c_tcp_opt_compute_ps tmp.idx_max) h.nr)
        (list_item_init buf2 comp_opts_max_len (c_tcp_opt_compute_ps tmp.idx_max) h.nr) := by
      refine ⟨rfl, rfl, rfl, rfl, ?_, rfl, ?_, ?_, ?_⟩
      · show 1 = _
        split_ifs <;> rfl
      · intro j hj
        have hj0 : j = 0 := by
          have : j < 1 := hj
          omega
        subst hj0
        simp only [list_item_init, upd_eq]
      · intro _ hk
        exact absurd hk (by decide)
      · intro j hj1 hj2
        have : j < c_tcp_opt_compute_xi_len (c_tcp_opt_compute_ps tmp.idx_max) h.nr := hj2
        omega
    rcases list_item_loop_agree ext h.opts ack_num tmp items_needed
      (c_tcp_opt_compute_ps tmp.idx_max)
      (c_tcp_opt_compute_xi_len (c_tcp_opt_compute_ps tmp.idx_max) h.nr) h.descrs 0 _ _ hinit with
      ⟨n1, n2⟩ | ⟨t1, t2, g1, g2, e1, e2, e3, e4, c1, c2, a1, a2, a3⟩
    · left
      unfold List.enum
      rw [n1, n2]
      exact ⟨rfl, rfl⟩
    · right
      unfold List.enum
      rw [g1, g2]
      have hall : ∀ j, j < t1.comp_opts_len → t1.buf j = t2.buf j := by
        intro j hj
        rw [c2] at hj
        by_cases hjx : c_tcp_opt_compute_xi_len (c_tcp_opt_compute_ps tmp.idx_max) h.nr ≤ j
        · exact a3 j hjx hj
        · rcases compute_ps_cases tmp.idx_max with hps | hps
          · rw [hps] at hjx c1 a2
            rw [xi_len_4] at hjx
            rw [if_pos rfl] at c1
            unfold rohc_tcp_opts.nr at hjx
            by_cases hjc : j < t1.xi_remain_data
            · exact a1 j hjc
            · have hm : (0 + h.descrs.length) % 2 = 1 := by omega
              have hjeq : j = t1.xi_remain_data := by omega
              rw [hjeq]
              exact a2 rfl hm
          · rw [hps] at hjx c1
            rw [xi_len_8] at hjx
            rw [if_neg (by decide)] at c1
            unfold rohc_tcp_opts.nr at hjx
            exact a1 j (by omega)
      refine ⟨t1.comp_opts_len, t1.buf, t2.buf, rfl, ?_, hall, ?_⟩
      · simp only [Option.map_some', e4]
      · unfold bytes_at
        apply List.map_congr_left
        intro i hi
        rw [Nat.zero_add]
        exact hall i (List.mem_range.mp hi)

/-! ## Overflow of the encoders -/

end RohcTcpOpts
